import Mathlib

/-!
# Verification development for the MOTION / ABYN secure-computation engine

Shallow embedding of
* `src/abyncore/crypto/multiplication_triple/mt_provider.cpp` (namespace `ABYN`),
* `src/motioncore/executor/new_gate_executor.cpp` (namespace `MOTION`),
* `src/motioncore/protocols/gmw/gmw_provider.cpp` (namespace `MOTION.proto.gmw`),
* `src/examples/add_mul_compare/add_mul_compare.cpp` (namespace `add_mul_compare`).

Conventions: `std::size_t` is a `Nat` reduced modulo `2 ^ 64` wherever the C++
code does arithmetic on it; a `BitVector` is a `List Bool`; a raised exception,
a failed assertion, a wait that never ends and a loop that runs out of fuel are
`none` (or an `Except.error` where the kind of error matters). The member functions
of the GMW provider that can both throw and fail an assertion return a `Result`,
which tells the two apart, next to the provider afterwards.

# Definitions
-/

namespace ABYN

/-- Number of values of a 64-bit `std::size_t`. -/
def SIZE_MOD : Nat := 2 ^ 64

/-- The enum `ENCRYPTO::ObliviousTransfer::OTProtocol` of `ot_provider.h`. -/
inductive OTProtocol where
  | GOT
  | ROT
  | XCOT
  | ACOT
  | invalid_OT
deriving DecidableEq, Repr

/-- The class `OTVectorSender` of `ot_provider.h`: the registration data, the inputs
set by `SetInputs`, and the outputs that `GetOutputs` hands back once the
OT protocol has run. -/
structure OTVectorSender where
  bitlen : Nat
  num_ots : Nat
  p : OTProtocol
  inputs : List (List Bool)
  outputs : List (List Bool)
deriving DecidableEq, Repr

/-- The class `OTVectorReceiver` of `ot_provider.h`: the registration data, the choices
set by `SetChoices`, and the outputs that `GetOutputs` hands back once the
OT protocol has run. -/
structure OTVectorReceiver where
  bitlen : Nat
  num_ots : Nat
  p : OTProtocol
  choices : List Bool
  outputs : List (List Bool)
deriving DecidableEq, Repr

/-- The struct `BinaryMTVector`: three bit vectors. -/
structure BinaryMTVector where
  a : List Bool
  b : List Bool
  c : List Bool
deriving DecidableEq, Repr

/-- The struct `IntegerMTVector<T>`: three vectors of `T`. -/
structure IntegerMTVector where
  a : List Nat
  b : List Nat
  c : List Nat
deriving DecidableEq, Repr

/-- The data members of `MTProvider` / `MTProviderFromOTs` that `mt_provider.cpp` reads
and writes. `num_providers` is `ot_providers_.size()`; `max_batch_size` is the
constant `max_batch_size_` of the header, taken as a parameter. -/
structure MTProviderFromOTs where
  my_id : Nat
  num_providers : Nat
  max_batch_size : Nat
  num_bit_mts : Nat
  num_mts_8 : Nat
  num_mts_16 : Nat
  num_mts_32 : Nat
  num_mts_64 : Nat
  bit_mts : BinaryMTVector
  mts8 : IntegerMTVector
  mts16 : IntegerMTVector
  mts32 : IntegerMTVector
  mts64 : IntegerMTVector
  bit_ots_snd : List (List OTVectorSender)
  bit_ots_rcv : List (List OTVectorReceiver)
  finished : Bool
deriving DecidableEq, Repr

/-- The randomness drawn by `RegisterOTs`: one stream per call of
`BitVector::Random`. The integer streams are indexed by the bit width. -/
structure RandomSource where
  bit_a : Nat → Bool
  bit_b : Nat → Bool
  int_a : Nat → Nat → Nat
  int_b : Nat → Nat → Nat

/-- What the OT protocol delivers to one party: `snd i k` are the outputs of the
`k`-th send vector registered towards party `i`, `rcv i k` those of the `k`-th
receive vector. -/
structure OTOutcome where
  snd : Nat → Nat → List (List Bool)
  rcv : Nat → Nat → List (List Bool)

/-- Modelled from the spec: `BitVector::Random(n)` of the absent `utility/bit_vector.h`,
"random construction of length n"; the bits come from the given stream. -/
def Random (r : Nat → Bool) (n : Nat) : List Bool :=
  (List.range n).map r

/-- Modelled from the spec: `BitVector::Subset(from, to)` of the absent
`utility/bit_vector.h`, the "sub-range view"; as at its call sites it is the
half-open range of positions `from, ..., to - 1`, and a range that does not lie
within the vector is an error. -/
def Subset (v : List Bool) (pos_from pos_to : Nat) : Option (List Bool) :=
  if pos_from ≤ pos_to ∧ pos_to ≤ v.length then
    some ((v.drop pos_from).take (pos_to - pos_from))
  else none

/-- The constructors `MTProvider::MTProvider` and `MTProviderFromOTs::MTProviderFromOTs`:
counters at zero, empty pools, one empty queue per OT provider, not finished. -/
def MTProviderFromOTs.new (my_id num_providers max_batch_size : Nat) : MTProviderFromOTs :=
  { my_id := my_id
    num_providers := num_providers
    max_batch_size := max_batch_size
    num_bit_mts := 0
    num_mts_8 := 0
    num_mts_16 := 0
    num_mts_32 := 0
    num_mts_64 := 0
    bit_mts := ⟨[], [], []⟩
    mts8 := ⟨[], [], []⟩
    mts16 := ⟨[], [], []⟩
    mts32 := ⟨[], [], []⟩
    mts64 := ⟨[], [], []⟩
    bit_ots_snd := List.replicate num_providers []
    bit_ots_rcv := List.replicate num_providers []
    finished := false }

/-- The function `MTProvider::NeedMTs`: the sum of the five counters, in `std::size_t`, is positive. -/
def NeedMTs (s : MTProviderFromOTs) : Bool :=
  decide (0 < (s.num_bit_mts + s.num_mts_8 + s.num_mts_16 + s.num_mts_32 + s.num_mts_64)
    % SIZE_MOD)

/-- The function `MTProvider::RequestBinaryMTs`: returns the old counter and adds `num_mts` to it. -/
def RequestBinaryMTs (s : MTProviderFromOTs) (num_mts : Nat) : Nat × MTProviderFromOTs :=
  let offset := s.num_bit_mts
  (offset, { s with num_bit_mts := (s.num_bit_mts + num_mts) % SIZE_MOD })

/-- Modelled from the spec: `MTProvider::RequestMTs<T>` of the absent `mt_provider.h`, the
reservation call for the integer width `w`, which like `RequestBinaryMTs` returns the old
counter of that width and adds `num_mts` to it. Other widths reserve nothing. -/
def RequestMTs (w : Nat) (s : MTProviderFromOTs) (num_mts : Nat) : Nat × MTProviderFromOTs :=
  if w = 8 then (s.num_mts_8, { s with num_mts_8 := (s.num_mts_8 + num_mts) % SIZE_MOD })
  else if w = 16 then
    (s.num_mts_16, { s with num_mts_16 := (s.num_mts_16 + num_mts) % SIZE_MOD })
  else if w = 32 then
    (s.num_mts_32, { s with num_mts_32 := (s.num_mts_32 + num_mts) % SIZE_MOD })
  else if w = 64 then
    (s.num_mts_64, { s with num_mts_64 := (s.num_mts_64 + num_mts) % SIZE_MOD })
  else (0, s)

/-- The function `MTProvider::GetBinary`: the two size assertions, `WaitFinished` (which never returns
when `finished_` is not set), then the three sub-vectors from `offset` to `offset + n`. -/
def GetBinary (s : MTProviderFromOTs) (offset n : Nat) : Option BinaryMTVector :=
  if s.bit_mts.a.length ≠ s.bit_mts.b.length then none
  else if s.bit_mts.b.length ≠ s.bit_mts.c.length then none
  else if s.finished = false then none
  else do
    let a ← Subset s.bit_mts.a offset ((offset + n) % SIZE_MOD)
    let b ← Subset s.bit_mts.b offset ((offset + n) % SIZE_MOD)
    let c ← Subset s.bit_mts.c offset ((offset + n) % SIZE_MOD)
    pure ⟨a, b, c⟩

/-- The two statements of `RegisterOTs` that fill `mts_w_.a` (or `mts_w_.b`) for one integer
width `w` (lines 118-123 for `w = 8`): the buffer is `BitVector::Random(num * w)`, the
product being taken in `std::size_t`, and `assign` reads `num` values of `w` bits from the
data of the buffer, the `i`-th of which is `r i` reduced to `w` bits. The result is `none`
when the `num * w` bits read do not lie within the buffer, where `assign` reads past its
end. -/
def randomIntegers (w num : Nat) (r : Nat → Nat) : Option (List Nat) :=
  if num * w ≤ (num * w) % SIZE_MOD then some ((List.range num).map (fun i => r i % 2 ^ w))
  else none

/-- The block `if (num_mts_w_ > 0u)` of `RegisterOTs` for one integer width `w`:
`a` and `b` are assigned `num` fresh values of `w` bits, and one product per element
of `a` is appended to `c`; `none` when an assignment reads past its random buffer. -/
def fillIntegerMTs (w num : Nat) (ra rb : Nat → Nat) (v : IntegerMTVector) :
    Option IntegerMTVector :=
  if 0 < num then
    match randomIntegers w num ra, randomIntegers w num rb with
    | some a, some b =>
      some { a := a, b := b, c := v.c ++ List.zipWith (fun x y => (x * y) % 2 ^ w) a b }
    | _, _ => none
  else some v

/-- The block `if (num_bit_mts_ > 0u)` of `RegisterOTs` (lines 112-116): the local
initialisation of the binary pool. -/
def initBinaryPool (rnd : RandomSource) (s : MTProviderFromOTs) : MTProviderFromOTs :=
  { s with
    bit_mts :=
      if 0 < s.num_bit_mts then
        let a := Random rnd.bit_a s.num_bit_mts
        let b := Random rnd.bit_b s.num_bit_mts
        { a := a, b := b, c := List.zipWith (fun x y => x && y) a b }
      else s.bit_mts }

/-- The first half of `RegisterOTs` (lines 112-160): the local initialisation of the pools;
`none` when an assignment of an integer pool reads past its random buffer. -/
def initPools (rnd : RandomSource) (s : MTProviderFromOTs) : Option MTProviderFromOTs :=
  let s0 := initBinaryPool rnd s
  match fillIntegerMTs 8 s.num_mts_8 (rnd.int_a 8) (rnd.int_b 8) s.mts8,
      fillIntegerMTs 16 s.num_mts_16 (rnd.int_a 16) (rnd.int_b 16) s.mts16,
      fillIntegerMTs 32 s.num_mts_32 (rnd.int_a 32) (rnd.int_b 32) s.mts32,
      fillIntegerMTs 64 s.num_mts_64 (rnd.int_a 64) (rnd.int_b 64) s.mts64 with
  | some mts8, some mts16, some mts32, some mts64 =>
    some { s0 with mts8 := mts8, mts16 := mts16, mts32 := mts32, mts64 := mts64 }
  | _, _, _, _ => none

/-- The loop `for (k = 0; k < batch_size; ++k)` of `RegisterOTs` (lines 172-174), from `k` on,
`todo` iterations remaining: the one-bit vector holding bit `mt_id + k` of `a` is appended
to `v_r`. -/
def inputBits (a : List Bool) (mt_id : Nat) :
    Nat → Nat → List (List Bool) → Option (List (List Bool))
  | 0, _, v_r => some v_r
  | todo + 1, k, v_r =>
    match a[mt_id + k]? with
    | some bit => inputBits a mt_id todo (k + 1) (v_r ++ [[bit]])
    | none => none

/-- The loop `for (mt_id = 0; mt_id < num_bit_mts_;)` of `RegisterOTs` for one peer
(lines 168-184), started at `mt_id` with the queues `snd`, `rcv`. One unit of fuel is one
iteration; `none` is fuel exhausted or an access outside a bit vector. -/
def registerLoop (mb n : Nat) (a b : List Bool) :
    Nat → Nat → List OTVectorSender → List OTVectorReceiver →
    Option (List OTVectorSender × List OTVectorReceiver)
  | fuel, mt_id, snd, rcv =>
    if mt_id < n then
      match fuel with
      | 0 => none
      | fuel + 1 =>
        let batch_size := min mb (n - mt_id)
        match inputBits a mt_id batch_size 0 [], Subset b mt_id (mt_id + batch_size) with
        | some v_r, some ch =>
          let ot_s : OTVectorSender := ⟨1, batch_size, OTProtocol.XCOT, v_r, []⟩
          let ot_r : OTVectorReceiver := ⟨1, batch_size, OTProtocol.XCOT, ch, []⟩
          registerLoop mb n a b fuel (mt_id + batch_size) (snd ++ [ot_s]) (rcv ++ [ot_r])
        | _, _ => none
    else some (snd, rcv)

/-- The loop over the OT providers of `RegisterOTs` (lines 163-198), from provider `i`
on, `todo` providers remaining; the iterations of the OpenMP loop, each of which touches
the queues of its own peer only, are taken in index order. The blocks of the integer widths
are empty in the source (`// TODO`). -/
def registerPeers (fuel : Nat) : Nat → Nat → MTProviderFromOTs → Option MTProviderFromOTs
  | 0, _, s => some s
  | todo + 1, i, s =>
    if i = s.my_id then registerPeers fuel todo (i + 1) s
    else if 0 < s.num_bit_mts then
      match s.bit_ots_snd[i]?, s.bit_ots_rcv[i]? with
      | some snd, some rcv =>
        match registerLoop s.max_batch_size s.num_bit_mts s.bit_mts.a s.bit_mts.b
            fuel 0 snd rcv with
        | some (snd1, rcv1) =>
          registerPeers fuel todo (i + 1)
            { s with bit_ots_snd := s.bit_ots_snd.set i snd1
                     bit_ots_rcv := s.bit_ots_rcv.set i rcv1 }
        | none => none
      | _, _ => none
    else registerPeers fuel todo (i + 1) s

/-- The function `MTProviderFromOTs::RegisterOTs`. -/
def RegisterOTs (fuel : Nat) (rnd : RandomSource) (s : MTProviderFromOTs) :
    Option MTProviderFromOTs :=
  match initPools rnd s with
  | some s0 => registerPeers fuel s0.num_providers 0 s0
  | none => none

/-- The function `MTProviderFromOTs::PreSetup`. -/
def PreSetup (fuel : Nat) (rnd : RandomSource) (s : MTProviderFromOTs) :
    Option MTProviderFromOTs :=
  if NeedMTs s then RegisterOTs fuel rnd s else some s

/-- The parallel part of `Setup` (lines 78-99): for every peer, `SendMessages` on each send
vector and `SendCorrections` on each receive vector. When the OT protocol has run,
`GetOutputs` of the `k`-th vector towards peer `i` returns what the protocol delivered. -/
def runOTs (out : OTOutcome) (s : MTProviderFromOTs) : MTProviderFromOTs :=
  { s with
    bit_ots_snd := s.bit_ots_snd.mapIdx (fun i q =>
      if i = s.my_id then q else q.mapIdx (fun k ot => { ot with outputs := out.snd i k }))
    bit_ots_rcv := s.bit_ots_rcv.mapIdx (fun i q =>
      if i = s.my_id then q else q.mapIdx (fun k ot => { ot with outputs := out.rcv i k })) }

/-- The loop `for (j = 0; j < batch_size; ++j)` of `ParseOutputs` (lines 214-216), from `j` on,
`todo` iterations remaining: bit `mt_id + j` of `c` becomes
`out_r.at(j)[0] ^ out_s.at(j)[0] ^ c[mt_id + j]`. -/
def parseBatch (out_s out_r : List (List Bool)) (mt_id : Nat) :
    Nat → Nat → List Bool → Option (List Bool)
  | 0, _, cs => some cs
  | todo + 1, j, cs =>
    match out_r[j]?, out_s[j]? with
    | some r, some s =>
      match r[0]?, s[0]?, cs[mt_id + j]? with
      | some r0, some s0, some cj =>
        parseBatch out_s out_r mt_id todo (j + 1) (cs.set (mt_id + j) (xor (xor r0 s0) cj))
      | _, _, _ => none
    | _, _ => none

/-- The loop `for (mt_id = 0; mt_id < num_bit_mts_;)` of `ParseOutputs` for one peer
(lines 208-220), started at `mt_id`. One unit of fuel is one iteration; `none` is fuel
exhausted, `front()` of an empty queue, or an access outside a vector. -/
def parseLoop (mb n : Nat) :
    Nat → Nat → List OTVectorSender → List OTVectorReceiver → List Bool →
    Option (List OTVectorSender × List OTVectorReceiver × List Bool)
  | fuel, mt_id, snd, rcv, cs =>
    if mt_id < n then
      match fuel with
      | 0 => none
      | fuel + 1 =>
        let batch_size := min mb (n - mt_id)
        match snd, rcv with
        | ot_s :: snd1, ot_r :: rcv1 =>
          match parseBatch ot_s.outputs ot_r.outputs mt_id batch_size 0 cs with
          | some c1 => parseLoop mb n fuel (mt_id + batch_size) snd1 rcv1 c1
          | none => none
        | _, _ => none
    else some (snd, rcv, cs)

/-- The loop over the OT providers of `ParseOutputs` (lines 203-236), from provider `i` on,
`todo` providers remaining, with the two assertions that the queues are empty; the
iterations of the OpenMP loop are taken in index order (with two parties a single iteration
does any work). The blocks of the integer widths are empty in the source (`// TODO`). -/
def parsePeers (fuel : Nat) : Nat → Nat → MTProviderFromOTs → Option MTProviderFromOTs
  | 0, _, s => some s
  | todo + 1, i, s =>
    if i = s.my_id then parsePeers fuel todo (i + 1) s
    else if 0 < s.num_bit_mts then
      match s.bit_ots_snd[i]?, s.bit_ots_rcv[i]? with
      | some snd, some rcv =>
        match parseLoop s.max_batch_size s.num_bit_mts fuel 0 snd rcv s.bit_mts.c with
        | some (snd1, rcv1, c1) =>
          if snd1.isEmpty && rcv1.isEmpty then
            parsePeers fuel todo (i + 1)
              { s with bit_mts := { s.bit_mts with c := c1 }
                       bit_ots_snd := s.bit_ots_snd.set i snd1
                       bit_ots_rcv := s.bit_ots_rcv.set i rcv1 }
          else none
        | none => none
      | _, _ => none
    else parsePeers fuel todo (i + 1) s

/-- The function `MTProviderFromOTs::ParseOutputs`. -/
def ParseOutputs (fuel : Nat) (s : MTProviderFromOTs) : Option MTProviderFromOTs :=
  parsePeers fuel s.num_providers 0 s

/-- The function `MTProviderFromOTs::Setup`: nothing at all when no MT is needed; otherwise the OT
phase, `ParseOutputs`, and then `finished_ = true`. -/
def Setup (fuel : Nat) (out : OTOutcome) (s : MTProviderFromOTs) : Option MTProviderFromOTs :=
  if !NeedMTs s then some s
  else
    match ParseOutputs fuel (runOTs out s) with
    | some s1 => some { s1 with finished := true }
    | none => none

/-- The calls `RequestBinaryMTs(n_1)`, ..., `RequestBinaryMTs(n_k)` made one after the other:
the offsets returned, in order, and the provider afterwards. -/
def requestAll (s : MTProviderFromOTs) : List Nat → List Nat × MTProviderFromOTs
  | [] => ([], s)
  | n :: ns =>
    let r := RequestBinaryMTs s n
    let rest := requestAll r.2 ns
    (r.1 :: rest.1, rest.2)

/-- Party `my_id` of a two-party run: a freshly constructed provider on which `n` binary
MTs were reserved by one call of `RequestBinaryMTs`. -/
def twoPartyProvider (my_id max_batch_size n : Nat) : MTProviderFromOTs :=
  (RequestBinaryMTs (MTProviderFromOTs.new my_id 2 max_batch_size) n).2

/-- An ideal XOR-correlated OT on one pair of vectors: for each of the `num_ots` positions,
with sender input `d`, receiver choice bit `b`, sender output `s` (of `bitlen` bits) and
receiver output `r`, the receiver output is `s` XOR (`b` AND `d`), bit by bit. -/
def idealXCOT (ot_s : OTVectorSender) (ot_r : OTVectorReceiver)
    (out_s out_r : List (List Bool)) : Bool :=
  (List.range ot_s.num_ots).all (fun j =>
    match ot_s.inputs[j]?, ot_r.choices[j]?, out_s[j]?, out_r[j]? with
    | some d, some b, some s, some r =>
      decide (s.length = ot_s.bitlen) &&
        decide (r = List.zipWith xor s (d.map (fun x => b && x)))
    | _, _, _, _ => false)

/-- Every send vector that `sender` registered towards `receiver` and the receive vector
that `receiver` registered at the same position towards `sender` form an ideal XCOT pair,
for the outputs the two parties are handed. -/
def idealXCOTLink (sender receiver : MTProviderFromOTs)
    (out_sender out_receiver : OTOutcome) : Bool :=
  let sq := sender.bit_ots_snd.getD receiver.my_id []
  let rq := receiver.bit_ots_rcv.getD sender.my_id []
  (List.range sq.length).all (fun k =>
    match sq[k]?, rq[k]? with
    | some ot_s, some ot_r =>
      idealXCOT ot_s ot_r (out_sender.snd receiver.my_id k) (out_receiver.rcv sender.my_id k)
    | _, _ => false)

/-- The expression `out.at(t)[0]` of `ParseOutputs`: the first bit of the `t`-th output
(`false` where there is none). -/
def firstBit (out : List (List Bool)) (t : Nat) : Bool :=
  ((out[t]?).getD []).headD false

/-- A sample random source: alternating and constant bits, small integers. -/
def sampleRandom0 : RandomSource :=
  ⟨fun i => i % 2 == 0, fun i => i % 3 == 0, fun _ _ => 1, fun _ _ => 0⟩

/-- A second sample random source. -/
def sampleRandom1 : RandomSource :=
  ⟨fun i => i % 3 == 1, fun _ => true, fun _ _ => 0, fun _ _ => 1⟩

/-- A sample of what the OT protocol delivers to party 0: all-zero sender outputs, and
receiver outputs that are all zero as well. -/
def sampleOutcome0 : OTOutcome :=
  ⟨fun _ _ => [[false], [false]], fun _ _ => [[false], [false]]⟩

/-- A sample of what the OT protocol delivers to party 1: all-zero sender outputs, and the
receiver outputs that an ideal XCOT yields for `sampleRandom0`, `sampleRandom1` with three
MTs in batches of two. -/
def sampleOutcome1 : OTOutcome :=
  ⟨fun _ _ => [[false], [false]], fun _ k => if k = 0 then [[true], [false]] else [[true]]⟩

/-- Party 0 of the sample run (three MTs, batches of two) after `RegisterOTs`. -/
def sampleRegistered0 : MTProviderFromOTs :=
  (RegisterOTs 3 sampleRandom0 (twoPartyProvider 0 2 3)).getD (twoPartyProvider 0 2 3)

/-- Party 1 of the sample run (three MTs, batches of two) after `RegisterOTs`. -/
def sampleRegistered1 : MTProviderFromOTs :=
  (RegisterOTs 3 sampleRandom1 (twoPartyProvider 1 2 3)).getD (twoPartyProvider 1 2 3)

/-- A provider of party 0 with one reserved binary MT and batches of one, after
`PreSetup` with `sampleRandom0`. -/
def sampleAfterPreSetup : MTProviderFromOTs :=
  (PreSetup 1 sampleRandom0 (RequestBinaryMTs (MTProviderFromOTs.new 0 2 1) 1).2).getD
    (MTProviderFromOTs.new 0 2 1)

/-- The provider `sampleAfterPreSetup` after `Setup` with `sampleOutcome0`. -/
def sampleAfterSetup : MTProviderFromOTs :=
  (Setup 1 sampleOutcome0 sampleAfterPreSetup).getD (MTProviderFromOTs.new 0 2 1)

/-- Party `my_id` of a two-party run with one reserved 8-bit MT, after `PreSetup` and
`Setup`. -/
def sampleInteger (my_id : Nat) (rnd : RandomSource) (out : OTOutcome) : MTProviderFromOTs :=
  ((PreSetup 1 rnd (RequestMTs 8 (MTProviderFromOTs.new my_id 2 1) 1).2).bind
    (Setup 1 out)).getD (MTProviderFromOTs.new my_id 2 1)

/-- The provider `sampleRegistered0` after `Setup` with `sampleOutcome0`. -/
def sampleFinished0 : MTProviderFromOTs :=
  (Setup 3 sampleOutcome0 sampleRegistered0).getD (twoPartyProvider 0 2 3)

/-- A sample of what the OT protocol delivers to party 0 for three MTs in batches of two:
one one-bit output per OT of each batch. -/
def sampleOutcomeExact : OTOutcome :=
  ⟨fun _ k => if k = 0 then [[false], [true]] else [[true]],
    fun _ k => if k = 0 then [[true], [false]] else [[false]]⟩

/-- The provider `sampleRegistered0` after `ParseOutputs` on the outputs
`sampleOutcomeExact`. -/
def sampleParsed0 : MTProviderFromOTs :=
  (ParseOutputs 3 (runOTs sampleOutcomeExact sampleRegistered0)).getD sampleRegistered0

end ABYN


namespace MOTION

/-- The two phases of a gate. -/
inductive Phase where
  | setup
  | online
deriving DecidableEq, Repr

/-- A gate as `evaluate_setup_online` sees it: the results of `need_setup()` and
`need_online()`, and whether `evaluate_setup()` / `evaluate_online()` return (`true`) or
raise an error (`false`) when they are called. -/
structure NewGate where
  need_setup : Bool
  need_online : Bool
  setup_ok : Bool
  online_ok : Bool
deriving DecidableEq, Repr

/-- The result of `gate->need_setup()` or `gate->need_online()`, by phase. -/
def NewGate.need (g : NewGate) : Phase → Bool
  | Phase.setup => g.need_setup
  | Phase.online => g.need_online

/-- Whether `gate->evaluate_setup()` or `gate->evaluate_online()` returns, by phase. -/
def NewGate.ok (g : NewGate) : Phase → Bool
  | Phase.setup => g.setup_ok
  | Phase.online => g.online_ok

/-- Where the task posted for one gate and one phase stands: not posted, posted to the
pool, inside `evaluate_*`, back from `evaluate_*` and before the counter increment, done, or
ended by an error. -/
inductive TaskStatus where
  | idle
  | posted
  | running
  | evaluated
  | finished
  | failed
deriving DecidableEq, Repr

/-- What an execution does, in the order in which it happens. -/
inductive Event where
  | preprocessing
  | evaluate_start (ph : Phase) (g : Nat)
  | evaluate_return (ph : Phase) (g : Nat)
  | evaluate_error (ph : Phase) (g : Nat)
  | counter_increment (ph : Phase) (g : Nat)
deriving DecidableEq, Repr

/-- Where the thread that runs `evaluate_setup_online` stands: before
`preprocessing_fctn_()`, in one of the two `for` loops at gate index `i`, in
`wait_setup()` / `wait_online()`, in `fpool.join()`, returned, or left by an error. -/
inductive MainPc where
  | preprocessing
  | post (ph : Phase) (i : Nat)
  | wait (ph : Phase)
  | join
  | returned
  | raised
deriving DecidableEq, Repr

/-- The state of one execution of `evaluate_setup_online`: the main thread, the tasks of
the fiber pool by phase and gate index, the two counters and the error channel of the gate
register, and the events so far. -/
structure ExecState where
  pc : MainPc
  tasks : Phase → Nat → TaskStatus
  counter : Phase → Nat
  error : Bool
  trace : List Event

/-- Who takes the next step: the main thread, or the pool on the task of a gate. -/
inductive Choice where
  | main
  | task (ph : Phase) (g : Nat)
deriving DecidableEq, Repr

/-- The status of one task replaced. -/
def setTask (tasks : Phase → Nat → TaskStatus) (ph : Phase) (g : Nat) (st : TaskStatus) :
    Phase → Nat → TaskStatus :=
  fun ph1 g1 => if ph1 = ph ∧ g1 = g then st else tasks ph1 g1

/-- One counter of the register incremented. -/
def incCounter (counter : Phase → Nat) (ph : Phase) : Phase → Nat :=
  fun ph1 => if ph1 = ph then counter ph1 + 1 else counter ph1

/-- Modelled from the spec: the number the gate register (absent `base/gate_register.cpp`)
compares its counter with, "the number of gates that needed setup" (resp. online). -/
def numNeeded (gates : List NewGate) (ph : Phase) : Nat :=
  (gates.filter (fun g => g.need ph)).length

/-- Whether a task is still to be completed by the pool. -/
def TaskStatus.pending : TaskStatus → Bool
  | TaskStatus.posted => true
  | TaskStatus.running => true
  | TaskStatus.evaluated => true
  | _ => false

/-- One step of the main thread through `evaluate_setup_online` (lines 41-102):
`preprocessing_fctn_()`; the loop posting one task per gate with `need_setup()`;
`wait_setup()`; the loop posting one task per gate with `need_online()`; `wait_online()`;
`fpool.join()`. `none` means that the thread is blocked or has left the function.

Modelled from the spec: `wait_setup()` and `wait_online()` of the absent
`base/gate_register.cpp` block "until the counter equals the number of gates that needed
setup", and once a gate has reported a failure on the error channel of the register "waits
return that error", which ends the function since it has no handler; `fpool.join()` of the
absent fiber pool returns when no posted task is left to complete. -/
def stepMain (gates : List NewGate) (s : ExecState) : Option ExecState :=
  match s.pc with
  | MainPc.preprocessing =>
    some { s with pc := MainPc.post Phase.setup 0, trace := s.trace ++ [Event.preprocessing] }
  | MainPc.post ph i =>
    match gates[i]? with
    | some gate =>
      if gate.need ph then
        some { s with pc := MainPc.post ph (i + 1)
                      tasks := setTask s.tasks ph i TaskStatus.posted }
      else some { s with pc := MainPc.post ph (i + 1) }
    | none => some { s with pc := MainPc.wait ph }
  | MainPc.wait ph =>
    if s.error then some { s with pc := MainPc.raised }
    else if s.counter ph = numNeeded gates ph then
      match ph with
      | Phase.setup => some { s with pc := MainPc.post Phase.online 0 }
      | Phase.online => some { s with pc := MainPc.join }
    else none
  | MainPc.join =>
    if (List.range gates.length).all (fun g =>
        !(s.tasks Phase.setup g).pending && !(s.tasks Phase.online g).pending) then
      some { s with pc := MainPc.returned }
    else none
  | MainPc.returned => none
  | MainPc.raised => none

/-- One step of the fiber pool on the task posted for gate `g` and phase `ph`, the lambda
`[&] { gate->evaluate_*(); register_.increment_gate_*_counter(); }`: the call of
`evaluate_*`, its return or its error, and the increment of the counter, which an error
skips. `none` means that the task has nothing to do.

Modelled from the spec: a gate whose evaluation fails "reports failure via the shared error
channel of the register". -/
def stepTask (gates : List NewGate) (s : ExecState) (ph : Phase) (g : Nat) :
    Option ExecState :=
  match gates[g]? with
  | none => none
  | some gate =>
    match s.tasks ph g with
    | TaskStatus.posted =>
      some { s with tasks := setTask s.tasks ph g TaskStatus.running
                    trace := s.trace ++ [Event.evaluate_start ph g] }
    | TaskStatus.running =>
      if gate.ok ph then
        some { s with tasks := setTask s.tasks ph g TaskStatus.evaluated
                      trace := s.trace ++ [Event.evaluate_return ph g] }
      else
        some { s with tasks := setTask s.tasks ph g TaskStatus.failed
                      error := true
                      trace := s.trace ++ [Event.evaluate_error ph g] }
    | TaskStatus.evaluated =>
      some { s with tasks := setTask s.tasks ph g TaskStatus.finished
                    counter := incCounter s.counter ph
                    trace := s.trace ++ [Event.counter_increment ph g] }
    | _ => none

/-- One step of the execution. -/
def step (gates : List NewGate) (s : ExecState) : Choice → Option ExecState
  | Choice.main => stepMain gates s
  | Choice.task ph g => stepTask gates s ph g

/-- The state in which `evaluate_setup_online` is entered: nothing posted, counters at
zero, no error reported. -/
def ExecState.init : ExecState :=
  { pc := MainPc.preprocessing
    tasks := fun _ _ => TaskStatus.idle
    counter := fun _ => 0
    error := false
    trace := [] }

/-- The execution under a schedule; a choice that cannot take a step is skipped. -/
def run (gates : List NewGate) : ExecState → List Choice → ExecState
  | s, [] => s
  | s, c :: cs =>
    match step gates s c with
    | some s1 => run gates s1 cs
    | none => run gates s cs

/-- The executions of `evaluate_setup_online` on a gate list: every schedule of the main
thread and the pool, from the initial state. -/
def evaluate_setup_online (gates : List NewGate) (schedule : List Choice) : ExecState :=
  run gates ExecState.init schedule

/-- The gate at index `g` exists and has `need_setup()` (resp. `need_online()`). -/
def needAt (gates : List NewGate) (ph : Phase) (g : Nat) : Bool :=
  match gates[g]? with
  | some gate => gate.need ph
  | none => false

/-- Two sample gates: one with both phases, one with the online phase only. -/
def sampleGates : List NewGate :=
  [⟨true, true, true, true⟩, ⟨false, true, true, true⟩]

/-- A schedule that runs `sampleGates` to the end. -/
def sampleSchedule : List Choice :=
  [Choice.main, Choice.main, Choice.task Phase.setup 0, Choice.main, Choice.main,
   Choice.task Phase.setup 0, Choice.task Phase.setup 0, Choice.main,
   Choice.main, Choice.task Phase.online 0, Choice.main, Choice.main,
   Choice.task Phase.online 1, Choice.task Phase.online 0, Choice.task Phase.online 1,
   Choice.task Phase.online 1, Choice.task Phase.online 0, Choice.main, Choice.main]

/-- Two sample gates of which the second fails in its setup phase. -/
def sampleFailingGates : List NewGate :=
  [⟨true, true, true, true⟩, ⟨true, true, false, true⟩]

/-- A schedule on which the setup of the second gate of `sampleFailingGates` fails. -/
def sampleFailingSchedule : List Choice :=
  [Choice.main, Choice.main, Choice.main, Choice.task Phase.setup 1,
   Choice.task Phase.setup 1, Choice.task Phase.setup 0]

end MOTION


namespace MOTION

/-- The steps of the execution, one constructor per kind of step of `stepMain` and
`stepTask`. -/
inductive StepRel (gates : List NewGate) : ExecState → ExecState → Prop where
  | pre (s : ExecState) (h : s.pc = MainPc.preprocessing) :
    StepRel gates s
      { s with pc := MainPc.post Phase.setup 0, trace := s.trace ++ [Event.preprocessing] }
  | post_task (s : ExecState) (ph : Phase) (i : Nat) (gate : NewGate)
    (h : s.pc = MainPc.post ph i) (hg : gates[i]? = some gate) (hn : gate.need ph = true) :
    StepRel gates s
      { s with pc := MainPc.post ph (i + 1), tasks := setTask s.tasks ph i TaskStatus.posted }
  | post_skip (s : ExecState) (ph : Phase) (i : Nat) (gate : NewGate)
    (h : s.pc = MainPc.post ph i) (hg : gates[i]? = some gate) (hn : gate.need ph = false) :
    StepRel gates s { s with pc := MainPc.post ph (i + 1) }
  | post_end (s : ExecState) (ph : Phase) (i : Nat)
    (h : s.pc = MainPc.post ph i) (hg : gates[i]? = none) :
    StepRel gates s { s with pc := MainPc.wait ph }
  | wait_error (s : ExecState) (ph : Phase) (h : s.pc = MainPc.wait ph)
    (he : s.error = true) :
    StepRel gates s { s with pc := MainPc.raised }
  | wait_setup (s : ExecState) (h : s.pc = MainPc.wait Phase.setup) (he : s.error = false)
    (hc : s.counter Phase.setup = numNeeded gates Phase.setup) :
    StepRel gates s { s with pc := MainPc.post Phase.online 0 }
  | wait_online (s : ExecState) (h : s.pc = MainPc.wait Phase.online) (he : s.error = false)
    (hc : s.counter Phase.online = numNeeded gates Phase.online) :
    StepRel gates s { s with pc := MainPc.join }
  | join (s : ExecState) (h : s.pc = MainPc.join) :
    StepRel gates s { s with pc := MainPc.returned }
  | task_start (s : ExecState) (ph : Phase) (g : Nat) (gate : NewGate)
    (hg : gates[g]? = some gate) (hs : s.tasks ph g = TaskStatus.posted) :
    StepRel gates s
      { s with tasks := setTask s.tasks ph g TaskStatus.running
               trace := s.trace ++ [Event.evaluate_start ph g] }
  | task_return (s : ExecState) (ph : Phase) (g : Nat) (gate : NewGate)
    (hg : gates[g]? = some gate) (hs : s.tasks ph g = TaskStatus.running)
    (hok : gate.ok ph = true) :
    StepRel gates s
      { s with tasks := setTask s.tasks ph g TaskStatus.evaluated
               trace := s.trace ++ [Event.evaluate_return ph g] }
  | task_error (s : ExecState) (ph : Phase) (g : Nat) (gate : NewGate)
    (hg : gates[g]? = some gate) (hs : s.tasks ph g = TaskStatus.running)
    (hok : gate.ok ph = false) :
    StepRel gates s
      { s with tasks := setTask s.tasks ph g TaskStatus.failed
               error := true
               trace := s.trace ++ [Event.evaluate_error ph g] }
  | task_count (s : ExecState) (ph : Phase) (g : Nat) (gate : NewGate)
    (hg : gates[g]? = some gate) (hs : s.tasks ph g = TaskStatus.evaluated) :
    StepRel gates s
      { s with tasks := setTask s.tasks ph g TaskStatus.finished
               counter := incCounter s.counter ph
               trace := s.trace ++ [Event.counter_increment ph g] }

/-- The task has entered `evaluate_*`. -/
def TaskStatus.started : TaskStatus → Bool
  | TaskStatus.running => true
  | TaskStatus.evaluated => true
  | TaskStatus.finished => true
  | TaskStatus.failed => true
  | _ => false

/-- The task is back from `evaluate_*` without an error. -/
def TaskStatus.back : TaskStatus → Bool
  | TaskStatus.evaluated => true
  | TaskStatus.finished => true
  | _ => false

/-- The main thread has not yet reached the `post` of the task of gate `g` in phase `ph`. -/
def notYetPosted (pc : MainPc) (ph : Phase) (g : Nat) : Prop :=
  match pc with
  | MainPc.preprocessing => True
  | MainPc.post ph1 i => (ph1 = Phase.setup ∧ ph = Phase.online) ∨ (ph1 = ph ∧ i ≤ g)
  | MainPc.wait ph1 => ph1 = Phase.setup ∧ ph = Phase.online
  | _ => False

/-- The main thread is past `wait_setup()` and has not left by an error. -/
def onlinePc (pc : MainPc) : Prop :=
  match pc with
  | MainPc.post Phase.online _ => True
  | MainPc.wait Phase.online => True
  | MainPc.join => True
  | MainPc.returned => True
  | _ => False

/-- The invariant of the executions of `evaluate_setup_online`. -/
structure Inv (gates : List NewGate) (s : ExecState) : Prop where
  idle_of : ∀ ph g, notYetPosted s.pc ph g → s.tasks ph g = TaskStatus.idle
  need_of : ∀ ph g, s.tasks ph g ≠ TaskStatus.idle → needAt gates ph g = true
  setup_done_pc : onlinePc s.pc → ∀ g, needAt gates Phase.setup g = true →
    s.tasks Phase.setup g = TaskStatus.finished
  setup_done_task : ∀ g, s.tasks Phase.online g ≠ TaskStatus.idle →
    ∀ g1, needAt gates Phase.setup g1 = true → s.tasks Phase.setup g1 = TaskStatus.finished
  online_done : s.pc = MainPc.join ∨ s.pc = MainPc.returned →
    ∀ g, needAt gates Phase.online g = true → s.tasks Phase.online g = TaskStatus.finished
  counter_eq : ∀ ph, s.counter ph =
    ((List.range gates.length).filter
      (fun g => decide (s.tasks ph g = TaskStatus.finished))).length
  error_of : ∀ ph g, s.tasks ph g = TaskStatus.failed → s.error = true
  trace_nil : s.pc = MainPc.preprocessing → s.trace = []
  trace_pre : s.pc ≠ MainPc.preprocessing →
    ∃ rest, s.trace = Event.preprocessing :: rest ∧ Event.preprocessing ∉ rest
  count_start : ∀ ph g, s.trace.count (Event.evaluate_start ph g) =
    if (s.tasks ph g).started then 1 else 0
  count_return : ∀ ph g, s.trace.count (Event.evaluate_return ph g) =
    if (s.tasks ph g).back then 1 else 0
  count_error : ∀ ph g, s.trace.count (Event.evaluate_error ph g) =
    if s.tasks ph g = TaskStatus.failed then 1 else 0
  count_inc : ∀ ph g, s.trace.count (Event.counter_increment ph g) =
    if s.tasks ph g = TaskStatus.finished then 1 else 0
  order : ∀ g, s.tasks Phase.setup g = TaskStatus.finished →
    List.Sublist [Event.evaluate_return Phase.setup g, Event.counter_increment Phase.setup g]
      s.trace
  split : ∀ t1 t2 g, s.trace = t1 ++ Event.evaluate_start Phase.online g :: t2 →
    ∀ g1, needAt gates Phase.setup g1 = true →
      List.Sublist
        [Event.evaluate_return Phase.setup g1, Event.counter_increment Phase.setup g1] t1

/-- The event is an increment of the counter of phase `ph`. -/
def isIncrement (ph : Phase) : Event → Bool
  | Event.counter_increment ph1 _ => decide (ph1 = ph)
  | _ => false

/-- A bound on the steps the main thread still takes before it leaves by the error, once
the setup of a gate has failed: the rest of the posting loop, the step to `wait_setup()`,
and the wait itself. -/
def mainStepsLeft (n : Nat) : MainPc → Nat
  | MainPc.post Phase.setup i => n - i + 2
  | MainPc.wait Phase.setup => 1
  | MainPc.raised => 0
  | _ => n + 3

end MOTION


namespace MOTION.proto.gmw

/-- The protocols of `MPCProtocol` that the sources name. -/
inductive MPCProtocol where
  | ArithmeticGMW
  | BooleanGMW
  | ArithmeticBEAVY
  | BooleanBEAVY
  | Yao
deriving DecidableEq, Repr

/-- Modelled from the spec: the wires of the absent `wire.h`, by their class. The gate
constructors of the provider take pointers to the base class `NewWire`, so that a wire of
any protocol can reach them: besides the two classes of the GMW protocols there are the
wires of the other "protocol tags" (`ArithmeticBEAVY`, `BooleanBEAVY`, `Yao`). A
`BooleanGMWWire` carries the tag `BooleanGMW`, an `ArithmeticGMWWire<T>` the tag
`ArithmeticGMW` and the width `bits` of `T`; Boolean wires have "bit width 1". Every wire has
a "SIMD count"; `gate_id` is the gate that produces the wire. -/
inductive NewWire where
  | BooleanGMWWire (num_simd gate_id : Nat)
  | ArithmeticGMWWire (bits num_simd gate_id : Nat)
  | ArithmeticBEAVYWire (bits num_simd gate_id : Nat)
  | BooleanBEAVYWire (num_simd gate_id : Nat)
  | YaoWire (num_simd gate_id : Nat)
deriving DecidableEq, Repr

/-- Modelled from the spec: `NewWire::get_protocol`, the "immutable protocol tag". -/
def NewWire.get_protocol : NewWire → MPCProtocol
  | NewWire.BooleanGMWWire _ _ => MPCProtocol.BooleanGMW
  | NewWire.ArithmeticGMWWire _ _ _ => MPCProtocol.ArithmeticGMW
  | NewWire.ArithmeticBEAVYWire _ _ _ => MPCProtocol.ArithmeticBEAVY
  | NewWire.BooleanBEAVYWire _ _ => MPCProtocol.BooleanBEAVY
  | NewWire.YaoWire _ _ => MPCProtocol.Yao

/-- Modelled from the spec: `NewWire::get_bit_size`, the "bit width (1 for boolean wires,
8/16/32/64 for arithmetic wires)". -/
def NewWire.get_bit_size : NewWire → Nat
  | NewWire.BooleanGMWWire _ _ => 1
  | NewWire.ArithmeticGMWWire bits _ _ => bits
  | NewWire.ArithmeticBEAVYWire bits _ _ => bits
  | NewWire.BooleanBEAVYWire _ _ => 1
  | NewWire.YaoWire _ _ => 1

/-- Modelled from the spec: `NewWire::get_num_simd`, the "SIMD count". -/
def NewWire.get_num_simd : NewWire → Nat
  | NewWire.BooleanGMWWire num_simd _ => num_simd
  | NewWire.ArithmeticGMWWire _ num_simd _ => num_simd
  | NewWire.ArithmeticBEAVYWire _ num_simd _ => num_simd
  | NewWire.BooleanBEAVYWire num_simd _ => num_simd
  | NewWire.YaoWire num_simd _ => num_simd

/-- The id of the gate that produces the wire. -/
def NewWire.gate_id : NewWire → Nat
  | NewWire.BooleanGMWWire _ gate_id => gate_id
  | NewWire.ArithmeticGMWWire _ _ gate_id => gate_id
  | NewWire.ArithmeticBEAVYWire _ _ gate_id => gate_id
  | NewWire.BooleanBEAVYWire _ gate_id => gate_id
  | NewWire.YaoWire _ gate_id => gate_id

/-- The gates that the constructors of `gmw_provider.cpp` create, with the arguments they
hand to the constructor of the gate (`bits` is the width of the template argument `T`). A
Boolean gate receives the result of `cast_wires`, in which a wire that is not a
`BooleanGMWWire` has become a null pointer (`none`). -/
inductive GateKind where
  | BooleanGMWInputGateSender (num_wires num_simd : Nat)
  | BooleanGMWInputGateReceiver (num_wires num_simd input_owner : Nat)
  | ArithmeticGMWInputGateSender (bits num_simd : Nat)
  | ArithmeticGMWInputGateReceiver (bits num_simd input_owner : Nat)
  | BooleanGMWOutputGate (input : List (Option NewWire)) (output_owner : Nat)
  | ArithmeticGMWOutputGate (bits : Nat) (input : NewWire) (output_owner : Nat)
  | BooleanGMWINVGate (in_a : List (Option NewWire))
  | BooleanGMWXORGate (in_a in_b : List (Option NewWire))
  | BooleanGMWANDGate (in_a in_b : List (Option NewWire))
  | ArithmeticGMWNEGGate (bits : Nat) (in_a : NewWire)
  | ArithmeticGMWSQRGate (bits : Nat) (in_a : NewWire)
  | ArithmeticGMWADDGate (bits : Nat) (in_a in_b : NewWire)
  | ArithmeticGMWMULGate (bits : Nat) (in_a in_b : NewWire)
  | BooleanToArithmeticGMWGate (bits : Nat) (in_a : List (Option NewWire))
deriving DecidableEq, Repr

/-- A gate: the id it was constructed with, and what it is. -/
structure NewGate where
  gate_id : Nat
  kind : GateKind
deriving DecidableEq, Repr

/-- Modelled from the spec: the gate register of the absent `base/gate_register.h`, "the
gate list in creation order" and "a next-gate-id counter". -/
structure GateRegister where
  next_gate_id : Nat
  gates : List NewGate
deriving DecidableEq, Repr

/-- Modelled from the spec: `GateRegister::get_next_gate_id` of the absent
`base/gate_register.h`; "gate ids are assigned monotonically", so it returns the counter and
increments it. -/
def GateRegister.get_next_gate_id (r : GateRegister) : Nat × GateRegister :=
  (r.next_gate_id, { r with next_gate_id := r.next_gate_id + 1 })

/-- Modelled from the spec: `GateRegister::register_gate` of the absent
`base/gate_register.h`, which appends the gate to "the gate list in creation order". -/
def GateRegister.register_gate (r : GateRegister) (g : NewGate) : GateRegister :=
  { r with gates := r.gates ++ [g] }

/-- The data members of `GMWProvider` that the gate constructors read and write. -/
structure GMWProvider where
  my_id : Nat
  num_parties : Nat
  gate_register : GateRegister
  next_input_id : Nat
deriving DecidableEq, Repr

/-- The message of the error that the input-gate constructors raise for the wrong party. -/
def input_gate_wrong_party : String := "trying to create input gate for wrong party"

/-- Modelled from the spec: the output wires of a Boolean gate (absent `gate.cpp`),
`num_wires` Boolean-GMW wires of bit width 1. -/
def booleanOutputWires (gate_id num_wires num_simd : Nat) : List NewWire :=
  List.replicate num_wires (NewWire.BooleanGMWWire num_simd gate_id)

/-- Modelled from the spec: the output wire of an arithmetic gate for the integer type of
`bits` bits (absent `gate.cpp`), one Arithmetic-GMW wire of that bit width. -/
def arithmeticOutputWire (gate_id bits num_simd : Nat) : NewWire :=
  NewWire.ArithmeticGMWWire bits num_simd gate_id

/-- The function `GMWProvider::make_boolean_input_gate_my` (lines 105-119). The result holds the provider
afterwards, the id of the gate whose promise is returned, and the output wires. -/
def make_boolean_input_gate_my (p : GMWProvider) (input_owner num_wires num_simd : Nat) :
    Except String (GMWProvider × Nat × List NewWire) :=
  if input_owner ≠ p.my_id then Except.error input_gate_wrong_party
  else
    let (gate_id, reg) := p.gate_register.get_next_gate_id
    let gate : NewGate := ⟨gate_id, GateKind.BooleanGMWInputGateSender num_wires num_simd⟩
    let output := booleanOutputWires gate_id num_wires num_simd
    Except.ok ({ p with gate_register := reg.register_gate gate }, gate_id, output)

/-- The function `GMWProvider::make_boolean_input_gate_other` (lines 121-133). -/
def make_boolean_input_gate_other (p : GMWProvider) (input_owner num_wires num_simd : Nat) :
    Except String (GMWProvider × List NewWire) :=
  if input_owner = p.my_id then Except.error input_gate_wrong_party
  else
    let (gate_id, reg) := p.gate_register.get_next_gate_id
    let gate : NewGate :=
      ⟨gate_id, GateKind.BooleanGMWInputGateReceiver num_wires num_simd input_owner⟩
    let output := booleanOutputWires gate_id num_wires num_simd
    Except.ok ({ p with gate_register := reg.register_gate gate }, output)

/-- The function `GMWProvider::basic_make_arithmetic_input_gate_my<T>` (lines 162-175), `bits` being the
width of `T`. -/
def basic_make_arithmetic_input_gate_my (bits : Nat) (p : GMWProvider)
    (input_owner num_simd : Nat) : Except String (GMWProvider × Nat × List NewWire) :=
  if input_owner ≠ p.my_id then Except.error input_gate_wrong_party
  else
    let (gate_id, reg) := p.gate_register.get_next_gate_id
    let gate : NewGate := ⟨gate_id, GateKind.ArithmeticGMWInputGateSender bits num_simd⟩
    let output := arithmeticOutputWire gate_id bits num_simd
    Except.ok ({ p with gate_register := reg.register_gate gate }, gate_id, [output])

/-- The function `GMWProvider::make_arithmetic_8_input_gate_my`. -/
def make_arithmetic_8_input_gate_my (p : GMWProvider) (input_owner num_simd : Nat) :=
  basic_make_arithmetic_input_gate_my 8 p input_owner num_simd

/-- The function `GMWProvider::make_arithmetic_16_input_gate_my`. -/
def make_arithmetic_16_input_gate_my (p : GMWProvider) (input_owner num_simd : Nat) :=
  basic_make_arithmetic_input_gate_my 16 p input_owner num_simd

/-- The function `GMWProvider::make_arithmetic_32_input_gate_my`. -/
def make_arithmetic_32_input_gate_my (p : GMWProvider) (input_owner num_simd : Nat) :=
  basic_make_arithmetic_input_gate_my 32 p input_owner num_simd

/-- The function `GMWProvider::make_arithmetic_64_input_gate_my`. -/
def make_arithmetic_64_input_gate_my (p : GMWProvider) (input_owner num_simd : Nat) :=
  basic_make_arithmetic_input_gate_my 64 p input_owner num_simd

/-- The function `GMWProvider::basic_make_arithmetic_input_gate_other<T>` (lines 194-206), `bits` being
the width of `T`. -/
def basic_make_arithmetic_input_gate_other (bits : Nat) (p : GMWProvider)
    (input_owner num_simd : Nat) : Except String (GMWProvider × List NewWire) :=
  if input_owner = p.my_id then Except.error input_gate_wrong_party
  else
    let (gate_id, reg) := p.gate_register.get_next_gate_id
    let gate : NewGate :=
      ⟨gate_id, GateKind.ArithmeticGMWInputGateReceiver bits num_simd input_owner⟩
    let output := arithmeticOutputWire gate_id bits num_simd
    Except.ok ({ p with gate_register := reg.register_gate gate }, [output])

/-- The function `GMWProvider::make_arithmetic_8_input_gate_other`. -/
def make_arithmetic_8_input_gate_other (p : GMWProvider) (input_owner num_simd : Nat) :=
  basic_make_arithmetic_input_gate_other 8 p input_owner num_simd

/-- The function `GMWProvider::make_arithmetic_16_input_gate_other`. -/
def make_arithmetic_16_input_gate_other (p : GMWProvider) (input_owner num_simd : Nat) :=
  basic_make_arithmetic_input_gate_other 16 p input_owner num_simd

/-- The function `GMWProvider::make_arithmetic_32_input_gate_other`. -/
def make_arithmetic_32_input_gate_other (p : GMWProvider) (input_owner num_simd : Nat) :=
  basic_make_arithmetic_input_gate_other 32 p input_owner num_simd

/-- The function `GMWProvider::make_arithmetic_64_input_gate_other`. -/
def make_arithmetic_64_input_gate_other (p : GMWProvider) (input_owner num_simd : Nat) :=
  basic_make_arithmetic_input_gate_other 64 p input_owner num_simd

/-- The call raised the wrong-party error of the input gates. -/
def raisesWrongParty {α : Type} (r : Except String α) : Prop :=
  match r with
  | Except.error e => e = input_gate_wrong_party
  | Except.ok _ => False

/-- The call was accepted: it returned without raising an error. -/
def accepted {α : Type} (r : Except String α) : Prop :=
  match r with
  | Except.error _ => False
  | Except.ok _ => True

end MOTION.proto.gmw

namespace MOTION.proto.gmw

/-- How a call of a member function of `GMWProvider` ends: it returns a value, it throws a
`std::logic_error` with the message `what`, or it has no defined outcome (`fault`: an
`assert` fails, a null pointer is dereferenced or a vector is indexed out of range). -/
inductive Result (α : Type) where
  | ok (value : α)
  | error (what : String)
  | fault
deriving DecidableEq, Repr

/-- The call returned a value. -/
def Result.isOk {α : Type} : Result α → Bool
  | Result.ok _ => true
  | _ => false

/-- The constant `MOTION::ALL_PARTIES` of the absent `utility/constants.h`, taken to be the
largest `std::size_t`; no theorem depends on its value. -/
def ALL_PARTIES : Nat := 2 ^ 64 - 1

/-- Modelled from the spec: the enum `ENCRYPTO::PrimitiveOperationType` of an absent header,
with the operations that the spec lists for `make_unary_gate` and `make_binary_gate`. -/
inductive PrimitiveOperationType where
  | INV
  | NEG
  | SQR
  | XOR
  | AND
  | ADD
  | SUB
  | MUL
deriving DecidableEq, Repr

/-- Modelled from the spec: how `fmt::format` prints a `PrimitiveOperationType` (the
formatter is in an absent header): its name. -/
def PrimitiveOperationType.name : PrimitiveOperationType → String
  | INV => "INV"
  | NEG => "NEG"
  | SQR => "SQR"
  | XOR => "XOR"
  | AND => "AND"
  | ADD => "ADD"
  | SUB => "SUB"
  | MUL => "MUL"

/-- Modelled from the spec: the function `MOTION::ToString(MPCProtocol)` of an absent
header: the name of the protocol. -/
def ToString : MPCProtocol → String
  | MPCProtocol.ArithmeticGMW => "ArithmeticGMW"
  | MPCProtocol.BooleanGMW => "BooleanGMW"
  | MPCProtocol.ArithmeticBEAVY => "ArithmeticBEAVY"
  | MPCProtocol.BooleanBEAVY => "BooleanBEAVY"
  | MPCProtocol.Yao => "Yao"

/-- The message of the wrong-party error of the output-gate constructors. -/
def output_gate_wrong_party : String := "trying to create output gate for wrong party"

/-- The message of the wire-count error of the arithmetic output gates. -/
def invalid_number_of_wires : String := "invalid number of wires for arithmetic gate"

/-- The message of line 236. -/
def wrong_wire_type : String := "wrong wire type"

/-- The message of line 295 (spelled as in the source). -/
def unsupported_bit_size : String := "unsupprted bit size"

/-- The message of the unsupported-operation error of `make_unary_gate`. -/
def unsupported_unary_operation (op : PrimitiveOperationType) : String :=
  "GMW does not support the unary operation " ++ op.name

/-- The message of the unsupported-operation error of `make_binary_gate`. -/
def unsupported_binary_operation (op : PrimitiveOperationType) : String :=
  "GMW does not support the binary operation " ++ op.name

/-- The message of the wire-count error of the arithmetic operations. -/
def single_wires_only : String := "arithmetic operations support single wires only"

/-- The message of the bit-size-mismatch error. -/
def different_bit_sizes : String := "different bit sizes on wires"

/-- The message of the unexpected-bit-size error. -/
def unexpected_bit_size (bit_size : Nat) : String :=
  "unexpected bit size " ++ toString bit_size

/-- The message of line 472. -/
def unsupported_conversion_bit_size (bit_size : Nat) : String :=
  "unsupported bit size " ++ toString bit_size ++
    " for Boolean to Arithmetic GMW conversion\n"

/-- The message of line 483. -/
def unsupported_conversion (proto : MPCProtocol) : String :=
  "GMW does not support conversion to " ++ ToString proto

/-- The message of line 494. -/
def not_yet_implemented : String := "not yet implemented"

/-- The message of line 498. -/
def expected_gmw_protocol : String := "expected GMW protocol"

/-- The function `GMWProvider::is_my_job` (lines 70-72); `none` when `num_parties_` is zero,
where the C++ remainder has no defined value. -/
def is_my_job (p : GMWProvider) (gate_id : Nat) : Option Bool :=
  if p.num_parties = 0 then none
  else some (p.my_id == gate_id % p.num_parties)

/-- The function `cast_wires` (lines 80-85): `std::dynamic_pointer_cast<BooleanGMWWire>` on
every wire, which yields a null pointer (`none`) for a wire of another class. -/
def cast_wires (wires : List NewWire) : List (Option NewWire) :=
  wires.map fun w =>
    match w with
    | NewWire.BooleanGMWWire _ _ => some w
    | _ => none

/-- The function `cast_arith_wire<T>` (lines 91-96), `bits` being the width of `T`:
`std::dynamic_pointer_cast<ArithmeticGMWWire<T>>` followed by `assert(ptr)`; `none` when
the assertion fails. -/
def cast_arith_wire (bits : Nat) (wire : NewWire) : Option NewWire :=
  match wire with
  | NewWire.ArithmeticGMWWire b _ _ => if b = bits then some wire else none
  | _ => none

/-- Modelled from the spec: the SIMD count that the constructor of a Boolean gate (absent
`gate.cpp`) reads from its first input wire; `0` when there is none. -/
def numSimdOf (input : List (Option NewWire)) : Nat :=
  match input with
  | some w :: _ => w.get_num_simd
  | _ => 0

/-- The function `GMWProvider::make_boolean_output_gate_my` (lines 135-147). The value is the id of the
gate whose future is returned. -/
def make_boolean_output_gate_my (p : GMWProvider) (output_owner : Nat) (in_a : List NewWire) :
    GMWProvider × Result Nat :=
  if output_owner ≠ ALL_PARTIES ∧ output_owner ≠ p.my_id then
    (p, Result.error output_gate_wrong_party)
  else
    let (gate_id, reg) := p.gate_register.get_next_gate_id
    let input := cast_wires in_a
    let gate : NewGate := ⟨gate_id, GateKind.BooleanGMWOutputGate input output_owner⟩
    ({ p with gate_register := reg.register_gate gate }, Result.ok gate_id)

/-- The function `GMWProvider::make_boolean_output_gate_other` (lines 149-158). -/
def make_boolean_output_gate_other (p : GMWProvider) (output_owner : Nat)
    (in_a : List NewWire) : GMWProvider × Result Unit :=
  if output_owner = ALL_PARTIES ∨ output_owner = p.my_id then
    (p, Result.error output_gate_wrong_party)
  else
    let (gate_id, reg) := p.gate_register.get_next_gate_id
    let input := cast_wires in_a
    let gate : NewGate := ⟨gate_id, GateKind.BooleanGMWOutputGate input output_owner⟩
    ({ p with gate_register := reg.register_gate gate }, Result.ok ())

/-- The function `GMWProvider::basic_make_arithmetic_output_gate_my<T>` (lines 225-244), `bits` being
the width of `T`. The assertion of `cast_arith_wire` comes before the test
`input == nullptr`, which therefore never throws. The value is the id of the gate whose
future is returned. -/
def basic_make_arithmetic_output_gate_my (bits : Nat) (p : GMWProvider) (output_owner : Nat)
    (in_a : List NewWire) : GMWProvider × Result Nat :=
  if output_owner ≠ ALL_PARTIES ∧ output_owner ≠ p.my_id then
    (p, Result.error output_gate_wrong_party)
  else
    match in_a with
    | [w] =>
      match cast_arith_wire bits w with
      | none => (p, Result.fault)
      | some input =>
        let (gate_id, reg) := p.gate_register.get_next_gate_id
        let gate : NewGate := ⟨gate_id, GateKind.ArithmeticGMWOutputGate bits input output_owner⟩
        ({ p with gate_register := reg.register_gate gate }, Result.ok gate_id)
    | _ => (p, Result.error invalid_number_of_wires)

/-- The function `GMWProvider::make_arithmetic_8_output_gate_my`. -/
def make_arithmetic_8_output_gate_my (p : GMWProvider) (output_owner : Nat)
    (in_a : List NewWire) :=
  basic_make_arithmetic_output_gate_my 8 p output_owner in_a

/-- The function `GMWProvider::make_arithmetic_16_output_gate_my`. -/
def make_arithmetic_16_output_gate_my (p : GMWProvider) (output_owner : Nat)
    (in_a : List NewWire) :=
  basic_make_arithmetic_output_gate_my 16 p output_owner in_a

/-- The function `GMWProvider::make_arithmetic_32_output_gate_my`. -/
def make_arithmetic_32_output_gate_my (p : GMWProvider) (output_owner : Nat)
    (in_a : List NewWire) :=
  basic_make_arithmetic_output_gate_my 32 p output_owner in_a

/-- The function `GMWProvider::make_arithmetic_64_output_gate_my`. -/
def make_arithmetic_64_output_gate_my (p : GMWProvider) (output_owner : Nat)
    (in_a : List NewWire) :=
  basic_make_arithmetic_output_gate_my 64 p output_owner in_a

/-- The switch of `GMWProvider::make_arithmetic_output_gate_other` (lines 273-297): the gate for the bit
size of the wire, or the error of the default case; `none` when the assertion of
`cast_arith_wire` fails. -/
def outputGateForBitSize (gate_id output_owner : Nat) (w : NewWire) :
    Option (Except String NewGate) :=
  if w.get_bit_size = 8 then
    (cast_arith_wire 8 w).map fun input =>
      Except.ok ⟨gate_id, GateKind.ArithmeticGMWOutputGate 8 input output_owner⟩
  else if w.get_bit_size = 16 then
    (cast_arith_wire 16 w).map fun input =>
      Except.ok ⟨gate_id, GateKind.ArithmeticGMWOutputGate 16 input output_owner⟩
  else if w.get_bit_size = 32 then
    (cast_arith_wire 32 w).map fun input =>
      Except.ok ⟨gate_id, GateKind.ArithmeticGMWOutputGate 32 input output_owner⟩
  else if w.get_bit_size = 64 then
    (cast_arith_wire 64 w).map fun input =>
      Except.ok ⟨gate_id, GateKind.ArithmeticGMWOutputGate 64 input output_owner⟩
  else some (Except.error unsupported_bit_size)

/-- The function `GMWProvider::make_arithmetic_output_gate_other` (lines 263-299). The gate id is taken
before the switch on the bit size, so the error of the default case leaves the counter of
the register incremented. -/
def make_arithmetic_output_gate_other (p : GMWProvider) (output_owner : Nat)
    (in_a : List NewWire) : GMWProvider × Result Unit :=
  if output_owner = ALL_PARTIES ∨ output_owner = p.my_id then
    (p, Result.error output_gate_wrong_party)
  else
    match in_a with
    | [w] =>
      let (gate_id, reg) := p.gate_register.get_next_gate_id
      match outputGateForBitSize gate_id output_owner w with
      | none => ({ p with gate_register := reg }, Result.fault)
      | some (Except.error e) => ({ p with gate_register := reg }, Result.error e)
      | some (Except.ok gate) =>
        ({ p with gate_register := reg.register_gate gate }, Result.ok ())
    | _ => (p, Result.error invalid_number_of_wires)

end MOTION.proto.gmw

namespace MOTION.proto.gmw

/-- The function `GMWProvider::make_inv_gate` (lines 332-338). -/
def make_inv_gate (p : GMWProvider) (in_a : List NewWire) :
    GMWProvider × Result (List NewWire) :=
  let (gate_id, reg) := p.gate_register.get_next_gate_id
  let input := cast_wires in_a
  let gate : NewGate := ⟨gate_id, GateKind.BooleanGMWINVGate input⟩
  let output := booleanOutputWires gate_id input.length (numSimdOf input)
  ({ p with gate_register := reg.register_gate gate }, Result.ok output)

/-- The function `GMWProvider::make_xor_gate` (lines 340-348). -/
def make_xor_gate (p : GMWProvider) (in_a in_b : List NewWire) :
    GMWProvider × Result (List NewWire) :=
  let (gate_id, reg) := p.gate_register.get_next_gate_id
  let gate : NewGate :=
    ⟨gate_id, GateKind.BooleanGMWXORGate (cast_wires in_a) (cast_wires in_b)⟩
  let output := booleanOutputWires gate_id in_a.length (numSimdOf (cast_wires in_a))
  ({ p with gate_register := reg.register_gate gate }, Result.ok output)

/-- The function `GMWProvider::make_and_gate` (lines 350-358). -/
def make_and_gate (p : GMWProvider) (in_a in_b : List NewWire) :
    GMWProvider × Result (List NewWire) :=
  let (gate_id, reg) := p.gate_register.get_next_gate_id
  let gate : NewGate :=
    ⟨gate_id, GateKind.BooleanGMWANDGate (cast_wires in_a) (cast_wires in_b)⟩
  let output := booleanOutputWires gate_id in_a.length (numSimdOf (cast_wires in_a))
  ({ p with gate_register := reg.register_gate gate }, Result.ok output)

/-- The function `check_arithmetic_wire` (lines 360-365). -/
def check_arithmetic_wire (in_a : List NewWire) : Except String Nat :=
  match in_a with
  | [a] => Except.ok a.get_bit_size
  | _ => Except.error single_wires_only

/-- The function `GMWProvider::make_arithmetic_unary_gate<UnaryGate, T>` (lines 367-375), `bits` being
the width of `T` and `UnaryGate` the constructor of the gate. The gate id is taken before
the wire is cast. -/
def make_arithmetic_unary_gate_T (UnaryGate : Nat → NewWire → GateKind) (bits : Nat)
    (p : GMWProvider) (in_a : NewWire) : GMWProvider × Result (List NewWire) :=
  let (gate_id, reg) := p.gate_register.get_next_gate_id
  match cast_arith_wire bits in_a with
  | some a =>
    let gate : NewGate := ⟨gate_id, UnaryGate bits a⟩
    let output := [arithmeticOutputWire gate_id bits a.get_num_simd]
    ({ p with gate_register := reg.register_gate gate }, Result.ok output)
  | none => ({ p with gate_register := reg }, Result.fault)

/-- The function `GMWProvider::make_arithmetic_unary_gate<UnaryGate>` (lines 377-392). -/
def make_arithmetic_unary_gate (UnaryGate : Nat → NewWire → GateKind) (p : GMWProvider)
    (in_a : List NewWire) : GMWProvider × Result (List NewWire) :=
  match check_arithmetic_wire in_a, in_a with
  | Except.error e, _ => (p, Result.error e)
  | Except.ok _, [] => (p, Result.fault)
  | Except.ok bit_size, a :: _ =>
    if bit_size = 8 then make_arithmetic_unary_gate_T UnaryGate 8 p a
    else if bit_size = 16 then make_arithmetic_unary_gate_T UnaryGate 16 p a
    else if bit_size = 32 then make_arithmetic_unary_gate_T UnaryGate 32 p a
    else if bit_size = 64 then make_arithmetic_unary_gate_T UnaryGate 64 p a
    else (p, Result.error (unexpected_bit_size bit_size))

/-- The function `check_arithmetic_wires` (lines 394-403). -/
def check_arithmetic_wires (in_a in_b : List NewWire) : Except String Nat :=
  match in_a, in_b with
  | [a], [b] =>
    if a.get_bit_size ≠ b.get_bit_size then Except.error different_bit_sizes
    else Except.ok a.get_bit_size
  | _, _ => Except.error single_wires_only

/-- The function `GMWProvider::make_arithmetic_binary_gate<BinaryGate, T>` (lines 405-413), `bits` being
the width of `T` and `BinaryGate` the constructor of the gate. The gate id is taken before
the wires are cast. -/
def make_arithmetic_binary_gate_T (BinaryGate : Nat → NewWire → NewWire → GateKind)
    (bits : Nat) (p : GMWProvider) (in_a in_b : NewWire) :
    GMWProvider × Result (List NewWire) :=
  let (gate_id, reg) := p.gate_register.get_next_gate_id
  match cast_arith_wire bits in_a, cast_arith_wire bits in_b with
  | some a, some b =>
    let gate : NewGate := ⟨gate_id, BinaryGate bits a b⟩
    let output := [arithmeticOutputWire gate_id bits a.get_num_simd]
    ({ p with gate_register := reg.register_gate gate }, Result.ok output)
  | _, _ => ({ p with gate_register := reg }, Result.fault)

/-- The function `GMWProvider::make_arithmetic_binary_gate<BinaryGate>` (lines 415-431). -/
def make_arithmetic_binary_gate (BinaryGate : Nat → NewWire → NewWire → GateKind)
    (p : GMWProvider) (in_a in_b : List NewWire) : GMWProvider × Result (List NewWire) :=
  match check_arithmetic_wires in_a in_b, in_a, in_b with
  | Except.error e, _, _ => (p, Result.error e)
  | Except.ok bit_size, a :: _, b :: _ =>
    if bit_size = 8 then make_arithmetic_binary_gate_T BinaryGate 8 p a b
    else if bit_size = 16 then make_arithmetic_binary_gate_T BinaryGate 16 p a b
    else if bit_size = 32 then make_arithmetic_binary_gate_T BinaryGate 32 p a b
    else if bit_size = 64 then make_arithmetic_binary_gate_T BinaryGate 64 p a b
    else (p, Result.error (unexpected_bit_size bit_size))
  | Except.ok _, _, _ => (p, Result.fault)

/-- The function `GMWProvider::make_neg_gate` (lines 433-435). -/
def make_neg_gate (p : GMWProvider) (in_a : List NewWire) :=
  make_arithmetic_unary_gate GateKind.ArithmeticGMWNEGGate p in_a

/-- The function `GMWProvider::make_add_gate` (lines 437-439). -/
def make_add_gate (p : GMWProvider) (in_a in_b : List NewWire) :=
  make_arithmetic_binary_gate GateKind.ArithmeticGMWADDGate p in_a in_b

/-- The function `GMWProvider::make_mul_gate` (lines 441-443). -/
def make_mul_gate (p : GMWProvider) (in_a in_b : List NewWire) :=
  make_arithmetic_binary_gate GateKind.ArithmeticGMWMULGate p in_a in_b

/-- The function `GMWProvider::make_sqr_gate` (lines 445-447). -/
def make_sqr_gate (p : GMWProvider) (in_a : List NewWire) :=
  make_arithmetic_unary_gate GateKind.ArithmeticGMWSQRGate p in_a

/-- The function `GMWProvider::make_unary_gate` (lines 301-313). -/
def make_unary_gate (p : GMWProvider) (op : PrimitiveOperationType) (in_a : List NewWire) :
    GMWProvider × Result (List NewWire) :=
  match op with
  | PrimitiveOperationType.INV => make_inv_gate p in_a
  | PrimitiveOperationType.NEG => make_neg_gate p in_a
  | PrimitiveOperationType.SQR => make_sqr_gate p in_a
  | _ => (p, Result.error (unsupported_unary_operation op))

/-- The function `GMWProvider::make_binary_gate` (lines 315-330). -/
def make_binary_gate (p : GMWProvider) (op : PrimitiveOperationType)
    (in_a in_b : List NewWire) : GMWProvider × Result (List NewWire) :=
  match op with
  | PrimitiveOperationType.XOR => make_xor_gate p in_a in_b
  | PrimitiveOperationType.AND => make_and_gate p in_a in_b
  | PrimitiveOperationType.ADD => make_add_gate p in_a in_b
  | PrimitiveOperationType.MUL => make_mul_gate p in_a in_b
  | _ => (p, Result.error (unsupported_binary_operation op))

/-- The function `GMWProvider::basic_make_convert_to_arithmetic_gmw_gate<T>` (lines 449-458), `bits`
being the width of `T`; a `fault` when the assertion `num_wires == bit_size_v<T>` fails. The
SIMD count of the output wire is what the constructor of the gate (absent `conversion.h`)
reads from the first input wire. -/
def basic_make_convert_to_arithmetic_gmw_gate (bits : Nat) (p : GMWProvider)
    (in_a : List (Option NewWire)) : GMWProvider × Result (List NewWire) :=
  let num_wires := in_a.length
  if num_wires ≠ bits then (p, Result.fault)
  else
    let (gate_id, reg) := p.gate_register.get_next_gate_id
    let gate : NewGate := ⟨gate_id, GateKind.BooleanToArithmeticGMWGate bits in_a⟩
    let output := arithmeticOutputWire gate_id bits (numSimdOf in_a)
    ({ p with gate_register := reg.register_gate gate }, Result.ok [output])

/-- The function `GMWProvider::make_convert_to_arithmetic_gmw_gate` (lines 460-474). -/
def make_convert_to_arithmetic_gmw_gate (p : GMWProvider) (in_a : List (Option NewWire)) :
    GMWProvider × Result (List NewWire) :=
  let bit_size := in_a.length
  if bit_size = 8 then basic_make_convert_to_arithmetic_gmw_gate 8 p in_a
  else if bit_size = 16 then basic_make_convert_to_arithmetic_gmw_gate 16 p in_a
  else if bit_size = 32 then basic_make_convert_to_arithmetic_gmw_gate 32 p in_a
  else if bit_size = 64 then basic_make_convert_to_arithmetic_gmw_gate 64 p in_a
  else (p, Result.error (unsupported_conversion_bit_size bit_size))

/-- The function `GMWProvider::convert_boolean` (lines 476-485). -/
def convert_boolean (p : GMWProvider) (proto : MPCProtocol) (in_a : List NewWire) :
    GMWProvider × Result (List NewWire) :=
  let input := cast_wires in_a
  match proto with
  | MPCProtocol.ArithmeticGMW => make_convert_to_arithmetic_gmw_gate p input
  | _ => (p, Result.error (unsupported_conversion proto))

/-- The function `GMWProvider::convert` (lines 487-500). The wires are cast to `BooleanGMWWire` before
the protocol of the first one is read: on an empty vector the assertion fails, and on a
first wire of another class `input.at(0)` is a null pointer, whose dereference is a
`fault`. -/
def convert (p : GMWProvider) (proto : MPCProtocol) (in_a : List NewWire) :
    GMWProvider × Result (List NewWire) :=
  let input := cast_wires in_a
  match input with
  | [] => (p, Result.fault)
  | none :: _ => (p, Result.fault)
  | some w :: _ =>
    match w.get_protocol with
    | MPCProtocol.ArithmeticGMW => (p, Result.error not_yet_implemented)
    | MPCProtocol.BooleanGMW => convert_boolean p proto in_a
    | _ => (p, Result.error expected_gmw_protocol)

end MOTION.proto.gmw

namespace MOTION.proto.gmw

/-- The part of the constructor `GMWProvider::GMWProvider` (lines 44-59) that sets the modelled
members, on a gate register without gates. -/
def GMWProvider.new (my_id num_parties : Nat) : GMWProvider :=
  ⟨my_id, num_parties, ⟨0, []⟩, 0⟩

/-- A sample provider: party 0 of two, with a fresh gate register. -/
def sampleProvider : GMWProvider := GMWProvider.new 0 2

/-- A sample 64-bit Arithmetic-GMW wire, produced by the gate `gate_id`. -/
def sampleWire64 (gate_id : Nat) : NewWire := NewWire.ArithmeticGMWWire 64 1 gate_id

/-- Eight sample Boolean-GMW wires, produced by the gate 0. -/
def sampleBooleanWires : List NewWire := List.replicate 8 (NewWire.BooleanGMWWire 1 0)

/-- A call of one of the gate constructors of `GMWProvider`, with its arguments. The
arithmetic input and output gates of the four widths are the calls with `bits` 8, 16, 32
and 64. -/
inductive FactoryCall where
  | boolean_input_gate_my (input_owner num_wires num_simd : Nat)
  | boolean_input_gate_other (input_owner num_wires num_simd : Nat)
  | arithmetic_input_gate_my (bits input_owner num_simd : Nat)
  | arithmetic_input_gate_other (bits input_owner num_simd : Nat)
  | boolean_output_gate_my (output_owner : Nat) (in_a : List NewWire)
  | boolean_output_gate_other (output_owner : Nat) (in_a : List NewWire)
  | arithmetic_output_gate_my (bits output_owner : Nat) (in_a : List NewWire)
  | arithmetic_output_gate_other (output_owner : Nat) (in_a : List NewWire)
  | unary_gate (op : PrimitiveOperationType) (in_a : List NewWire)
  | binary_gate (op : PrimitiveOperationType) (in_a in_b : List NewWire)
  | convert (proto : MPCProtocol) (in_a : List NewWire)
deriving DecidableEq, Repr

/-- The provider after a call that returned; `none` for a call that did not return. -/
def providerAfter {α : Type} (r : GMWProvider × Result α) : Option GMWProvider :=
  match r with
  | (p, Result.ok _) => some p
  | _ => none

/-- The provider after a call of an input-gate constructor that returned. -/
def providerAfterInput {α : Type} (r : Except String (GMWProvider × α)) :
    Option GMWProvider :=
  match r with
  | Except.ok (p, _) => some p
  | Except.error _ => none

/-- The provider after a successful factory call; `none` when the call does not succeed. -/
def FactoryCall.run (p : GMWProvider) : FactoryCall → Option GMWProvider
  | boolean_input_gate_my input_owner num_wires num_simd =>
    providerAfterInput (make_boolean_input_gate_my p input_owner num_wires num_simd)
  | boolean_input_gate_other input_owner num_wires num_simd =>
    providerAfterInput (make_boolean_input_gate_other p input_owner num_wires num_simd)
  | arithmetic_input_gate_my bits input_owner num_simd =>
    providerAfterInput (basic_make_arithmetic_input_gate_my bits p input_owner num_simd)
  | arithmetic_input_gate_other bits input_owner num_simd =>
    providerAfterInput (basic_make_arithmetic_input_gate_other bits p input_owner num_simd)
  | boolean_output_gate_my output_owner in_a =>
    providerAfter (make_boolean_output_gate_my p output_owner in_a)
  | boolean_output_gate_other output_owner in_a =>
    providerAfter (make_boolean_output_gate_other p output_owner in_a)
  | arithmetic_output_gate_my bits output_owner in_a =>
    providerAfter (basic_make_arithmetic_output_gate_my bits p output_owner in_a)
  | arithmetic_output_gate_other output_owner in_a =>
    providerAfter (make_arithmetic_output_gate_other p output_owner in_a)
  | unary_gate op in_a => providerAfter (make_unary_gate p op in_a)
  | binary_gate op in_a in_b => providerAfter (make_binary_gate p op in_a in_b)
  | convert proto in_a => providerAfter (MOTION.proto.gmw.convert p proto in_a)

/-- A sequence of factory calls that all succeed: the provider after the last one. -/
def runCalls (p : GMWProvider) : List FactoryCall → Option GMWProvider
  | [] => some p
  | call :: calls =>
    match call.run p with
    | some p1 => runCalls p1 calls
    | none => none

/-- The ids of the registered gates, in creation order. -/
def GateRegister.ids (r : GateRegister) : List Nat := r.gates.map fun g => g.gate_id

/-- The calls that build the addition circuit of party 0. -/
def sampleCalls : List FactoryCall :=
  [FactoryCall.arithmetic_input_gate_my 64 0 1,
    FactoryCall.arithmetic_input_gate_other 64 1 1,
    FactoryCall.binary_gate PrimitiveOperationType.ADD [sampleWire64 0] [sampleWire64 1],
    FactoryCall.arithmetic_output_gate_my 64 ALL_PARTIES [sampleWire64 2]]

/-- The provider of party 0 after `sampleCalls`. -/
def sampleAfterCalls : GMWProvider := (runCalls sampleProvider sampleCalls).getD sampleProvider

end MOTION.proto.gmw

namespace MOTION.proto.gmw

/-- How a factory call ends, together with the provider afterwards: the call returned, it
threw with the message `what`, or it has no defined outcome. -/
def ending {α : Type} (r : GMWProvider × Result α) : GMWProvider × Result Unit :=
  match r with
  | (p, Result.ok _) => (p, Result.ok ())
  | (p, Result.error what) => (p, Result.error what)
  | (p, Result.fault) => (p, Result.fault)

/-- How a call of an input-gate constructor ends; these constructors throw before they touch
the provider. -/
def endingInput {α : Type} (p : GMWProvider) (r : Except String (GMWProvider × α)) :
    GMWProvider × Result Unit :=
  match r with
  | Except.ok (p1, _) => (p1, Result.ok ())
  | Except.error what => (p, Result.error what)

/-- How a factory call ends, and the provider afterwards. -/
def FactoryCall.call (p : GMWProvider) : FactoryCall → GMWProvider × Result Unit
  | boolean_input_gate_my input_owner num_wires num_simd =>
    endingInput p (make_boolean_input_gate_my p input_owner num_wires num_simd)
  | boolean_input_gate_other input_owner num_wires num_simd =>
    endingInput p (make_boolean_input_gate_other p input_owner num_wires num_simd)
  | arithmetic_input_gate_my bits input_owner num_simd =>
    endingInput p (basic_make_arithmetic_input_gate_my bits p input_owner num_simd)
  | arithmetic_input_gate_other bits input_owner num_simd =>
    endingInput p (basic_make_arithmetic_input_gate_other bits p input_owner num_simd)
  | boolean_output_gate_my output_owner in_a =>
    ending (make_boolean_output_gate_my p output_owner in_a)
  | boolean_output_gate_other output_owner in_a =>
    ending (make_boolean_output_gate_other p output_owner in_a)
  | arithmetic_output_gate_my bits output_owner in_a =>
    ending (basic_make_arithmetic_output_gate_my bits p output_owner in_a)
  | arithmetic_output_gate_other output_owner in_a =>
    ending (make_arithmetic_output_gate_other p output_owner in_a)
  | unary_gate op in_a => ending (make_unary_gate p op in_a)
  | binary_gate op in_a in_b => ending (make_binary_gate p op in_a in_b)
  | convert proto in_a => ending (MOTION.proto.gmw.convert p proto in_a)

/-- A sample provider: party 0 of two, whose register has handed out five ids and holds
five gates. -/
def sampleUsedProvider : GMWProvider :=
  ⟨0, 2, ⟨5, (List.range 5).map fun i => ⟨i, GateKind.BooleanGMWInputGateSender 1 1⟩⟩, 0⟩

/-- Modelled from the spec: the share of the product that party `i` computes in the online
phase of the arithmetic MUL gate (the gate is in an absent file),
"z_i = c_i + d·b_i + e·a_i + (is_party_0 ? d·e : 0)", in the ring of the `k`-bit integers. -/
def beaverShare (k i a_i b_i c_i d e : Nat) : Nat :=
  (c_i + d * b_i + e * a_i + (if i = 0 then d * e else 0)) % 2 ^ k

/-- Modelled from the spec: the value `d = x − a` of the MUL gate: the parties "compute
d = x − a ... shares", here `x_i − a_i` in the ring of the `k`-bit integers, and "reconstruct
d ... by exchange", here the sum of the two shares. -/
def beaverOpen (k x_0 x_1 a_0 a_1 : Nat) : Nat :=
  ((x_0 % 2 ^ k + 2 ^ k - a_0 % 2 ^ k) % 2 ^ k +
    (x_1 % 2 ^ k + 2 ^ k - a_1 % 2 ^ k) % 2 ^ k) % 2 ^ k

/-- Modelled from the spec: one party during `backend.run()`: its id, the gates of its
register in creation order, and the values set on its input promises, each with the id of
the input gate. -/
structure Party where
  my_id : Nat
  gates : List NewGate
  inputs : List (Nat × Nat)
deriving DecidableEq, Repr

/-- Modelled from the spec: the state of a joint evaluation of the gates of party 0 and
party 1: for each party the shares on the wires evaluated so far and the values delivered to
its output futures, each with the id of the gate. -/
structure Evaluation where
  shares_0 : List (Nat × Nat)
  shares_1 : List (Nat × Nat)
  outputs_0 : List (Nat × Nat)
  outputs_1 : List (Nat × Nat)
deriving DecidableEq, Repr

/-- Modelled from the spec: the evaluation of one gate of the Arithmetic-GMW sharing
(`gate.cpp` is absent) by both parties, `g_0` being the gate of party 0 and `g_1` the gate
that party 1 registered under the same id; one SIMD lane. "A value x is represented as
x = x_0 + x_1 mod 2^k"; the "input-owner samples random r, sends x − r to the peer, keeps r
for itself"; ADD is "purely local"; at an output gate the "parties exchange their shares;
owner reconstructs". The result is `none` when the two gates do not match, when a share or
an input value is missing, and for the gates that the addition circuit does not use. -/
def evaluateGate (inputs_0 inputs_1 : List (Nat × Nat)) (rand : Nat → Nat) (st : Evaluation)
    (g_0 g_1 : NewGate) : Option Evaluation :=
  if g_0.gate_id ≠ g_1.gate_id then none
  else
    match g_0.kind, g_1.kind with
    | GateKind.ArithmeticGMWInputGateSender bits _,
        GateKind.ArithmeticGMWInputGateReceiver bits_1 _ input_owner =>
      if bits = bits_1 ∧ input_owner = 0 then
        (inputs_0.lookup g_0.gate_id).map fun x =>
          { st with
            shares_0 := (g_0.gate_id, rand g_0.gate_id % 2 ^ bits) :: st.shares_0
            shares_1 := (g_0.gate_id,
              (x % 2 ^ bits + 2 ^ bits - rand g_0.gate_id % 2 ^ bits) % 2 ^ bits) ::
                st.shares_1 }
      else none
    | GateKind.ArithmeticGMWInputGateReceiver bits _ input_owner,
        GateKind.ArithmeticGMWInputGateSender bits_1 _ =>
      if bits = bits_1 ∧ input_owner = 1 then
        (inputs_1.lookup g_0.gate_id).map fun x =>
          { st with
            shares_0 := (g_0.gate_id,
              (x % 2 ^ bits + 2 ^ bits - rand g_0.gate_id % 2 ^ bits) % 2 ^ bits) ::
                st.shares_0
            shares_1 := (g_0.gate_id, rand g_0.gate_id % 2 ^ bits) :: st.shares_1 }
      else none
    | GateKind.ArithmeticGMWADDGate bits in_a in_b,
        GateKind.ArithmeticGMWADDGate bits_1 in_a_1 in_b_1 =>
      if bits = bits_1 ∧ in_a.gate_id = in_a_1.gate_id ∧ in_b.gate_id = in_b_1.gate_id then
        match st.shares_0.lookup in_a.gate_id, st.shares_0.lookup in_b.gate_id,
            st.shares_1.lookup in_a.gate_id, st.shares_1.lookup in_b.gate_id with
        | some x_0, some y_0, some x_1, some y_1 =>
          some { st with
            shares_0 := (g_0.gate_id, (x_0 + y_0) % 2 ^ bits) :: st.shares_0
            shares_1 := (g_0.gate_id, (x_1 + y_1) % 2 ^ bits) :: st.shares_1 }
        | _, _, _, _ => none
      else none
    | GateKind.ArithmeticGMWOutputGate bits input output_owner,
        GateKind.ArithmeticGMWOutputGate bits_1 input_1 output_owner_1 =>
      if bits = bits_1 ∧ input.gate_id = input_1.gate_id ∧ output_owner = output_owner_1 then
        match st.shares_0.lookup input.gate_id, st.shares_1.lookup input.gate_id with
        | some x_0, some x_1 =>
          some { st with
            outputs_0 :=
              if output_owner = ALL_PARTIES ∨ output_owner = 0 then
                (g_0.gate_id, (x_0 + x_1) % 2 ^ bits) :: st.outputs_0
              else st.outputs_0
            outputs_1 :=
              if output_owner = ALL_PARTIES ∨ output_owner = 1 then
                (g_0.gate_id, (x_0 + x_1) % 2 ^ bits) :: st.outputs_1
              else st.outputs_1 }
        | _, _ => none
      else none
    | _, _ => none

/-- Modelled from the spec: the joint evaluation of the two gate lists, gate by gate in
creation order; `none` when one party has more gates than the other. -/
def evaluateGates (inputs_0 inputs_1 : List (Nat × Nat)) (rand : Nat → Nat) :
    Evaluation → List NewGate → List NewGate → Option Evaluation
  | st, [], [] => some st
  | st, g_0 :: gates_0, g_1 :: gates_1 =>
    match evaluateGate inputs_0 inputs_1 rand st g_0 g_1 with
    | some st1 => evaluateGates inputs_0 inputs_1 rand st1 gates_0 gates_1
    | none => none
  | _, _, _ => none

/-- Modelled from the spec: `TwoPartyBackend::run` of the absent `base/two_party_backend.h`,
seen from the party `me` whose peer is `peer`: the values that the run delivers to the
output futures of `me`, each with the id of the output gate; `none` when the run does not
deliver them. The value `rand g` is what the owner of the input gate `g` samples. -/
def backend_run (me peer : Party) (rand : Nat → Nat) : Option (List (Nat × Nat)) :=
  if me.my_id = 0 ∧ peer.my_id = 1 then
    (evaluateGates me.inputs peer.inputs rand ⟨[], [], [], []⟩ me.gates peer.gates).map
      fun st => st.outputs_0
  else if me.my_id = 1 ∧ peer.my_id = 0 then
    (evaluateGates peer.inputs me.inputs rand ⟨[], [], [], []⟩ peer.gates me.gates).map
      fun st => st.outputs_1
  else none

end MOTION.proto.gmw

namespace add_mul_compare

open MOTION.proto.gmw

/-- The struct `Options` (lines 47-64); a connection of `tcp_config` is a host and a
port. -/
structure Options where
  threads : Nat
  json : Bool
  num_repetitions : Nat
  num_simd : Nat
  sync_between_setup_and_online : Bool
  arithmetic_protocol : MPCProtocol
  boolean_protocol : MPCProtocol
  input_value_1 : Nat
  input_value_2 : Nat
  input_value_3 : Nat
  my_id : Nat
  tcp_config : List (String × Nat)
  no_run : Bool
deriving DecidableEq, Repr

/-- The variables map `vm` of `parse_program_options` once the command line and the config
file are stored in it (Boost.Program_options is not part of the sources): the value of
every option, with its default where the option has one and was not given. `notify_ok`
tells whether `po::notify(vm)` returns, which it does when every required option has a
value; `party` is `none` when no `--party` option was given. -/
structure VariablesMap where
  help : Bool
  notify_ok : Bool
  my_id : Nat
  party : Option (List String)
  threads : Nat
  json : Bool
  arithmetic_protocol : String
  boolean_protocol : String
  input_value_1 : Nat
  input_value_2 : Nat
  input_value_3 : Nat
  repetitions : Nat
  num_simd : Nat
  sync_between_setup_and_online : Bool
  no_run : Bool
deriving DecidableEq, Repr

/-- The message of the exception of line 163. -/
def invalid_party_argument : String := "invalid party argument"

/-- The message of a `boost::bad_lexical_cast`, thrown for a port above 65535. -/
def bad_lexical_cast : String :=
  "bad lexical cast: source type value could not be interpreted as target"

/-- The message of a `boost::bad_any_cast`, thrown by `vm["party"].as<...>()` when the
option has no value. -/
def bad_any_cast : String := "boost::bad_any_cast: failed conversion using boost::any_cast"

/-- The decimal number that a string of digits denotes. -/
def decimalValue (s : String) : Nat :=
  s.data.foldl (fun n ch => 10 * n + (ch.toNat - 48)) 0

/-- The lambda `parse_party_argument` (lines 158-168): the argument has to match the regular
expression `([01]),([^,]+),(\d{1,5})` as a whole; the result is the party id, the host and
the port, or the message of the exception thrown. -/
def parse_party_argument (s : String) : Except String (Nat × String × Nat) :=
  match s.splitOn "," with
  | [id, host, port] =>
    if (id = "0" ∨ id = "1") ∧ host ≠ "" ∧ 1 ≤ port.length ∧ port.length ≤ 5 ∧
        port.all Char.isDigit = true then
      if decimalValue port < 2 ^ 16 then Except.ok (decimalValue id, host, decimalValue port)
      else Except.error bad_lexical_cast
    else Except.error invalid_party_argument
  | _ => Except.error invalid_party_argument

/-- The function `parse_program_options` (lines 66-192), from the filled variables map on. The value
is `some options`, or `none` for `std::nullopt`; an exception leaves the function. -/
def parse_program_options (vm : VariablesMap) : Result (Option Options) :=
  if vm.help then Result.ok none
  else if !vm.notify_ok then Result.ok none
  else if vm.my_id > 1 then Result.ok none
  else
    let arithmetic_protocol := vm.arithmetic_protocol.toLower
    if arithmetic_protocol ≠ "gmw" ∧ arithmetic_protocol ≠ "beavy" then Result.ok none
    else
      let boolean_protocol := vm.boolean_protocol.toLower
      if boolean_protocol ≠ "yao" ∧ boolean_protocol ≠ "gmw" ∧ boolean_protocol ≠ "beavy" then
        Result.ok none
      else
        match vm.party with
        | none => Result.error bad_any_cast
        | some [party_0, party_1] =>
          match parse_party_argument party_0 with
          | Except.error what => Result.error what
          | Except.ok (id0, conn_info0) =>
            match parse_party_argument party_1 with
            | Except.error what => Result.error what
            | Except.ok (id1, conn_info1) =>
              if id0 = id1 then Result.ok none
              else
                Result.ok (some
                  { threads := vm.threads
                    json := vm.json
                    num_repetitions := vm.repetitions
                    num_simd := vm.num_simd
                    sync_between_setup_and_online := vm.sync_between_setup_and_online
                    arithmetic_protocol :=
                      if arithmetic_protocol = "gmw" then MPCProtocol.ArithmeticGMW
                      else MPCProtocol.ArithmeticBEAVY
                    boolean_protocol :=
                      if boolean_protocol = "yao" then MPCProtocol.Yao
                      else if boolean_protocol = "gmw" then MPCProtocol.BooleanGMW
                      else MPCProtocol.BooleanBEAVY
                    input_value_1 := vm.input_value_1
                    input_value_2 := vm.input_value_2
                    input_value_3 := vm.input_value_3
                    my_id := vm.my_id
                    tcp_config := (([("", 0), ("", 0)].set id0 conn_info0).set id1 conn_info1)
                    no_run := vm.no_run })
        | some _ => Result.ok none

/-- The expression `1 - options.my_id` in `std::size_t`. -/
def other_id (my_id : Nat) : Nat := (2 ^ 64 + 1 - my_id % 2 ^ 64) % 2 ^ 64

/-- The second half of `create_arith_add_circuit` (lines 243-262): the ADD gate over the two
input wire vectors and the output gate for all parties. -/
def addAndOutput (gate_factory_arith : GMWProvider) (input_promise : Nat)
    (input_0_arith input_1_arith : List NewWire) : GMWProvider × Result (Nat × Nat) :=
  match make_binary_gate gate_factory_arith PrimitiveOperationType.ADD input_0_arith
      input_1_arith with
  | (factory_1, Result.ok output) =>
    match make_arithmetic_64_output_gate_my factory_1 ALL_PARTIES output with
    | (factory_2, Result.ok output_future) =>
      (factory_2, Result.ok (input_promise, output_future))
    | (factory_2, Result.error what) => (factory_2, Result.error what)
    | (factory_2, Result.fault) => (factory_2, Result.fault)
  | (factory_1, Result.error what) => (factory_1, Result.error what)
  | (factory_1, Result.fault) => (factory_1, Result.fault)

/-- The function `create_arith_add_circuit` (lines 219-263), `gate_factory_arith` being the factory that
`backend.get_gate_factory(options.arithmetic_protocol)` returns, here the GMW provider
(the Boolean factory is retrieved but not used). The value is the pair of the input promise
and the output future, each given by the id of its gate. -/
def create_arith_add_circuit (options : Options) (gate_factory_arith : GMWProvider) :
    GMWProvider × Result (Nat × Nat) :=
  if options.my_id = 0 then
    match make_arithmetic_64_input_gate_my gate_factory_arith options.my_id 1 with
    | Except.error what => (gate_factory_arith, Result.error what)
    | Except.ok (factory_1, input_promise, input_0_arith) =>
      match make_arithmetic_64_input_gate_other factory_1 (other_id options.my_id) 1 with
      | Except.error what => (factory_1, Result.error what)
      | Except.ok (factory_2, input_1_arith) =>
        addAndOutput factory_2 input_promise input_0_arith input_1_arith
  else
    match make_arithmetic_64_input_gate_other gate_factory_arith (other_id options.my_id)
        1 with
    | Except.error what => (gate_factory_arith, Result.error what)
    | Except.ok (factory_1, input_0_arith) =>
      match make_arithmetic_64_input_gate_my factory_1 options.my_id 1 with
      | Except.error what => (factory_1, Result.error what)
      | Except.ok (factory_2, input_promise, input_1_arith) =>
        addAndOutput factory_2 input_promise input_0_arith input_1_arith

/-- What `run_add_circuit` and `run_composite_circuit` do after the circuit is built, in
order: `input_promise.set_value`, `backend.run()`, `output_future.get()` with the value it
yields, and the line printed on `std::cout`. -/
inductive Action where
  | set_value (promise value : Nat)
  | run
  | get (future value : Nat)
  | print (value : Nat)
deriving DecidableEq, Repr

/-- The function `run_add_circuit` (lines 265-287) on the GMW factory of the backend, with the peer
that the backend runs the protocol with. The value holds the factory afterwards, the
actions performed, and how the call ends: `fault` stands here for a run that does not
deliver the output. -/
def run_add_circuit (options : Options) (gate_factory_arith : GMWProvider) (peer : Party)
    (rand : Nat → Nat) : GMWProvider × List Action × Result Unit :=
  match create_arith_add_circuit options gate_factory_arith with
  | (factory, Result.ok (input_promise, output_future)) =>
    if options.no_run then (factory, [], Result.ok ())
    else
      let me : Party :=
        ⟨factory.my_id, factory.gate_register.gates, [(input_promise, options.input_value_1)]⟩
      match (backend_run me peer rand).bind fun bvs => bvs.lookup output_future with
      | some add_result =>
        (factory,
          [Action.set_value input_promise options.input_value_1, Action.run,
            Action.get output_future add_result] ++
            (if options.json then [] else [Action.print add_result]),
          Result.ok ())
      | none =>
        (factory, [Action.set_value input_promise options.input_value_1, Action.run],
          Result.fault)
  | (factory, Result.error what) => (factory, [], Result.error what)
  | (factory, Result.fault) => (factory, [], Result.fault)

/-- The party that a call of `run_add_circuit` with these options presents to its peer: its
gates, and its input value unless it was told not to run. -/
def partyOf (options : Options) (gate_factory_arith : GMWProvider) : Party :=
  match create_arith_add_circuit options gate_factory_arith with
  | (factory, Result.ok (input_promise, _)) =>
    ⟨factory.my_id, factory.gate_register.gates,
      if options.no_run then [] else [(input_promise, options.input_value_1)]⟩
  | (factory, _) => ⟨factory.my_id, factory.gate_register.gates, []⟩

/-- Sample options of party `my_id` with the input value `input_value_1`: Arithmetic GMW,
Boolean GMW, one repetition. -/
def sampleOptions (my_id input_value_1 : Nat) (no_run : Bool) : Options :=
  { threads := 0
    json := false
    num_repetitions := 1
    num_simd := 1
    sync_between_setup_and_online := false
    arithmetic_protocol := MPCProtocol.ArithmeticGMW
    boolean_protocol := MPCProtocol.BooleanGMW
    input_value_1 := input_value_1
    input_value_2 := 0
    input_value_3 := 0
    my_id := my_id
    tcp_config := [("127.0.0.1", 7000), ("127.0.0.1", 7001)]
    no_run := no_run }

/-- A sample variables map: party `my_id`, GMW for both protocols, two well-formed party
arguments. -/
def sampleVariablesMap (my_id : Nat) : VariablesMap :=
  { help := false
    notify_ok := true
    my_id := my_id
    party := some ["0,127.0.0.1,7000", "1,127.0.0.1,7001"]
    threads := 0
    json := false
    arithmetic_protocol := "GMW"
    boolean_protocol := "gmw"
    input_value_1 := 7
    input_value_2 := 0
    input_value_3 := 0
    repetitions := 1
    num_simd := 1
    sync_between_setup_and_online := false
    no_run := false }

end add_mul_compare

/-!
# Theorems

The multiplication-triple provider (`ABYN`), the gate executor (`MOTION`), the GMW gate
factory (`MOTION.proto.gmw`) and the example driver (`add_mul_compare`), in this order.
-/

namespace ABYN

theorem requestAll_length (ns : List Nat) :
    ∀ s : MTProviderFromOTs, (requestAll s ns).1.length = ns.length := by
  induction ns with
  | nil => intro s; rfl
  | cons n ns ih => intro s; simp [requestAll, ih]

theorem requestAll_spec (ns : List Nat) :
    ∀ s : MTProviderFromOTs, s.num_bit_mts + ns.sum < SIZE_MOD →
      (requestAll s ns).2.num_bit_mts = s.num_bit_mts + ns.sum ∧
      ∀ j, j < ns.length →
        (requestAll s ns).1[j]? = some (s.num_bit_mts + (ns.take j).sum) := by
  induction ns with
  | nil => intro s _; simp [requestAll]
  | cons n ns ih =>
    intro s h
    simp only [List.sum_cons] at h
    have hn : (s.num_bit_mts + n) % SIZE_MOD = s.num_bit_mts + n :=
      Nat.mod_eq_of_lt (by omega)
    have h1 : (RequestBinaryMTs s n).2.num_bit_mts = s.num_bit_mts + n := by
      simp [RequestBinaryMTs, hn]
    have ih1 := ih (RequestBinaryMTs s n).2 (by rw [h1]; omega)
    refine ⟨?_, ?_⟩
    · simp only [requestAll, List.sum_cons]
      rw [ih1.1, h1]; omega
    · intro j hj
      cases j with
      | zero => simp [requestAll, RequestBinaryMTs]
      | succ j =>
        simp only [List.length_cons, Nat.add_lt_add_iff_right] at hj
        simp only [requestAll, List.getElem?_cons_succ, List.take_succ_cons, List.sum_cons]
        rw [ih1.2 j hj, h1]
        congr 1; omega

theorem sum_take_le_sum (ns : List Nat) : ∀ j, (ns.take j).sum ≤ ns.sum := by
  induction ns with
  | nil => intro j; simp
  | cons n ns ih =>
    intro j
    cases j with
    | zero => simp
    | succ j => simp only [List.take_succ_cons, List.sum_cons]; have := ih j; omega

theorem sum_take_succ (ns : List Nat) :
    ∀ j, j < ns.length → (ns.take (j + 1)).sum = (ns.take j).sum + ns.getD j 0 := by
  induction ns with
  | nil => intro j hj; simp at hj
  | cons n ns ih =>
    intro j hj
    cases j with
    | zero => simp
    | succ j =>
      simp only [List.length_cons, Nat.add_lt_add_iff_right] at hj
      simp only [List.take_succ_cons, List.sum_cons, List.getD_cons_succ]
      rw [ih j hj]; omega

theorem sum_take_mono (ns : List Nat) (i j : Nat) (h : i ≤ j) :
    (ns.take i).sum ≤ (ns.take j).sum := by
  have : ns.take i = (ns.take j).take i := by
    rw [List.take_take, Nat.min_eq_left h]
  rw [this]
  exact sum_take_le_sum _ _

theorem exists_range_of_lt_sum (ns : List Nat) :
    ∀ x, x < ns.sum →
      ∃ j, j < ns.length ∧ (ns.take j).sum ≤ x ∧ x < (ns.take j).sum + ns.getD j 0 := by
  induction ns with
  | nil => intro x hx; simp at hx
  | cons n ns ih =>
    intro x hx
    simp only [List.sum_cons] at hx
    by_cases hxn : x < n
    · exact ⟨0, by simp, by simp, by simpa using hxn⟩
    · obtain ⟨j, hj, h1, h2⟩ := ih (x - n) (by omega)
      refine ⟨j + 1, by simpa using hj, ?_, ?_⟩
      · simp only [List.take_succ_cons, List.sum_cons]; omega
      · simp only [List.take_succ_cons, List.sum_cons, List.getD_cons_succ]; omega

/-- C3: on a freshly constructed provider, the `j`-th call of a sequence of
`RequestBinaryMTs` calls whose sizes sum to less than `2 ^ 64` returns the sum of the earlier
sizes, the counter ends at the sum of all sizes, and the reserved ranges are pairwise
disjoint and cover exactly the positions below the total. -/
theorem C3_request_offsets_tile (my_id num_providers max_batch_size : Nat) (ns : List Nat)
    (h : ns.sum < 2 ^ 64) :
    (∀ j, j < ns.length →
      (requestAll (MTProviderFromOTs.new my_id num_providers max_batch_size) ns).1[j]? =
        some ((ns.take j).sum)) ∧
    (requestAll (MTProviderFromOTs.new my_id num_providers max_batch_size) ns).2.num_bit_mts =
      ns.sum ∧
    (∀ i j, i < j → j < ns.length →
      (requestAll (MTProviderFromOTs.new my_id num_providers max_batch_size) ns).1.getD i 0
        + ns.getD i 0 ≤
      (requestAll (MTProviderFromOTs.new my_id num_providers max_batch_size) ns).1.getD j 0) ∧
    (∀ x, x < ns.sum ↔
      ∃ j, j < ns.length ∧
        (requestAll (MTProviderFromOTs.new my_id num_providers max_batch_size) ns).1.getD j 0
          ≤ x ∧
        x < (requestAll (MTProviderFromOTs.new my_id num_providers max_batch_size)
          ns).1.getD j 0 + ns.getD j 0) := by
  have hs := requestAll_spec ns (MTProviderFromOTs.new my_id num_providers max_batch_size)
    (by simpa [MTProviderFromOTs.new, SIZE_MOD] using h)
  have h0 : (MTProviderFromOTs.new my_id num_providers max_batch_size).num_bit_mts = 0 := rfl
  rw [h0] at hs
  simp only [Nat.zero_add] at hs
  have hoff : ∀ j, j < ns.length →
      (requestAll (MTProviderFromOTs.new my_id num_providers max_batch_size) ns).1.getD j 0 =
        (ns.take j).sum := by
    intro j hj
    simp [List.getD, hs.2 j hj]
  refine ⟨?_, ?_, ?_, ?_⟩
  · intro j hj
    exact hs.2 j hj
  · exact hs.1
  · intro i j hij hj
    rw [hoff i (by omega), hoff j hj, ← sum_take_succ ns i (by omega)]
    exact sum_take_mono ns (i + 1) j hij
  · intro x
    constructor
    · intro hx
      obtain ⟨j, hj, h1, h2⟩ := exists_range_of_lt_sum ns x hx
      exact ⟨j, hj, by rw [hoff j hj]; exact h1, by rw [hoff j hj]; exact h2⟩
    · rintro ⟨j, hj, _, h2⟩
      rw [hoff j hj, ← sum_take_succ ns j hj] at h2
      exact lt_of_lt_of_le h2 (sum_take_le_sum ns (j + 1))

/-- The requests `3, 0, 4` on a fresh provider: an instance of C3. -/
theorem C3_request_offsets_tile_witness :
    (∀ j, j < [3, 0, 4].length →
      (requestAll (MTProviderFromOTs.new 0 2 128) [3, 0, 4]).1[j]? =
        some (([3, 0, 4].take j).sum)) ∧
    (requestAll (MTProviderFromOTs.new 0 2 128) [3, 0, 4]).2.num_bit_mts = [3, 0, 4].sum ∧
    (∀ i j, i < j → j < [3, 0, 4].length →
      (requestAll (MTProviderFromOTs.new 0 2 128) [3, 0, 4]).1.getD i 0
        + [3, 0, 4].getD i 0 ≤
      (requestAll (MTProviderFromOTs.new 0 2 128) [3, 0, 4]).1.getD j 0) ∧
    (∀ x, x < [3, 0, 4].sum ↔
      ∃ j, j < [3, 0, 4].length ∧
        (requestAll (MTProviderFromOTs.new 0 2 128) [3, 0, 4]).1.getD j 0 ≤ x ∧
        x < (requestAll (MTProviderFromOTs.new 0 2 128) [3, 0, 4]).1.getD j 0
          + [3, 0, 4].getD j 0) :=
  C3_request_offsets_tile 0 2 128 [3, 0, 4] (by decide)

end ABYN

namespace ABYN

theorem fillIntegerMTs_zero (w : Nat) (ra rb : Nat → Nat) (v : IntegerMTVector) :
    fillIntegerMTs w 0 ra rb v = some v := by
  simp [fillIntegerMTs]

/-- Without integer MTs the first half of `RegisterOTs` is the block of the binary pool. -/
theorem initPools_binary (rnd : RandomSource) (s : MTProviderFromOTs)
    (h8 : s.num_mts_8 = 0) (h16 : s.num_mts_16 = 0) (h32 : s.num_mts_32 = 0)
    (h64 : s.num_mts_64 = 0) : initPools rnd s = some (initBinaryPool rnd s) := by
  simp only [initPools, h8, h16, h32, h64, fillIntegerMTs_zero]
  rfl

theorem RegisterOTs_binary (fuel : Nat) (rnd : RandomSource) (s : MTProviderFromOTs)
    (h8 : s.num_mts_8 = 0) (h16 : s.num_mts_16 = 0) (h32 : s.num_mts_32 = 0)
    (h64 : s.num_mts_64 = 0) :
    RegisterOTs fuel rnd s = registerPeers fuel s.num_providers 0 (initBinaryPool rnd s) := by
  unfold RegisterOTs
  rw [initPools_binary rnd s h8 h16 h32 h64]
  rfl

theorem RegisterOTs_some (fuel : Nat) (rnd : RandomSource) (s s1 : MTProviderFromOTs)
    (h : RegisterOTs fuel rnd s = some s1) :
    ∃ s0, initPools rnd s = some s0 ∧ registerPeers fuel s0.num_providers 0 s0 = some s1 := by
  unfold RegisterOTs at h
  cases h0 : initPools rnd s with
  | none => simp [h0] at h
  | some s0 => exact ⟨s0, rfl, by simpa [h0] using h⟩

/-- What the first half of `RegisterOTs` leaves untouched, and the binary pool it yields. -/
theorem initPools_frame (rnd : RandomSource) (s s0 : MTProviderFromOTs)
    (h : initPools rnd s = some s0) :
    s0.my_id = s.my_id ∧ s0.num_providers = s.num_providers ∧
    s0.max_batch_size = s.max_batch_size ∧
    s0.num_bit_mts = s.num_bit_mts ∧ s0.num_mts_8 = s.num_mts_8 ∧
    s0.num_mts_16 = s.num_mts_16 ∧ s0.num_mts_32 = s.num_mts_32 ∧
    s0.num_mts_64 = s.num_mts_64 ∧ s0.bit_mts = (initBinaryPool rnd s).bit_mts ∧
    s0.bit_ots_snd = s.bit_ots_snd ∧ s0.bit_ots_rcv = s.bit_ots_rcv ∧
    s0.finished = s.finished ∧
    fillIntegerMTs 8 s.num_mts_8 (rnd.int_a 8) (rnd.int_b 8) s.mts8 = some s0.mts8 ∧
    fillIntegerMTs 16 s.num_mts_16 (rnd.int_a 16) (rnd.int_b 16) s.mts16 = some s0.mts16 ∧
    fillIntegerMTs 32 s.num_mts_32 (rnd.int_a 32) (rnd.int_b 32) s.mts32 = some s0.mts32 ∧
    fillIntegerMTs 64 s.num_mts_64 (rnd.int_a 64) (rnd.int_b 64) s.mts64 = some s0.mts64 := by
  unfold initPools at h
  cases h8 : fillIntegerMTs 8 s.num_mts_8 (rnd.int_a 8) (rnd.int_b 8) s.mts8 with
  | none => simp [h8] at h
  | some m8 =>
    cases h16 : fillIntegerMTs 16 s.num_mts_16 (rnd.int_a 16) (rnd.int_b 16) s.mts16 with
    | none => simp [h8, h16] at h
    | some m16 =>
      cases h32 : fillIntegerMTs 32 s.num_mts_32 (rnd.int_a 32) (rnd.int_b 32) s.mts32 with
      | none => simp [h8, h16, h32] at h
      | some m32 =>
        cases h64 : fillIntegerMTs 64 s.num_mts_64 (rnd.int_a 64) (rnd.int_b 64) s.mts64 with
        | none => simp [h8, h16, h32, h64] at h
        | some m64 =>
          simp only [h8, h16, h32, h64, Option.some.injEq] at h
          subst h
          exact ⟨rfl, rfl, rfl, rfl, rfl, rfl, rfl, rfl, rfl, rfl, rfl, rfl, rfl, rfl, rfl, rfl⟩

end ABYN

namespace ABYN

theorem registerLoop_done (mb n : Nat) (a b : List Bool) (fuel mt_id : Nat)
    (snd : List OTVectorSender) (rcv : List OTVectorReceiver) (h : ¬ mt_id < n) :
    registerLoop mb n a b fuel mt_id snd rcv = some (snd, rcv) := by
  cases fuel <;> simp [registerLoop, h]

theorem registerLoop_zero (mb n : Nat) (a b : List Bool) (mt_id : Nat)
    (snd : List OTVectorSender) (rcv : List OTVectorReceiver) (h : mt_id < n) :
    registerLoop mb n a b 0 mt_id snd rcv = none := by
  simp [registerLoop, h]

theorem registerLoop_step (mb n : Nat) (a b : List Bool) (fuel mt_id : Nat)
    (snd : List OTVectorSender) (rcv : List OTVectorReceiver) (h : mt_id < n) :
    registerLoop mb n a b (fuel + 1) mt_id snd rcv =
      match inputBits a mt_id (min mb (n - mt_id)) 0 [],
          Subset b mt_id (mt_id + min mb (n - mt_id)) with
      | some v_r, some ch =>
        registerLoop mb n a b fuel (mt_id + min mb (n - mt_id))
          (snd ++ [⟨1, min mb (n - mt_id), OTProtocol.XCOT, v_r, []⟩])
          (rcv ++ [⟨1, min mb (n - mt_id), OTProtocol.XCOT, ch, []⟩])
      | _, _ => none := by
  simp [registerLoop, h]

theorem parseLoop_done (mb n fuel mt_id : Nat)
    (snd : List OTVectorSender) (rcv : List OTVectorReceiver) (cs : List Bool)
    (h : ¬ mt_id < n) :
    parseLoop mb n fuel mt_id snd rcv cs = some (snd, rcv, cs) := by
  cases fuel <;> simp [parseLoop, h]

theorem parseLoop_step (mb n fuel mt_id : Nat) (ot_s : OTVectorSender)
    (snd : List OTVectorSender) (ot_r : OTVectorReceiver) (rcv : List OTVectorReceiver)
    (cs : List Bool) (h : mt_id < n) :
    parseLoop mb n (fuel + 1) mt_id (ot_s :: snd) (ot_r :: rcv) cs =
      match parseBatch ot_s.outputs ot_r.outputs mt_id (min mb (n - mt_id)) 0 cs with
      | some c1 => parseLoop mb n fuel (mt_id + min mb (n - mt_id)) snd rcv c1
      | none => none := by
  simp [parseLoop, h]

/-- Accumulator-free form of the registration loop. -/
theorem registerLoop_acc (mb n : Nat) (a b : List Bool) :
    ∀ (fuel mt_id : Nat) (snd : List OTVectorSender) (rcv : List OTVectorReceiver),
      registerLoop mb n a b fuel mt_id snd rcv =
        (registerLoop mb n a b fuel mt_id [] []).map (fun p => (snd ++ p.1, rcv ++ p.2)) := by
  intro fuel
  induction fuel with
  | zero =>
    intro mt_id snd rcv
    by_cases h : mt_id < n
    · simp [registerLoop_zero, h]
    · simp [registerLoop_done, h]
  | succ fuel ih =>
    intro mt_id snd rcv
    by_cases h : mt_id < n
    · rw [registerLoop_step _ _ _ _ _ _ _ _ h, registerLoop_step _ _ _ _ _ _ _ _ h]
      cases h1 : inputBits a mt_id (min mb (n - mt_id)) 0 [] with
      | none => simp
      | some v_r =>
        cases h2 : Subset b mt_id (mt_id + min mb (n - mt_id)) with
        | none => simp
        | some ch =>
          simp only []
          rw [ih _ (snd ++ _) (rcv ++ _), ih _ ([] ++ _) ([] ++ _)]
          simp [Option.map_map, Function.comp_def]
    · simp [registerLoop_done, h]

theorem inputBits_spec (a : List Bool) (mt_id : Nat) :
    ∀ (todo k : Nat) (v v1 : List (List Bool)),
      inputBits a mt_id todo k v = some v1 →
        v1 = v ++ ((a.drop (mt_id + k)).take todo).map (fun x => [x]) ∧
        ((a.drop (mt_id + k)).take todo).length = todo := by
  intro todo
  induction todo with
  | zero =>
    intro k v v1 h
    simp only [inputBits, Option.some.injEq] at h
    subst h
    simp
  | succ todo ih =>
    intro k v v1 h
    rw [inputBits] at h
    cases hbit : a[mt_id + k]? with
    | none => simp [hbit] at h
    | some bit =>
      simp only [hbit] at h
      obtain ⟨h1, h2⟩ := ih (k + 1) _ _ h
      have hlt : mt_id + k < a.length := by
        by_contra hc
        rw [List.getElem?_eq_none (by omega)] at hbit
        cases hbit
      have hd : a.drop (mt_id + k) = bit :: a.drop (mt_id + (k + 1)) := by
        rw [List.drop_eq_getElem_cons hlt]
        rw [List.getElem?_eq_getElem hlt] at hbit
        simp only [Option.some.injEq] at hbit
        rw [hbit]; rfl
      rw [hd]
      refine ⟨?_, ?_⟩
      · rw [h1]; simp
      · simp only [List.take_succ_cons, List.length_cons, h2]

theorem inputBits_getElem (a : List Bool) (mt_id bs : Nat) (v : List (List Bool))
    (h : inputBits a mt_id bs 0 [] = some v) (j : Nat) (hj : j < bs) :
    mt_id + j < a.length ∧ v[j]? = some [a.getD (mt_id + j) false] := by
  obtain ⟨h1, h2⟩ := inputBits_spec a mt_id bs 0 [] v h
  simp only [Nat.add_zero, List.nil_append] at h1 h2
  have hlen : mt_id + bs ≤ a.length ∨ bs = 0 := by
    simp only [List.length_take, List.length_drop] at h2
    omega
  have hlt : mt_id + j < a.length := by omega
  refine ⟨hlt, ?_⟩
  rw [h1, List.getElem?_map, List.getElem?_take, if_pos hj, List.getElem?_drop,
    List.getElem?_eq_getElem hlt]
  simp [List.getD, List.getElem?_eq_getElem hlt]

theorem Subset_getElem (b : List Bool) (mt_id bs : Nat) (ch : List Bool)
    (h : Subset b mt_id (mt_id + bs) = some ch) (j : Nat) (hj : j < bs) :
    mt_id + j < b.length ∧ ch[j]? = some (b.getD (mt_id + j) false) := by
  unfold Subset at h
  split at h
  · rename_i hc
    simp only [Option.some.injEq] at h
    have hlt : mt_id + j < b.length := by omega
    refine ⟨hlt, ?_⟩
    rw [← h, List.getElem?_take, if_pos (by omega), List.getElem?_drop,
      List.getElem?_eq_getElem hlt]
    simp [List.getD, List.getElem?_eq_getElem hlt]
  · cases h

theorem ideal_bit (ot_s : OTVectorSender) (ot_r : OTVectorReceiver)
    (out_s out_r : List (List Bool)) (h : idealXCOT ot_s ot_r out_s out_r = true)
    (hb : ot_s.bitlen = 1) (j : Nat) (hj : j < ot_s.num_ots) (d b : Bool)
    (hd : ot_s.inputs[j]? = some [d]) (hc : ot_r.choices[j]? = some b) :
    out_s[j]? = some [firstBit out_s j] ∧
      out_r[j]? = some [xor (firstBit out_s j) (b && d)] := by
  unfold idealXCOT at h
  rw [List.all_eq_true] at h
  have hj1 := h j (List.mem_range.mpr hj)
  rw [hd, hc] at hj1
  cases hs : out_s[j]? with
  | none => simp [hs] at hj1
  | some s =>
    cases hr : out_r[j]? with
    | none => simp [hs, hr] at hj1
    | some r =>
      simp only [hs, hr, Bool.and_eq_true, decide_eq_true_eq] at hj1
      obtain ⟨hl, hrr⟩ := hj1
      rw [hb] at hl
      match s, hl, hs with
      | [s0], _, hs =>
        have hf : firstBit out_s j = s0 := by simp [firstBit, hs]
        rw [hf, hrr]
        simp

theorem parseBatch_spec (out_s out_r : List (List Bool)) (mt_id : Nat) (fs fr : Nat → Bool) :
    ∀ (todo j : Nat) (cs : List Bool),
      (∀ t, j ≤ t → t < j + todo → out_s[t]? = some [fs t] ∧ out_r[t]? = some [fr t]) →
      mt_id + j + todo ≤ cs.length →
      ∃ cs1, parseBatch out_s out_r mt_id todo j cs = some cs1 ∧ cs1.length = cs.length ∧
        ∀ i, cs1.getD i false =
          if mt_id + j ≤ i ∧ i < mt_id + j + todo then
            xor (xor (fr (i - mt_id)) (fs (i - mt_id))) (cs.getD i false)
          else cs.getD i false := by
  intro todo
  induction todo with
  | zero =>
    intro j cs _ _
    refine ⟨cs, rfl, rfl, ?_⟩
    intro i
    rw [if_neg (by omega)]
  | succ todo ih =>
    intro j cs hout hlen
    obtain ⟨hs, hr⟩ := hout j (Nat.le_refl j) (by omega)
    have hlt : mt_id + j < cs.length := by omega
    have hc : cs[mt_id + j]? = some (cs.getD (mt_id + j) false) := by
      simp [List.getD, List.getElem?_eq_getElem hlt]
    obtain ⟨cs1, h1, h2, h3⟩ := ih (j + 1)
      (cs.set (mt_id + j) (xor (xor (fr j) (fs j)) (cs.getD (mt_id + j) false)))
      (fun t ht1 ht2 => hout t (by omega) (by omega))
      (by rw [List.length_set]; omega)
    refine ⟨cs1, ?_, ?_, ?_⟩
    · rw [parseBatch, hr, hs]
      simp only [List.getElem?_cons_zero, hc]
      exact h1
    · rw [h2, List.length_set]
    · intro i
      rw [h3 i]
      by_cases hi : i = mt_id + j
      · subst hi
        rw [if_neg (by omega), if_pos (by omega)]
        simp [List.getD, List.getElem?_set, hlt]
      · have hset : (cs.set (mt_id + j)
            (xor (xor (fr j) (fs j)) (cs.getD (mt_id + j) false))).getD i false =
            cs.getD i false := by
          simp only [List.getD_eq_getElem?_getD]
          rw [List.getElem?_set_ne (by omega)]
        rw [hset]
        by_cases hin : mt_id + (j + 1) ≤ i ∧ i < mt_id + (j + 1) + todo
        · rw [if_pos hin, if_pos (by omega)]
        · rw [if_neg hin, if_neg (by omega)]

theorem xor_recombine (p q x y a0 b0 a1 b1 : Bool) :
    xor (xor (xor (xor q (b0 && a1)) p) x) (xor (xor (xor p (b1 && a0)) q) y) =
      xor (xor x y) (xor (a0 && b1) (a1 && b0)) := by
  revert p q x y a0 b0 a1 b1
  decide

theorem registerLoop_step_inv (mb n : Nat) (a b : List Bool) (fuel mt_id : Nat)
    (sb : List OTVectorSender) (rb : List OTVectorReceiver) (h : mt_id < n)
    (hreg : registerLoop mb n a b (fuel + 1) mt_id [] [] = some (sb, rb)) :
    ∃ v_r ch sb1 rb1,
      inputBits a mt_id (min mb (n - mt_id)) 0 [] = some v_r ∧
      Subset b mt_id (mt_id + min mb (n - mt_id)) = some ch ∧
      registerLoop mb n a b fuel (mt_id + min mb (n - mt_id)) [] [] = some (sb1, rb1) ∧
      sb = ⟨1, min mb (n - mt_id), OTProtocol.XCOT, v_r, []⟩ :: sb1 ∧
      rb = ⟨1, min mb (n - mt_id), OTProtocol.XCOT, ch, []⟩ :: rb1 := by
  rw [registerLoop_step _ _ _ _ _ _ _ _ h] at hreg
  cases h1 : inputBits a mt_id (min mb (n - mt_id)) 0 [] with
  | none => simp [h1] at hreg
  | some v_r =>
    cases h2 : Subset b mt_id (mt_id + min mb (n - mt_id)) with
    | none => simp [h1, h2] at hreg
    | some ch =>
      simp only [h1, h2] at hreg
      rw [registerLoop_acc] at hreg
      cases h3 : registerLoop mb n a b fuel (mt_id + min mb (n - mt_id)) [] [] with
      | none => simp [h3] at hreg
      | some p =>
        obtain ⟨sb1, rb1⟩ := p
        simp only [h3, Option.map_some', List.nil_append, List.singleton_append,
          Option.some.injEq, Prod.mk.injEq] at hreg
        exact ⟨v_r, ch, sb1, rb1, rfl, rfl, rfl, hreg.1.symm, hreg.2.symm⟩

/-- The two parties run their registration and parsing loops in lock step: with ideal
XCOT pairs in both directions, both parsing loops empty their queues and the XOR of the two
`c` vectors gains exactly the two cross terms at every position from `mt_id` on. -/
theorem parse_after_register (mb n : Nat) (a0 b0 a1 b1 : List Bool) :
    ∀ (fuel mt_id : Nat) (oS0 oR0 oS1 oR1 : Nat → List (List Bool))
      (sb0 : List OTVectorSender) (rb0 : List OTVectorReceiver)
      (sb1 : List OTVectorSender) (rb1 : List OTVectorReceiver) (cs0 cs1 : List Bool),
      registerLoop mb n a0 b0 fuel mt_id [] [] = some (sb0, rb0) →
      registerLoop mb n a1 b1 fuel mt_id [] [] = some (sb1, rb1) →
      (∀ k S R, sb0[k]? = some S → rb1[k]? = some R →
        idealXCOT S R (oS0 k) (oR1 k) = true) →
      (∀ k S R, sb1[k]? = some S → rb0[k]? = some R →
        idealXCOT S R (oS1 k) (oR0 k) = true) →
      cs0.length = n → cs1.length = n →
      ∃ cs0f cs1f,
        parseLoop mb n fuel mt_id
          (sb0.mapIdx (fun k ot => { ot with outputs := oS0 k }))
          (rb0.mapIdx (fun k ot => { ot with outputs := oR0 k })) cs0 = some ([], [], cs0f) ∧
        parseLoop mb n fuel mt_id
          (sb1.mapIdx (fun k ot => { ot with outputs := oS1 k }))
          (rb1.mapIdx (fun k ot => { ot with outputs := oR1 k })) cs1 = some ([], [], cs1f) ∧
        cs0f.length = n ∧ cs1f.length = n ∧
        ∀ i, (i < mt_id →
            cs0f.getD i false = cs0.getD i false ∧ cs1f.getD i false = cs1.getD i false) ∧
          (mt_id ≤ i → i < n →
            xor (cs0f.getD i false) (cs1f.getD i false) =
              xor (xor (cs0.getD i false) (cs1.getD i false))
                (xor (a0.getD i false && b1.getD i false)
                  (a1.getD i false && b0.getD i false))) := by
  intro fuel
  induction fuel with
  | zero =>
    intro mt_id oS0 oR0 oS1 oR1 sb0 rb0 sb1 rb1 cs0 cs1 hr0 hr1 _ _ hl0 hl1
    by_cases h : mt_id < n
    · rw [registerLoop_zero _ _ _ _ _ _ _ h] at hr0
      cases hr0
    · rw [registerLoop_done _ _ _ _ _ _ _ _ h] at hr0 hr1
      simp only [Option.some.injEq, Prod.mk.injEq] at hr0 hr1
      obtain ⟨rfl, rfl⟩ := hr0
      obtain ⟨rfl, rfl⟩ := hr1
      refine ⟨cs0, cs1, ?_, ?_, hl0, hl1, ?_⟩
      · simp [parseLoop_done, h]
      · simp [parseLoop_done, h]
      · intro i
        exact ⟨fun _ => ⟨rfl, rfl⟩, fun h1 h2 => absurd (by omega) h⟩
  | succ fuel ih =>
    intro mt_id oS0 oR0 oS1 oR1 sb0 rb0 sb1 rb1 cs0 cs1 hr0 hr1 h01 h10 hl0 hl1
    by_cases h : mt_id < n
    · obtain ⟨v0, ch0, sb0t, rb0t, hv0, hch0, hreg0, rfl, rfl⟩ :=
        registerLoop_step_inv _ _ _ _ _ _ _ _ h hr0
      obtain ⟨v1, ch1, sb1t, rb1t, hv1, hch1, hreg1, rfl, rfl⟩ :=
        registerLoop_step_inv _ _ _ _ _ _ _ _ h hr1
      have hbs : mt_id + min mb (n - mt_id) ≤ n := by omega
      -- the k = 0 pairs
      have hp01 := h01 0 _ _ List.getElem?_cons_zero List.getElem?_cons_zero
      have hp10 := h10 0 _ _ List.getElem?_cons_zero List.getElem?_cons_zero
      have hbits0 : ∀ t, t < min mb (n - mt_id) →
          (oS0 0)[t]? = some [firstBit (oS0 0) t] ∧
          (oR1 0)[t]? = some [xor (firstBit (oS0 0) t)
            (b1.getD (mt_id + t) false && a0.getD (mt_id + t) false)] := by
        intro t ht
        exact ideal_bit _ _ _ _ hp01 rfl t ht _ _
          (inputBits_getElem a0 mt_id _ v0 hv0 t ht).2
          (Subset_getElem b1 mt_id _ ch1 hch1 t ht).2
      have hbits1 : ∀ t, t < min mb (n - mt_id) →
          (oS1 0)[t]? = some [firstBit (oS1 0) t] ∧
          (oR0 0)[t]? = some [xor (firstBit (oS1 0) t)
            (b0.getD (mt_id + t) false && a1.getD (mt_id + t) false)] := by
        intro t ht
        exact ideal_bit _ _ _ _ hp10 rfl t ht _ _
          (inputBits_getElem a1 mt_id _ v1 hv1 t ht).2
          (Subset_getElem b0 mt_id _ ch0 hch0 t ht).2
      obtain ⟨cs0a, hb0, hla0, hva0⟩ := parseBatch_spec (oS0 0) (oR0 0) mt_id
        (firstBit (oS0 0))
        (fun t => xor (firstBit (oS1 0) t)
          (b0.getD (mt_id + t) false && a1.getD (mt_id + t) false))
        (min mb (n - mt_id)) 0 cs0
        (fun t _ ht => ⟨(hbits0 t (by omega)).1, (hbits1 t (by omega)).2⟩)
        (by omega)
      obtain ⟨cs1a, hb1, hla1, hva1⟩ := parseBatch_spec (oS1 0) (oR1 0) mt_id
        (firstBit (oS1 0))
        (fun t => xor (firstBit (oS0 0) t)
          (b1.getD (mt_id + t) false && a0.getD (mt_id + t) false))
        (min mb (n - mt_id)) 0 cs1
        (fun t _ ht => ⟨(hbits1 t (by omega)).1, (hbits0 t (by omega)).2⟩)
        (by omega)
      obtain ⟨cs0f, cs1f, hpl0, hpl1, hlf0, hlf1, hfin⟩ :=
        ih (mt_id + min mb (n - mt_id)) (fun k => oS0 (k + 1)) (fun k => oR0 (k + 1))
          (fun k => oS1 (k + 1)) (fun k => oR1 (k + 1)) sb0t rb0t sb1t rb1t cs0a cs1a
          hreg0 hreg1
          (fun k S R hS hR => h01 (k + 1) S R (by simpa using hS) (by simpa using hR))
          (fun k S R hS hR => h10 (k + 1) S R (by simpa using hS) (by simpa using hR))
          (by rw [hla0, hl0]) (by rw [hla1, hl1])
      refine ⟨cs0f, cs1f, ?_, ?_, hlf0, hlf1, ?_⟩
      · rw [List.mapIdx_cons, List.mapIdx_cons, parseLoop_step _ _ _ _ _ _ _ _ _ h]
        simp only [hb0]
        exact hpl0
      · rw [List.mapIdx_cons, List.mapIdx_cons, parseLoop_step _ _ _ _ _ _ _ _ _ h]
        simp only [hb1]
        exact hpl1
      · intro i
        have hA0 := hva0 i
        have hA1 := hva1 i
        simp only [Nat.add_zero] at hA0 hA1
        obtain ⟨hlow, hhigh⟩ := hfin i
        refine ⟨?_, ?_⟩
        · intro hi
          obtain ⟨e0, e1⟩ := hlow (by omega)
          rw [e0, e1, hA0, hA1, if_neg (by omega), if_neg (by omega)]
          exact ⟨rfl, rfl⟩
        · intro hi1 hi2
          by_cases hin : i < mt_id + min mb (n - mt_id)
          · obtain ⟨e0, e1⟩ := hlow hin
            rw [e0, e1, hA0, hA1, if_pos ⟨hi1, hin⟩, if_pos ⟨hi1, hin⟩]
            have hidx : mt_id + (i - mt_id) = i := by omega
            simp only [hidx]
            exact xor_recombine _ _ _ _ _ _ _ _
          · have := hhigh (by omega) hi2
            rw [this, hA0, hA1, if_neg (by omega), if_neg (by omega)]
    · rw [registerLoop_done _ _ _ _ _ _ _ _ h] at hr0 hr1
      simp only [Option.some.injEq, Prod.mk.injEq] at hr0 hr1
      obtain ⟨rfl, rfl⟩ := hr0
      obtain ⟨rfl, rfl⟩ := hr1
      refine ⟨cs0, cs1, ?_, ?_, hl0, hl1, ?_⟩
      · simp [parseLoop_done, h]
      · simp [parseLoop_done, h]
      · intro i
        exact ⟨fun _ => ⟨rfl, rfl⟩, fun h1 h2 => absurd (by omega) h⟩

theorem registerPeers_party0 (fuel : Nat) (s : MTProviderFromOTs) (hid : s.my_id = 0)
    (hN : 0 < s.num_bit_mts) (hs : s.bit_ots_snd = [[], []]) (hr : s.bit_ots_rcv = [[], []]) :
    registerPeers fuel 2 0 s =
      (registerLoop s.max_batch_size s.num_bit_mts s.bit_mts.a s.bit_mts.b fuel 0 [] []).map
        (fun p => { s with bit_ots_snd := [[], p.1], bit_ots_rcv := [[], p.2] }) := by
  cases h : registerLoop s.max_batch_size s.num_bit_mts s.bit_mts.a s.bit_mts.b fuel 0 [] [] with
  | none => simp [registerPeers, hid, hN, hs, hr, h]
  | some p => simp [registerPeers, hid, hN, hs, hr, h]

theorem registerPeers_party1 (fuel : Nat) (s : MTProviderFromOTs) (hid : s.my_id = 1)
    (hN : 0 < s.num_bit_mts) (hs : s.bit_ots_snd = [[], []]) (hr : s.bit_ots_rcv = [[], []]) :
    registerPeers fuel 2 0 s =
      (registerLoop s.max_batch_size s.num_bit_mts s.bit_mts.a s.bit_mts.b fuel 0 [] []).map
        (fun p => { s with bit_ots_snd := [p.1, []], bit_ots_rcv := [p.2, []] }) := by
  cases h : registerLoop s.max_batch_size s.num_bit_mts s.bit_mts.a s.bit_mts.b fuel 0 [] [] with
  | none => simp [registerPeers, hid, hN, hs, hr, h]
  | some p => simp [registerPeers, hid, hN, hs, hr, h]

theorem parsePeers_party0 (fuel : Nat) (s : MTProviderFromOTs) (hid : s.my_id = 0)
    (hN : 0 < s.num_bit_mts) (sq : List OTVectorSender) (rq : List OTVectorReceiver)
    (cf : List Bool) (hs : s.bit_ots_snd = [[], sq]) (hr : s.bit_ots_rcv = [[], rq])
    (hp : parseLoop s.max_batch_size s.num_bit_mts fuel 0 sq rq s.bit_mts.c =
      some ([], [], cf)) :
    parsePeers fuel 2 0 s =
      some { s with bit_mts := { s.bit_mts with c := cf }
                    bit_ots_snd := [[], []], bit_ots_rcv := [[], []] } := by
  simp [parsePeers, hid, hN, hs, hr, hp]

theorem parsePeers_party1 (fuel : Nat) (s : MTProviderFromOTs) (hid : s.my_id = 1)
    (hN : 0 < s.num_bit_mts) (sq : List OTVectorSender) (rq : List OTVectorReceiver)
    (cf : List Bool) (hs : s.bit_ots_snd = [sq, []]) (hr : s.bit_ots_rcv = [rq, []])
    (hp : parseLoop s.max_batch_size s.num_bit_mts fuel 0 sq rq s.bit_mts.c =
      some ([], [], cf)) :
    parsePeers fuel 2 0 s =
      some { s with bit_mts := { s.bit_mts with c := cf }
                    bit_ots_snd := [[], []], bit_ots_rcv := [[], []] } := by
  simp [parsePeers, hid, hN, hs, hr, hp]

theorem registerPeers_no_bits (fuel : Nat) :
    ∀ (todo i : Nat) (s : MTProviderFromOTs), s.num_bit_mts = 0 →
      registerPeers fuel todo i s = some s := by
  intro todo
  induction todo with
  | zero => intro i s _; rfl
  | succ todo ih =>
    intro i s h
    by_cases hi : i = s.my_id
    · simp [registerPeers, hi, ih _ s h]
    · simp [registerPeers, hi, h, ih _ s h]

theorem parsePeers_no_bits (fuel : Nat) :
    ∀ (todo i : Nat) (s : MTProviderFromOTs), s.num_bit_mts = 0 →
      parsePeers fuel todo i s = some s := by
  intro todo
  induction todo with
  | zero => intro i s _; rfl
  | succ todo ih =>
    intro i s h
    by_cases hi : i = s.my_id
    · simp [parsePeers, hi, ih _ s h]
    · simp [parsePeers, hi, h, ih _ s h]

theorem link_pairs (sender receiver : MTProviderFromOTs) (out_s out_r : OTOutcome)
    (sq : List OTVectorSender) (rq : List OTVectorReceiver)
    (hs : sender.bit_ots_snd.getD receiver.my_id [] = sq)
    (hr : receiver.bit_ots_rcv.getD sender.my_id [] = rq)
    (h : idealXCOTLink sender receiver out_s out_r = true) :
    ∀ k S R, sq[k]? = some S → rq[k]? = some R →
      idealXCOT S R (out_s.snd receiver.my_id k) (out_r.rcv sender.my_id k) = true := by
  intro k S R hS hR
  unfold idealXCOTLink at h
  simp only [hs, hr] at h
  rw [List.all_eq_true] at h
  have hk : k < sq.length := by
    by_contra hc
    rw [List.getElem?_eq_none (by omega)] at hS
    cases hS
  have := h k (List.mem_range.mpr hk)
  simpa [hS, hR] using this

theorem and_recombine (x0 y0 x1 y1 : Bool) :
    xor (xor (x0 && y0) (x1 && y1)) (xor (x0 && y1) (x1 && y0)) =
      (xor x0 x1 && xor y0 y1) := by
  revert x0 y0 x1 y1
  decide

theorem Random_length (r : Nat → Bool) (n : Nat) : (Random r n).length = n := by
  simp [Random]

theorem Random_getElem (r : Nat → Bool) (n i : Nat) (h : i < n) :
    (Random r n)[i]? = some (r i) := by
  simp [Random, List.getElem?_range h]

theorem getD_of_getElem (l : List Bool) (i : Nat) (x : Bool) (h : l[i]? = some x) :
    l.getD i false = x := by
  simp [List.getD_eq_getElem?_getD, h]

theorem getElem_of_lt (l : List Bool) (i : Nat) (h : i < l.length) :
    l[i]? = some (l.getD i false) := by
  simp [List.getD_eq_getElem?_getD, List.getElem?_eq_getElem h]

theorem Subset_take_drop (v : List Bool) (offset n : Nat) (h : offset + n ≤ v.length) :
    Subset v offset (offset + n) = some ((v.drop offset).take n) := by
  unfold Subset
  rw [if_pos ⟨by omega, h⟩]
  simp

end ABYN

namespace ABYN

theorem RegisterOTs_party0 (N mb fuel : Nat) (rnd : RandomSource) (q : MTProviderFromOTs)
    (hmod : N % SIZE_MOD = N) (hpos : 0 < N)
    (hq : RegisterOTs fuel rnd (twoPartyProvider 0 mb N) = some q) :
    ∃ sb rb,
      registerLoop mb N (Random rnd.bit_a N) (Random rnd.bit_b N) fuel 0 [] [] =
        some (sb, rb) ∧
      q.my_id = 0 ∧ q.num_providers = 2 ∧ q.num_bit_mts = N ∧ q.max_batch_size = mb ∧
      q.bit_ots_snd = [[], sb] ∧ q.bit_ots_rcv = [[], rb] ∧
      q.bit_mts = ⟨Random rnd.bit_a N, Random rnd.bit_b N,
        List.zipWith (fun x y => x && y) (Random rnd.bit_a N) (Random rnd.bit_b N)⟩ := by
  rw [RegisterOTs_binary _ _ _ rfl rfl rfl rfl] at hq
  have hnp : (twoPartyProvider 0 mb N).num_providers = 2 := rfl
  have hn : (initBinaryPool rnd (twoPartyProvider 0 mb N)).num_bit_mts = N := by
    simp [initBinaryPool, twoPartyProvider, RequestBinaryMTs, MTProviderFromOTs.new, hmod]
  have hb : (initBinaryPool rnd (twoPartyProvider 0 mb N)).bit_mts =
      ⟨Random rnd.bit_a N, Random rnd.bit_b N,
        List.zipWith (fun x y => x && y) (Random rnd.bit_a N) (Random rnd.bit_b N)⟩ := by
    simp [initBinaryPool, twoPartyProvider, RequestBinaryMTs, MTProviderFromOTs.new, hmod, hpos]
  rw [hnp, registerPeers_party0 fuel _ rfl (by rw [hn]; exact hpos) rfl rfl] at hq
  rw [hn, hb] at hq
  have hm : (initBinaryPool rnd (twoPartyProvider 0 mb N)).max_batch_size = mb := rfl
  rw [hm] at hq
  cases hl : registerLoop mb N (Random rnd.bit_a N) (Random rnd.bit_b N) fuel 0 [] [] with
  | none => simp [hl] at hq
  | some p =>
    obtain ⟨sb, rb⟩ := p
    simp only [hl, Option.map_some', Option.some.injEq] at hq
    refine ⟨sb, rb, rfl, ?_⟩
    subst hq
    exact ⟨rfl, rfl, rfl, rfl, rfl, rfl, rfl⟩

theorem RegisterOTs_party1 (N mb fuel : Nat) (rnd : RandomSource) (q : MTProviderFromOTs)
    (hmod : N % SIZE_MOD = N) (hpos : 0 < N)
    (hq : RegisterOTs fuel rnd (twoPartyProvider 1 mb N) = some q) :
    ∃ sb rb,
      registerLoop mb N (Random rnd.bit_a N) (Random rnd.bit_b N) fuel 0 [] [] =
        some (sb, rb) ∧
      q.my_id = 1 ∧ q.num_providers = 2 ∧ q.num_bit_mts = N ∧ q.max_batch_size = mb ∧
      q.bit_ots_snd = [sb, []] ∧ q.bit_ots_rcv = [rb, []] ∧
      q.bit_mts = ⟨Random rnd.bit_a N, Random rnd.bit_b N,
        List.zipWith (fun x y => x && y) (Random rnd.bit_a N) (Random rnd.bit_b N)⟩ := by
  rw [RegisterOTs_binary _ _ _ rfl rfl rfl rfl] at hq
  have hnp : (twoPartyProvider 1 mb N).num_providers = 2 := rfl
  have hn : (initBinaryPool rnd (twoPartyProvider 1 mb N)).num_bit_mts = N := by
    simp [initBinaryPool, twoPartyProvider, RequestBinaryMTs, MTProviderFromOTs.new, hmod]
  have hb : (initBinaryPool rnd (twoPartyProvider 1 mb N)).bit_mts =
      ⟨Random rnd.bit_a N, Random rnd.bit_b N,
        List.zipWith (fun x y => x && y) (Random rnd.bit_a N) (Random rnd.bit_b N)⟩ := by
    simp [initBinaryPool, twoPartyProvider, RequestBinaryMTs, MTProviderFromOTs.new, hmod, hpos]
  rw [hnp, registerPeers_party1 fuel _ rfl (by rw [hn]; exact hpos) rfl rfl] at hq
  rw [hn, hb] at hq
  have hm : (initBinaryPool rnd (twoPartyProvider 1 mb N)).max_batch_size = mb := rfl
  rw [hm] at hq
  cases hl : registerLoop mb N (Random rnd.bit_a N) (Random rnd.bit_b N) fuel 0 [] [] with
  | none => simp [hl] at hq
  | some p =>
    obtain ⟨sb, rb⟩ := p
    simp only [hl, Option.map_some', Option.some.injEq] at hq
    refine ⟨sb, rb, rfl, ?_⟩
    subst hq
    exact ⟨rfl, rfl, rfl, rfl, rfl, rfl, rfl⟩

theorem ParseOutputs_party0 (fuel : Nat) (out : OTOutcome) (q : MTProviderFromOTs)
    (sb : List OTVectorSender) (rb : List OTVectorReceiver) (cf : List Bool)
    (hid : q.my_id = 0) (hnp : q.num_providers = 2) (hpos : 0 < q.num_bit_mts)
    (hs : q.bit_ots_snd = [[], sb]) (hr : q.bit_ots_rcv = [[], rb])
    (hp : parseLoop q.max_batch_size q.num_bit_mts fuel 0
      (sb.mapIdx (fun k ot => { ot with outputs := out.snd 1 k }))
      (rb.mapIdx (fun k ot => { ot with outputs := out.rcv 1 k })) q.bit_mts.c =
        some ([], [], cf)) :
    ∃ r, ParseOutputs fuel (runOTs out q) = some r ∧
      r.bit_mts = ⟨q.bit_mts.a, q.bit_mts.b, cf⟩ := by
  unfold ParseOutputs
  have h1 : (runOTs out q).num_providers = 2 := hnp
  rw [h1, parsePeers_party0 fuel (runOTs out q) hid hpos _ _ cf
    (by simp [runOTs, hs, hid]) (by simp [runOTs, hr, hid]) hp]
  exact ⟨_, rfl, rfl⟩

theorem ParseOutputs_party1 (fuel : Nat) (out : OTOutcome) (q : MTProviderFromOTs)
    (sb : List OTVectorSender) (rb : List OTVectorReceiver) (cf : List Bool)
    (hid : q.my_id = 1) (hnp : q.num_providers = 2) (hpos : 0 < q.num_bit_mts)
    (hs : q.bit_ots_snd = [sb, []]) (hr : q.bit_ots_rcv = [rb, []])
    (hp : parseLoop q.max_batch_size q.num_bit_mts fuel 0
      (sb.mapIdx (fun k ot => { ot with outputs := out.snd 0 k }))
      (rb.mapIdx (fun k ot => { ot with outputs := out.rcv 0 k })) q.bit_mts.c =
        some ([], [], cf)) :
    ∃ r, ParseOutputs fuel (runOTs out q) = some r ∧
      r.bit_mts = ⟨q.bit_mts.a, q.bit_mts.b, cf⟩ := by
  unfold ParseOutputs
  have h1 : (runOTs out q).num_providers = 2 := hnp
  rw [h1, parsePeers_party1 fuel (runOTs out q) hid hpos _ _ cf
    (by simp [runOTs, hs, hid]) (by simp [runOTs, hr, hid]) hp]
  exact ⟨_, rfl, rfl⟩

/-- Recombination of the boolean triples, given the providers that `RegisterOTs` returned. -/
theorem recombine_of_registered (N mb fuel : Nat) (rnd0 rnd1 : RandomSource)
    (out0 out1 : OTOutcome) (q0 q1 : MTProviderFromOTs)
    (hN : N < 2 ^ 64)
    (hq0 : RegisterOTs fuel rnd0 (twoPartyProvider 0 mb N) = some q0)
    (hq1 : RegisterOTs fuel rnd1 (twoPartyProvider 1 mb N) = some q1)
    (h01 : idealXCOTLink q0 q1 out0 out1 = true)
    (h10 : idealXCOTLink q1 q0 out1 out0 = true) :
    ∃ r0 r1, ParseOutputs fuel (runOTs out0 q0) = some r0 ∧
      ParseOutputs fuel (runOTs out1 q1) = some r1 ∧
      ∀ i, i < N → ∃ x0 y0 z0 x1 y1 z1,
        r0.bit_mts.a[i]? = some x0 ∧ r0.bit_mts.b[i]? = some y0 ∧
        r0.bit_mts.c[i]? = some z0 ∧
        r1.bit_mts.a[i]? = some x1 ∧ r1.bit_mts.b[i]? = some y1 ∧
        r1.bit_mts.c[i]? = some z1 ∧
        xor z0 z1 = (xor x0 x1 && xor y0 y1) := by
  have hmod : N % SIZE_MOD = N := Nat.mod_eq_of_lt (by simpa [SIZE_MOD] using hN)
  by_cases hz : N = 0
  · subst hz
    have e0 : (initBinaryPool rnd0 (twoPartyProvider 0 mb 0)).num_bit_mts = 0 := by
      simp [initBinaryPool, twoPartyProvider, RequestBinaryMTs, MTProviderFromOTs.new]
    have e1 : (initBinaryPool rnd1 (twoPartyProvider 1 mb 0)).num_bit_mts = 0 := by
      simp [initBinaryPool, twoPartyProvider, RequestBinaryMTs, MTProviderFromOTs.new]
    rw [RegisterOTs_binary _ _ _ rfl rfl rfl rfl] at hq0 hq1
    rw [registerPeers_no_bits _ _ _ _ e0] at hq0
    rw [registerPeers_no_bits _ _ _ _ e1] at hq1
    simp only [Option.some.injEq] at hq0 hq1
    have f0 : (runOTs out0 q0).num_bit_mts = 0 := by rw [← hq0]; exact e0
    have f1 : (runOTs out1 q1).num_bit_mts = 0 := by rw [← hq1]; exact e1
    refine ⟨_, _, parsePeers_no_bits _ _ _ _ f0, parsePeers_no_bits _ _ _ _ f1, ?_⟩
    intro i hi
    omega
  · have hpos : 0 < N := Nat.pos_of_ne_zero hz
    obtain ⟨sb0, rb0, hl0, hid0, hnp0, hn0, hm0, hs0, hr0, hb0⟩ :=
      RegisterOTs_party0 N mb fuel rnd0 q0 hmod hpos hq0
    obtain ⟨sb1, rb1, hl1, hid1, hnp1, hn1, hm1, hs1, hr1, hb1⟩ :=
      RegisterOTs_party1 N mb fuel rnd1 q1 hmod hpos hq1
    have hp01 := link_pairs q0 q1 out0 out1 sb0 rb1 (by simp [hs0, hid1])
      (by simp [hr1, hid0]) h01
    have hp10 := link_pairs q1 q0 out1 out0 sb1 rb0 (by simp [hs1, hid0])
      (by simp [hr0, hid1]) h10
    rw [hid0, hid1] at hp01 hp10
    obtain ⟨cs0f, cs1f, hpl0, hpl1, hlf0, hlf1, hfin⟩ :=
      parse_after_register mb N (Random rnd0.bit_a N) (Random rnd0.bit_b N)
        (Random rnd1.bit_a N) (Random rnd1.bit_b N) fuel 0
        (out0.snd 1) (out0.rcv 1) (out1.snd 0) (out1.rcv 0) sb0 rb0 sb1 rb1
        (List.zipWith (fun x y => x && y) (Random rnd0.bit_a N) (Random rnd0.bit_b N))
        (List.zipWith (fun x y => x && y) (Random rnd1.bit_a N) (Random rnd1.bit_b N))
        hl0 hl1 hp01 hp10 (by simp [Random_length]) (by simp [Random_length])
    obtain ⟨r0, hr0p, hr0b⟩ := ParseOutputs_party0 fuel out0 q0 sb0 rb0 cs0f hid0 hnp0
      (by rw [hn0]; exact hpos) hs0 hr0 (by rw [hm0, hn0, hb0]; exact hpl0)
    obtain ⟨r1, hr1p, hr1b⟩ := ParseOutputs_party1 fuel out1 q1 sb1 rb1 cs1f hid1 hnp1
      (by rw [hn1]; exact hpos) hs1 hr1 (by rw [hm1, hn1, hb1]; exact hpl1)
    refine ⟨r0, r1, hr0p, hr1p, ?_⟩
    intro i hi
    rw [hr0b, hr1b, hb0, hb1]
    refine ⟨rnd0.bit_a i, rnd0.bit_b i, cs0f.getD i false, rnd1.bit_a i, rnd1.bit_b i,
      cs1f.getD i false, Random_getElem _ _ _ hi, Random_getElem _ _ _ hi,
      getElem_of_lt _ _ (by rw [hlf0]; exact hi), Random_getElem _ _ _ hi,
      Random_getElem _ _ _ hi, getElem_of_lt _ _ (by rw [hlf1]; exact hi), ?_⟩
    have hx := (hfin i).2 (Nat.zero_le i) hi
    have ga0 := getD_of_getElem _ _ _ (Random_getElem rnd0.bit_a N i hi)
    have gb0 := getD_of_getElem _ _ _ (Random_getElem rnd0.bit_b N i hi)
    have ga1 := getD_of_getElem _ _ _ (Random_getElem rnd1.bit_a N i hi)
    have gb1 := getD_of_getElem _ _ _ (Random_getElem rnd1.bit_b N i hi)
    have gc0 : (List.zipWith (fun x y => x && y) (Random rnd0.bit_a N)
        (Random rnd0.bit_b N)).getD i false = (rnd0.bit_a i && rnd0.bit_b i) := by
      apply getD_of_getElem
      simp [List.getElem?_zipWith, Random_getElem _ _ _ hi]
    have gc1 : (List.zipWith (fun x y => x && y) (Random rnd1.bit_a N)
        (Random rnd1.bit_b N)).getD i false = (rnd1.bit_a i && rnd1.bit_b i) := by
      apply getD_of_getElem
      simp [List.getElem?_zipWith, Random_getElem _ _ _ hi]
    rw [hx, ga0, gb0, ga1, gb1, gc0, gc1]
    exact and_recombine _ _ _ _

theorem inputBits_returns (a : List Bool) (mt_id : Nat) :
    ∀ (todo k : Nat) (v : List (List Bool)), mt_id + k + todo ≤ a.length →
      ∃ v1, inputBits a mt_id todo k v = some v1 := by
  intro todo
  induction todo with
  | zero => intro k v _; exact ⟨v, rfl⟩
  | succ todo ih =>
    intro k v h
    have hlt : mt_id + k < a.length := by omega
    rw [inputBits, List.getElem?_eq_getElem hlt]
    exact ih (k + 1) _ (by omega)

/-- With a maximal batch size of at least one, the registration loop started at `mt_id`
returns once it is given `n - mt_id` units of fuel. -/
theorem registerLoop_returns (mb n : Nat) (a b : List Bool) (hmb : 1 ≤ mb)
    (ha : a.length = n) (hb : b.length = n) :
    ∀ (fuel mt_id : Nat) (snd : List OTVectorSender) (rcv : List OTVectorReceiver),
      n - mt_id ≤ fuel → ∃ p, registerLoop mb n a b fuel mt_id snd rcv = some p := by
  intro fuel
  induction fuel with
  | zero =>
    intro mt_id snd rcv h
    exact ⟨_, registerLoop_done _ _ _ _ _ _ _ _ (by omega)⟩
  | succ fuel ih =>
    intro mt_id snd rcv h
    by_cases hlt : mt_id < n
    · rw [registerLoop_step _ _ _ _ _ _ _ _ hlt]
      obtain ⟨v_r, hv⟩ := inputBits_returns a mt_id (min mb (n - mt_id)) 0 []
        (by rw [ha]; omega)
      have hsub : Subset b mt_id (mt_id + min mb (n - mt_id)) =
          some ((b.drop mt_id).take (min mb (n - mt_id))) :=
        Subset_take_drop b mt_id _ (by rw [hb]; omega)
      rw [hv, hsub]
      exact ih _ _ _ (by omega)
    · exact ⟨_, registerLoop_done _ _ _ _ _ _ _ _ hlt⟩

/-- With a maximal batch size of at least one and `N` units of fuel, `RegisterOTs` returns
on both parties of a two-party run. -/
theorem RegisterOTs_returns (N mb fuel my_id : Nat) (rnd : RandomSource)
    (hN : N < 2 ^ 64) (hmb : 1 ≤ mb) (hfuel : N ≤ fuel) (hid : my_id = 0 ∨ my_id = 1) :
    ∃ q, RegisterOTs fuel rnd (twoPartyProvider my_id mb N) = some q := by
  have hmod : N % SIZE_MOD = N := Nat.mod_eq_of_lt (by simpa [SIZE_MOD] using hN)
  rw [RegisterOTs_binary _ _ _ rfl rfl rfl rfl]
  have hn : (initBinaryPool rnd (twoPartyProvider my_id mb N)).num_bit_mts = N := by
    simp [initBinaryPool, twoPartyProvider, RequestBinaryMTs, MTProviderFromOTs.new, hmod]
  by_cases hz : N = 0
  · exact ⟨_, registerPeers_no_bits _ _ _ _ (by rw [hn]; exact hz)⟩
  · have hpos : 0 < N := Nat.pos_of_ne_zero hz
    have hb : (initBinaryPool rnd (twoPartyProvider my_id mb N)).bit_mts =
        ⟨Random rnd.bit_a N, Random rnd.bit_b N,
          List.zipWith (fun x y => x && y) (Random rnd.bit_a N) (Random rnd.bit_b N)⟩ := by
      simp [initBinaryPool, twoPartyProvider, RequestBinaryMTs, MTProviderFromOTs.new, hmod, hpos]
    have hnp : (twoPartyProvider my_id mb N).num_providers = 2 := rfl
    have hm : (initBinaryPool rnd (twoPartyProvider my_id mb N)).max_batch_size = mb := rfl
    obtain ⟨p, hp⟩ := registerLoop_returns mb N (Random rnd.bit_a N) (Random rnd.bit_b N)
      hmb (Random_length _ _) (Random_length _ _) fuel 0 [] [] (by omega)
    rcases hid with rfl | rfl
    · rw [hnp, registerPeers_party0 fuel _ rfl (by rw [hn]; exact hpos) rfl rfl, hn, hb, hm, hp]
      exact ⟨_, rfl⟩
    · rw [hnp, registerPeers_party1 fuel _ rfl (by rw [hn]; exact hpos) rfl rfl, hn, hb, hm, hp]
      exact ⟨_, rfl⟩

/-- C1: two parties that reserved the same number `N` of binary MTs and use the same
maximal batch size (at least one, with fuel for `N` loop iterations) both return from
`RegisterOTs`; if every registered XCOT pair, in both directions, behaves as an ideal
XOR-correlated OT, then `ParseOutputs` returns on both parties as well and for every
`i < N` the triples recombine: `c_0[i] XOR c_1[i]` is
`(a_0[i] XOR a_1[i]) AND (b_0[i] XOR b_1[i])`. -/
theorem C1_boolean_triples_recombine (N mb fuel : Nat) (rnd0 rnd1 : RandomSource)
    (hN : N < 2 ^ 64) (hmb : 1 ≤ mb) (hfuel : N ≤ fuel) :
    ∃ q0 q1, RegisterOTs fuel rnd0 (twoPartyProvider 0 mb N) = some q0 ∧
      RegisterOTs fuel rnd1 (twoPartyProvider 1 mb N) = some q1 ∧
      ∀ out0 out1 : OTOutcome,
        idealXCOTLink q0 q1 out0 out1 = true → idealXCOTLink q1 q0 out1 out0 = true →
        ∃ r0 r1, ParseOutputs fuel (runOTs out0 q0) = some r0 ∧
          ParseOutputs fuel (runOTs out1 q1) = some r1 ∧
          ∀ i, i < N → ∃ x0 y0 z0 x1 y1 z1,
            r0.bit_mts.a[i]? = some x0 ∧ r0.bit_mts.b[i]? = some y0 ∧
            r0.bit_mts.c[i]? = some z0 ∧
            r1.bit_mts.a[i]? = some x1 ∧ r1.bit_mts.b[i]? = some y1 ∧
            r1.bit_mts.c[i]? = some z1 ∧
            xor z0 z1 = (xor x0 x1 && xor y0 y1) := by
  obtain ⟨q0, hq0⟩ := RegisterOTs_returns N mb fuel 0 rnd0 hN hmb hfuel (Or.inl rfl)
  obtain ⟨q1, hq1⟩ := RegisterOTs_returns N mb fuel 1 rnd1 hN hmb hfuel (Or.inr rfl)
  refine ⟨q0, q1, hq0, hq1, ?_⟩
  intro out0 out1 h01 h10
  exact recombine_of_registered N mb fuel rnd0 rnd1 out0 out1 q0 q1 hN hq0 hq1 h01 h10

/-- A run of C1 with three MTs in batches of two, `sampleRandom0` and `sampleRandom1` as
randomness and the ideal outcomes `sampleOutcome0`, `sampleOutcome1`. -/
theorem C1_boolean_triples_recombine_witness :
    ∃ r0 r1, ParseOutputs 3 (runOTs sampleOutcome0 sampleRegistered0) = some r0 ∧
      ParseOutputs 3 (runOTs sampleOutcome1 sampleRegistered1) = some r1 ∧
      ∀ i, i < 3 → ∃ x0 y0 z0 x1 y1 z1,
        r0.bit_mts.a[i]? = some x0 ∧ r0.bit_mts.b[i]? = some y0 ∧
        r0.bit_mts.c[i]? = some z0 ∧
        r1.bit_mts.a[i]? = some x1 ∧ r1.bit_mts.b[i]? = some y1 ∧
        r1.bit_mts.c[i]? = some z1 ∧
        xor z0 z1 = (xor x0 x1 && xor y0 y1) := by
  obtain ⟨q0, q1, h0, h1, h⟩ :=
    C1_boolean_triples_recombine 3 2 3 sampleRandom0 sampleRandom1
      (by decide) (by decide) (by decide)
  have e0 : RegisterOTs 3 sampleRandom0 (twoPartyProvider 0 2 3) = some sampleRegistered0 := by
    decide
  have e1 : RegisterOTs 3 sampleRandom1 (twoPartyProvider 1 2 3) = some sampleRegistered1 := by
    decide
  rw [e0] at h0
  rw [e1] at h1
  obtain rfl := Option.some.inj h0
  obtain rfl := Option.some.inj h1
  exact h sampleOutcome0 sampleOutcome1 (by decide) (by decide)

end ABYN

namespace ABYN

/-- C2 (the code at the failing input): two parties reserve one 8-bit MT each; party 0
draws `a = 1`, `b = 0`, party 1 draws `a = 0`, `b = 1`. `PreSetup` and `Setup` complete on
both parties, the OT blocks of the integer widths being empty, and leave `c_0 = c_1 = 0`,
so `c_0 + c_1 = 0` whereas `(a_0 + a_1) * (b_0 + b_1) = 1` modulo `2 ^ 8`. -/
theorem C2_integer_triples_do_not_recombine :
    (PreSetup 1 sampleRandom0 (RequestMTs 8 (MTProviderFromOTs.new 0 2 1) 1).2).bind
      (Setup 1 sampleOutcome0) = some (sampleInteger 0 sampleRandom0 sampleOutcome0) ∧
    (PreSetup 1 sampleRandom1 (RequestMTs 8 (MTProviderFromOTs.new 1 2 1) 1).2).bind
      (Setup 1 sampleOutcome1) = some (sampleInteger 1 sampleRandom1 sampleOutcome1) ∧
    (sampleInteger 0 sampleRandom0 sampleOutcome0).finished = true ∧
    (sampleInteger 1 sampleRandom1 sampleOutcome1).finished = true ∧
    (sampleInteger 0 sampleRandom0 sampleOutcome0).mts8 = ⟨[1], [0], [0]⟩ ∧
    (sampleInteger 1 sampleRandom1 sampleOutcome1).mts8 = ⟨[0], [1], [0]⟩ ∧
    ((sampleInteger 0 sampleRandom0 sampleOutcome0).mts8.c.getD 0 0 +
      (sampleInteger 1 sampleRandom1 sampleOutcome1).mts8.c.getD 0 0) % 2 ^ 8 ≠
      (((sampleInteger 0 sampleRandom0 sampleOutcome0).mts8.a.getD 0 0 +
        (sampleInteger 1 sampleRandom1 sampleOutcome1).mts8.a.getD 0 0) *
       ((sampleInteger 0 sampleRandom0 sampleOutcome0).mts8.b.getD 0 0 +
        (sampleInteger 1 sampleRandom1 sampleOutcome1).mts8.b.getD 0 0)) % 2 ^ 8 := by
  decide

/-- C6 (the code at the failing input): on a provider on which no MT of any kind was
requested, `PreSetup` and `Setup` return and leave the provider as constructed: the finished
flag is still false, so `GetBinary` (which waits for it) never returns. -/
theorem C6_setup_without_mts_leaves_unfinished (my_id num_providers max_batch_size fuel : Nat)
    (rnd : RandomSource) (out : OTOutcome) :
    PreSetup fuel rnd (MTProviderFromOTs.new my_id num_providers max_batch_size) =
      some (MTProviderFromOTs.new my_id num_providers max_batch_size) ∧
    Setup fuel out (MTProviderFromOTs.new my_id num_providers max_batch_size) =
      some (MTProviderFromOTs.new my_id num_providers max_batch_size) ∧
    (MTProviderFromOTs.new my_id num_providers max_batch_size).finished = false ∧
    GetBinary (MTProviderFromOTs.new my_id num_providers max_batch_size) 0 0 = none := by
  refine ⟨?_, ?_, rfl, ?_⟩
  · simp [PreSetup, NeedMTs, MTProviderFromOTs.new]
  · simp [Setup, NeedMTs, MTProviderFromOTs.new]
  · simp [GetBinary, MTProviderFromOTs.new]

end ABYN

namespace ABYN

theorem parseBatch_length (out_s out_r : List (List Bool)) (mt_id : Nat) :
    ∀ (todo j : Nat) (cs cs1 : List Bool),
      parseBatch out_s out_r mt_id todo j cs = some cs1 → cs1.length = cs.length := by
  intro todo
  induction todo with
  | zero =>
    intro j cs cs1 h
    simp only [parseBatch, Option.some.injEq] at h
    rw [← h]
  | succ todo ih =>
    intro j cs cs1 h
    rw [parseBatch] at h
    split at h
    · split at h
      · rw [ih _ _ _ h, List.length_set]
      · cases h
    · cases h

theorem parseLoop_length (mb n : Nat) :
    ∀ (fuel mt_id : Nat) (snd snd1 : List OTVectorSender) (rcv rcv1 : List OTVectorReceiver)
      (cs cs1 : List Bool),
      parseLoop mb n fuel mt_id snd rcv cs = some (snd1, rcv1, cs1) →
        cs1.length = cs.length := by
  intro fuel
  induction fuel with
  | zero =>
    intro mt_id snd snd1 rcv rcv1 cs cs1 h
    by_cases hlt : mt_id < n
    · simp [parseLoop, hlt] at h
    · rw [parseLoop_done _ _ _ _ _ _ _ hlt] at h
      simp only [Option.some.injEq, Prod.mk.injEq] at h
      rw [← h.2.2]
  | succ fuel ih =>
    intro mt_id snd snd1 rcv rcv1 cs cs1 h
    by_cases hlt : mt_id < n
    · cases snd with
      | nil => simp [parseLoop, hlt] at h
      | cons ot_s snd0 =>
        cases rcv with
        | nil => simp [parseLoop, hlt] at h
        | cons ot_r rcv0 =>
          rw [parseLoop_step _ _ _ _ _ _ _ _ _ hlt] at h
          cases hb : parseBatch ot_s.outputs ot_r.outputs mt_id (min mb (n - mt_id)) 0 cs with
          | none => simp [hb] at h
          | some c1 =>
            simp only [hb] at h
            rw [ih _ _ _ _ _ _ _ h, parseBatch_length _ _ _ _ _ _ _ hb]
    · rw [parseLoop_done _ _ _ _ _ _ _ hlt] at h
      simp only [Option.some.injEq, Prod.mk.injEq] at h
      rw [← h.2.2]

/-- What the provider loop of `RegisterOTs` leaves untouched. -/
theorem registerPeers_frame (fuel : Nat) :
    ∀ (todo i : Nat) (s s1 : MTProviderFromOTs), registerPeers fuel todo i s = some s1 →
      s1.num_bit_mts = s.num_bit_mts ∧ s1.num_mts_8 = s.num_mts_8 ∧
      s1.num_mts_16 = s.num_mts_16 ∧ s1.num_mts_32 = s.num_mts_32 ∧
      s1.num_mts_64 = s.num_mts_64 ∧ s1.bit_mts = s.bit_mts ∧ s1.finished = s.finished := by
  intro todo
  induction todo with
  | zero =>
    intro i s s1 h
    simp only [registerPeers, Option.some.injEq] at h
    subst h
    exact ⟨rfl, rfl, rfl, rfl, rfl, rfl, rfl⟩
  | succ todo ih =>
    intro i s s1 h
    rw [registerPeers] at h
    split at h
    · exact ih _ _ _ h
    · split at h
      · split at h
        · split at h
          · have := ih _ _ _ h
            simpa using this
          · cases h
        · cases h
      · exact ih _ _ _ h

/-- What the provider loop of `ParseOutputs` leaves untouched. -/
theorem parsePeers_frame (fuel : Nat) :
    ∀ (todo i : Nat) (s s1 : MTProviderFromOTs), parsePeers fuel todo i s = some s1 →
      s1.num_bit_mts = s.num_bit_mts ∧ s1.num_mts_8 = s.num_mts_8 ∧
      s1.num_mts_16 = s.num_mts_16 ∧ s1.num_mts_32 = s.num_mts_32 ∧
      s1.num_mts_64 = s.num_mts_64 ∧ s1.bit_mts.a = s.bit_mts.a ∧
      s1.bit_mts.b = s.bit_mts.b ∧ s1.bit_mts.c.length = s.bit_mts.c.length ∧
      s1.finished = s.finished := by
  intro todo
  induction todo with
  | zero =>
    intro i s s1 h
    simp only [parsePeers, Option.some.injEq] at h
    subst h
    exact ⟨rfl, rfl, rfl, rfl, rfl, rfl, rfl, rfl, rfl⟩
  | succ todo ih =>
    intro i s s1 h
    rw [parsePeers] at h
    split at h
    · exact ih _ _ _ h
    · split at h
      · split at h
        · split at h
          · rename_i snd rcv _ _ snd1 rcv1 c1 hpl
            split at h
            · have := ih _ _ _ h
              simp only at this
              have hl := parseLoop_length _ _ _ _ _ _ _ _ _ _ hpl
              exact ⟨this.1, this.2.1, this.2.2.1, this.2.2.2.1, this.2.2.2.2.1,
                this.2.2.2.2.2.1, this.2.2.2.2.2.2.1, by rw [this.2.2.2.2.2.2.2.1, hl],
                this.2.2.2.2.2.2.2.2⟩
            · cases h
          · cases h
        · cases h
      · exact ih _ _ _ h

theorem requestAll_frame (ns : List Nat) :
    ∀ s : MTProviderFromOTs,
      (requestAll s ns).2 = { s with num_bit_mts := (requestAll s ns).2.num_bit_mts } := by
  induction ns with
  | nil => intro s; rfl
  | cons n ns ih =>
    intro s
    simp only [requestAll]
    rw [ih]
    simp [RequestBinaryMTs]

theorem requestAll_lt (ns : List Nat) :
    ∀ s : MTProviderFromOTs, s.num_bit_mts < SIZE_MOD →
      (requestAll s ns).2.num_bit_mts < SIZE_MOD := by
  induction ns with
  | nil => intro s h; exact h
  | cons n ns ih =>
    intro s _
    simp only [requestAll]
    apply ih
    simp only [RequestBinaryMTs]
    exact Nat.mod_lt _ (by decide)

theorem NeedMTs_congr (s s1 : MTProviderFromOTs) (h0 : s1.num_bit_mts = s.num_bit_mts)
    (h1 : s1.num_mts_8 = s.num_mts_8) (h2 : s1.num_mts_16 = s.num_mts_16)
    (h3 : s1.num_mts_32 = s.num_mts_32) (h4 : s1.num_mts_64 = s.num_mts_64) :
    NeedMTs s1 = NeedMTs s := by
  simp [NeedMTs, h0, h1, h2, h3, h4]

theorem initPools_bit_lengths (rnd : RandomSource) (s : MTProviderFromOTs)
    (hempty : s.bit_mts = ⟨[], [], []⟩) :
    (initBinaryPool rnd s).bit_mts.a.length = s.num_bit_mts ∧
    (initBinaryPool rnd s).bit_mts.b.length = s.num_bit_mts ∧
    (initBinaryPool rnd s).bit_mts.c.length = s.num_bit_mts := by
  by_cases h : 0 < s.num_bit_mts
  · simp [initBinaryPool, h, Random_length]
  · have h0 : s.num_bit_mts = 0 := by omega
    simp [initBinaryPool, h, hempty, h0]

/-- The counters never change during `PreSetup`, nor does the finished flag; when an MT
is needed the binary pool is the freshly initialised one. -/
theorem PreSetup_frame (fuel : Nat) (rnd : RandomSource) (s s1 : MTProviderFromOTs)
    (h : PreSetup fuel rnd s = some s1) :
    s1.num_bit_mts = s.num_bit_mts ∧ s1.num_mts_8 = s.num_mts_8 ∧
    s1.num_mts_16 = s.num_mts_16 ∧ s1.num_mts_32 = s.num_mts_32 ∧
    s1.num_mts_64 = s.num_mts_64 ∧ s1.finished = s.finished ∧
    s1.bit_mts = if NeedMTs s then (initBinaryPool rnd s).bit_mts else s.bit_mts := by
  unfold PreSetup at h
  by_cases hn : NeedMTs s = true
  · simp only [hn, if_true] at h
    obtain ⟨s0, h0, h1⟩ := RegisterOTs_some _ _ _ _ h
    obtain ⟨_, _, _, g0, g1, g2, g3, g4, g5, _, _, g6, _⟩ := initPools_frame _ _ _ h0
    obtain ⟨f0, f1, f2, f3, f4, f5, f6⟩ := registerPeers_frame _ _ _ _ _ h1
    exact ⟨by rw [f0, g0], by rw [f1, g1], by rw [f2, g2], by rw [f3, g3], by rw [f4, g4],
      by rw [f6, g6], by rw [f5, g5, if_pos hn]⟩
  · simp only [hn] at h
    simp only [Bool.false_eq_true, if_false, Option.some.injEq] at h
    subst h
    simp [hn]

/-- The counters and the `a`, `b` pools never change during `Setup`, nor does the length
of `c`; the finished flag is set exactly when an MT is needed. -/
theorem Setup_frame (fuel : Nat) (out : OTOutcome) (s s1 : MTProviderFromOTs)
    (h : Setup fuel out s = some s1) :
    s1.num_bit_mts = s.num_bit_mts ∧ s1.num_mts_8 = s.num_mts_8 ∧
    s1.num_mts_16 = s.num_mts_16 ∧ s1.num_mts_32 = s.num_mts_32 ∧
    s1.num_mts_64 = s.num_mts_64 ∧ s1.bit_mts.a = s.bit_mts.a ∧
    s1.bit_mts.b = s.bit_mts.b ∧ s1.bit_mts.c.length = s.bit_mts.c.length ∧
    s1.finished = (NeedMTs s || s.finished) := by
  unfold Setup at h
  by_cases hn : NeedMTs s = true
  · simp only [hn, Bool.not_true, Bool.false_eq_true, if_false] at h
    cases hp : ParseOutputs fuel (runOTs out s) with
    | none => simp [hp] at h
    | some s2 =>
      simp only [hp, Option.some.injEq] at h
      obtain ⟨f0, f1, f2, f3, f4, f5, f6, f7, _⟩ := parsePeers_frame _ _ _ _ _ hp
      subst h
      exact ⟨f0, f1, f2, f3, f4, f5, f6, f7, by simp [hn]⟩
  · simp only [hn] at h
    simp only [Bool.not_false, if_true, Option.some.injEq] at h
    subst h
    simp [hn]

theorem pools_after_setup (fuel : Nat) (rnd : RandomSource) (out : OTOutcome)
    (s1 s2 s3 : MTProviderFromOTs) (hempty : s1.bit_mts = ⟨[], [], []⟩)
    (hf : s1.finished = false)
    (hpre : PreSetup fuel rnd s1 = some s2) (hset : Setup fuel out s2 = some s3)
    (hfin : s3.finished = true) :
    s3.num_bit_mts = s1.num_bit_mts ∧ s3.bit_mts.a.length = s1.num_bit_mts ∧
    s3.bit_mts.b.length = s1.num_bit_mts ∧ s3.bit_mts.c.length = s1.num_bit_mts := by
  obtain ⟨p0, p1, p2, p3, p4, p5, p6⟩ := PreSetup_frame fuel rnd s1 s2 hpre
  obtain ⟨q0, _, _, _, _, q5, q6, q7, q8⟩ := Setup_frame fuel out s2 s3 hset
  have hneed2 : NeedMTs s2 = true := by
    rw [hfin, p5, hf] at q8
    simpa using q8.symm
  have hneed1 : NeedMTs s1 = true := by
    rw [← NeedMTs_congr s1 s2 p0 p1 p2 p3 p4]; exact hneed2
  rw [if_pos hneed1] at p6
  obtain ⟨l0, l1, l2⟩ := initPools_bit_lengths rnd s1 hempty
  refine ⟨by rw [q0, p0], ?_, ?_, ?_⟩
  · rw [q5, p6, l0]
  · rw [q6, p6, l1]
  · rw [q7, p6, l2]

theorem take_drop_getElem (v : List Bool) (offset n i : Nat) (hi : i < n) :
    ((v.drop offset).take n)[i]? = v[offset + i]? := by
  rw [List.getElem?_take, if_pos hi, List.getElem?_drop]

/-- C4 (amended): once `Setup` has finished on a provider that was freshly constructed and
then received the calls `RequestBinaryMTs(n_1)`, ..., the three pools have the length `N` of
the reserved count, and `GetBinary(offset, n)` with `offset + n <= N` returns three bit
vectors of length exactly `n` whose `i`-th bits are the bits `offset + i` of the pools;
provided the sizes sum to less than `2 ^ 64`, every range handed out lies within the pool. -/
theorem C4_getBinary_subrange (my_id num_providers max_batch_size fuel : Nat) (ns : List Nat)
    (rnd : RandomSource) (out : OTOutcome) (s2 s3 : MTProviderFromOTs)
    (hpre : PreSetup fuel rnd
      (requestAll (MTProviderFromOTs.new my_id num_providers max_batch_size) ns).2 = some s2)
    (hset : Setup fuel out s2 = some s3)
    (hfin : s3.finished = true) :
    s3.bit_mts.a.length = s3.num_bit_mts ∧ s3.bit_mts.b.length = s3.num_bit_mts ∧
    s3.bit_mts.c.length = s3.num_bit_mts ∧
    (∀ offset n, offset + n ≤ s3.num_bit_mts →
      ∃ v, GetBinary s3 offset n = some v ∧
        v.a.length = n ∧ v.b.length = n ∧ v.c.length = n ∧
        ∀ i, i < n → v.a[i]? = s3.bit_mts.a[offset + i]? ∧
          v.b[i]? = s3.bit_mts.b[offset + i]? ∧ v.c[i]? = s3.bit_mts.c[offset + i]?) ∧
    (ns.sum < 2 ^ 64 → ∀ j, j < ns.length →
      (requestAll (MTProviderFromOTs.new my_id num_providers max_batch_size) ns).1.getD j 0
        + ns.getD j 0 ≤ s3.bit_mts.a.length) := by
  have hfr := requestAll_frame ns (MTProviderFromOTs.new my_id num_providers max_batch_size)
  have hempty : (requestAll (MTProviderFromOTs.new my_id num_providers max_batch_size)
      ns).2.bit_mts = ⟨[], [], []⟩ := by rw [hfr]; rfl
  have hf : (requestAll (MTProviderFromOTs.new my_id num_providers max_batch_size)
      ns).2.finished = false := by rw [hfr]; rfl
  have hlt := requestAll_lt ns (MTProviderFromOTs.new my_id num_providers max_batch_size)
    (by simp [MTProviderFromOTs.new, SIZE_MOD])
  obtain ⟨e0, ea, eb, ec⟩ := pools_after_setup fuel rnd out _ s2 s3 hempty hf hpre hset hfin
  rw [← e0] at ea eb ec hlt
  refine ⟨ea, eb, ec, ?_, ?_⟩
  · intro offset n hle
    have hmod : (offset + n) % SIZE_MOD = offset + n := Nat.mod_eq_of_lt (by omega)
    refine ⟨⟨(s3.bit_mts.a.drop offset).take n, (s3.bit_mts.b.drop offset).take n,
      (s3.bit_mts.c.drop offset).take n⟩, ?_, ?_, ?_, ?_, ?_⟩
    · unfold GetBinary
      rw [hmod, Subset_take_drop _ _ _ (by omega), Subset_take_drop _ _ _ (by omega),
        Subset_take_drop _ _ _ (by omega)]
      simp [ea, eb, ec, hfin]
    · simp only [List.length_take, List.length_drop]; omega
    · simp only [List.length_take, List.length_drop]; omega
    · simp only [List.length_take, List.length_drop]; omega
    · intro i hi
      exact ⟨take_drop_getElem _ _ _ _ hi, take_drop_getElem _ _ _ _ hi,
        take_drop_getElem _ _ _ _ hi⟩
  · intro hsum j hj
    have hs := requestAll_spec ns (MTProviderFromOTs.new my_id num_providers max_batch_size)
      (by simpa [MTProviderFromOTs.new, SIZE_MOD] using hsum)
    have h0 : (MTProviderFromOTs.new my_id num_providers max_batch_size).num_bit_mts = 0 := rfl
    rw [h0] at hs
    simp only [Nat.zero_add] at hs
    have hoff : (requestAll (MTProviderFromOTs.new my_id num_providers max_batch_size)
        ns).1.getD j 0 = (ns.take j).sum := by
      simp [List.getD, hs.2 j hj]
    rw [hoff, ea, e0, hs.1, ← sum_take_succ ns j hj]
    exact sum_take_le_sum ns (j + 1)

/-- The requests `1, 2` on party 0 of the sample run: an instance of C4. -/
theorem C4_getBinary_subrange_witness :
    sampleFinished0.bit_mts.a.length = sampleFinished0.num_bit_mts ∧
    sampleFinished0.bit_mts.b.length = sampleFinished0.num_bit_mts ∧
    sampleFinished0.bit_mts.c.length = sampleFinished0.num_bit_mts ∧
    (∀ offset n, offset + n ≤ sampleFinished0.num_bit_mts →
      ∃ v, GetBinary sampleFinished0 offset n = some v ∧
        v.a.length = n ∧ v.b.length = n ∧ v.c.length = n ∧
        ∀ i, i < n → v.a[i]? = sampleFinished0.bit_mts.a[offset + i]? ∧
          v.b[i]? = sampleFinished0.bit_mts.b[offset + i]? ∧
          v.c[i]? = sampleFinished0.bit_mts.c[offset + i]?) ∧
    ([1, 2].sum < 2 ^ 64 → ∀ j, j < [1, 2].length →
      (requestAll (MTProviderFromOTs.new 0 2 2) [1, 2]).1.getD j 0
        + [1, 2].getD j 0 ≤ sampleFinished0.bit_mts.a.length) :=
  C4_getBinary_subrange 0 2 2 3 [1, 2] sampleRandom0 sampleOutcome0 sampleRegistered0
    sampleFinished0 (by decide) (by decide) (by decide)

/-- C4 (counterexample): the calls `RequestBinaryMTs(2 ^ 64 - 1)` and `RequestBinaryMTs(2)`
hand out the offsets `0` and `2 ^ 64 - 1` and leave the wrapped count `1`; after `PreSetup`
and `Setup` the pool holds one triple, so the range handed out second does not lie within
the pool, and `GetBinary` on it fails. -/
theorem C4_range_outside_pool_counterexample :
    (requestAll (MTProviderFromOTs.new 0 2 1) [2 ^ 64 - 1, 2]).1 = [0, 2 ^ 64 - 1] ∧
    PreSetup 1 sampleRandom0 (requestAll (MTProviderFromOTs.new 0 2 1) [2 ^ 64 - 1, 2]).2 =
      some sampleAfterPreSetup ∧
    Setup 1 sampleOutcome0 sampleAfterPreSetup = some sampleAfterSetup ∧
    sampleAfterSetup.finished = true ∧
    sampleAfterSetup.bit_mts.a.length = 1 ∧
    ¬ ((2 ^ 64 - 1) + 2 ≤ sampleAfterSetup.bit_mts.a.length) ∧
    GetBinary sampleAfterSetup (2 ^ 64 - 1) 2 = none := by
  decide

/-- C5 (counterexample): on a provider with one reserved binary MT, after `PreSetup`, and
again after `Setup` has finished, a call `RequestBinaryMTs(1)` is accepted: it returns a new
offset and changes the reserved count. -/
theorem C5_reservation_after_setup_counterexample :
    PreSetup 1 sampleRandom0 (RequestBinaryMTs (MTProviderFromOTs.new 0 2 1) 1).2 =
      some sampleAfterPreSetup ∧
    Setup 1 sampleOutcome0 sampleAfterPreSetup = some sampleAfterSetup ∧
    sampleAfterSetup.finished = true ∧
    sampleAfterPreSetup.num_bit_mts = 1 ∧
    (RequestBinaryMTs sampleAfterPreSetup 1).2.num_bit_mts = 2 ∧
    sampleAfterSetup.num_bit_mts = 1 ∧
    (RequestBinaryMTs sampleAfterSetup 1).2.num_bit_mts = 2 ∧
    (RequestBinaryMTs sampleAfterSetup 1).1 = 1 := by
  decide

/-- C5 (amended): `RequestBinaryMTs` has no guard on the setup phase. On the provider that
`PreSetup` returned, and on the provider that `Setup` returned afterwards, the reserved
count is still the count `N` from before setup, and a call `RequestBinaryMTs(n)` with `n > 0`
that does not overflow the counter is accepted as before setup: it returns `N` as offset,
raises the reserved count to `N + n`, and leaves the rest of the provider (pools, queues,
finished flag) as it was. -/
theorem C5_reservation_after_setup_accepted (fuel : Nat) (rnd : RandomSource)
    (out : OTOutcome) (s s1 s2 : MTProviderFromOTs) (n : Nat)
    (hpre : PreSetup fuel rnd s = some s1) (hset : Setup fuel out s1 = some s2)
    (hn : 0 < n) (h : s.num_bit_mts + n < 2 ^ 64) :
    RequestBinaryMTs s1 n = (s.num_bit_mts, { s1 with num_bit_mts := s.num_bit_mts + n }) ∧
    RequestBinaryMTs s2 n = (s.num_bit_mts, { s2 with num_bit_mts := s.num_bit_mts + n }) ∧
    (RequestBinaryMTs s1 n).2.num_bit_mts ≠ s1.num_bit_mts ∧
    (RequestBinaryMTs s2 n).2.num_bit_mts ≠ s2.num_bit_mts := by
  have e1 : s1.num_bit_mts = s.num_bit_mts := (PreSetup_frame fuel rnd s s1 hpre).1
  have e2 : s2.num_bit_mts = s.num_bit_mts := by
    rw [(Setup_frame fuel out s1 s2 hset).1, e1]
  have e : (s.num_bit_mts + n) % SIZE_MOD = s.num_bit_mts + n :=
    Nat.mod_eq_of_lt (by simpa [SIZE_MOD] using h)
  refine ⟨?_, ?_, ?_, ?_⟩
  · simp [RequestBinaryMTs, e1, e]
  · simp [RequestBinaryMTs, e2, e]
  · simp only [RequestBinaryMTs, e1, e]; omega
  · simp only [RequestBinaryMTs, e2, e]; omega

/-- The sample provider after `PreSetup` and after `Setup`, with a late reservation of five
MTs: an instance of C5. -/
theorem C5_reservation_after_setup_accepted_witness :
    RequestBinaryMTs sampleAfterPreSetup 5 =
      (1, { sampleAfterPreSetup with num_bit_mts := 1 + 5 }) ∧
    RequestBinaryMTs sampleAfterSetup 5 =
      (1, { sampleAfterSetup with num_bit_mts := 1 + 5 }) ∧
    (RequestBinaryMTs sampleAfterPreSetup 5).2.num_bit_mts ≠ sampleAfterPreSetup.num_bit_mts ∧
    (RequestBinaryMTs sampleAfterSetup 5).2.num_bit_mts ≠ sampleAfterSetup.num_bit_mts :=
  C5_reservation_after_setup_accepted 1 sampleRandom0 sampleOutcome0
    (RequestBinaryMTs (MTProviderFromOTs.new 0 2 1) 1).2 sampleAfterPreSetup sampleAfterSetup 5
    (by decide) (by decide) (by decide) (by decide)

end ABYN

namespace ABYN

theorem ceil_step (x mb : Nat) (hmb : 1 ≤ mb) (hx : 1 ≤ x) :
    (x + mb - 1) / mb = (x - min mb x + mb - 1) / mb + 1 := by
  by_cases h : mb ≤ x
  · have e1 : x + mb - 1 = (x - mb + mb - 1) + mb := by omega
    have e2 : min mb x = mb := by omega
    rw [e1, e2, Nat.add_div_right _ (by omega)]
  · have e2 : min mb x = x := by omega
    have e3 : x - x + mb - 1 = mb - 1 := by omega
    rw [e2, e3, Nat.div_eq_of_lt (by omega : mb - 1 < mb)]
    exact Nat.div_eq_of_lt_le (by omega) (by omega)

theorem ceil_zero (mb : Nat) (hmb : 1 ≤ mb) : (0 + mb - 1) / mb = 0 := by
  apply Nat.div_eq_of_lt
  omega

theorem ceil_pos (x mb : Nat) (hmb : 1 ≤ mb) (h : 1 ≤ (x + mb - 1) / mb) : 1 ≤ x := by
  by_contra hc
  have hx : x = 0 := by omega
  rw [hx, ceil_zero mb hmb] at h
  omega

/-- The batches that the registration loop registers from `mt_id` on. -/
theorem registerLoop_batches (mb n : Nat) (a b : List Bool) (hmb : 1 ≤ mb)
    (ha : a.length = n) (hb : b.length = n) :
    ∀ (fuel mt_id : Nat), mt_id ≤ n → n - mt_id ≤ fuel →
      ∃ sb rb, registerLoop mb n a b fuel mt_id [] [] = some (sb, rb) ∧
        sb.length = (n - mt_id + mb - 1) / mb ∧ rb.length = (n - mt_id + mb - 1) / mb ∧
        (∀ S ∈ sb, S.bitlen = 1 ∧ S.p = OTProtocol.XCOT ∧ 1 ≤ S.num_ots ∧ S.num_ots ≤ mb ∧
          S.inputs.length = S.num_ots) ∧
        (∀ R ∈ rb, R.bitlen = 1 ∧ R.p = OTProtocol.XCOT ∧ 1 ≤ R.num_ots ∧ R.num_ots ≤ mb ∧
          R.choices.length = R.num_ots) ∧
        (∀ k, k + 1 < sb.length → (sb.map fun S => S.num_ots)[k]? = some mb) ∧
        (∀ k, k + 1 < rb.length → (rb.map fun R => R.num_ots)[k]? = some mb) ∧
        (sb.map fun S => S.num_ots).sum = n - mt_id ∧
        (rb.map fun R => R.num_ots).sum = n - mt_id ∧
        (sb.map fun S => S.inputs).flatten = (a.drop mt_id).map (fun x => [x]) ∧
        (rb.map fun R => R.choices).flatten = b.drop mt_id := by
  intro fuel
  induction fuel with
  | zero =>
    intro mt_id h1 h2
    have hge : ¬ mt_id < n := by omega
    have he : n - mt_id = 0 := by omega
    have hd : mt_id = n := by omega
    have hz : (n - mt_id + mb - 1) / mb = 0 := by rw [he]; exact ceil_zero mb hmb
    refine ⟨[], [], registerLoop_done _ _ _ _ _ _ _ _ hge, by simp [hz], by simp [hz],
      by simp, by simp, by simp, by simp, by simp [he], by simp [he], ?_, ?_⟩
    · simp [hd, ← ha]
    · simp [hd, ← hb]
  | succ fuel ih =>
    intro mt_id h1 h2
    by_cases hlt : mt_id < n
    · obtain ⟨sb1, rb1, hreg, hls, hlr, hS, hR, hks, hkr, hss, hsr, hjs, hjr⟩ :=
        ih (mt_id + min mb (n - mt_id)) (by omega) (by omega)
      obtain ⟨v_r, hv⟩ := inputBits_returns a mt_id (min mb (n - mt_id)) 0 []
        (by rw [ha]; omega)
      have hsub : Subset b mt_id (mt_id + min mb (n - mt_id)) =
          some ((b.drop mt_id).take (min mb (n - mt_id))) :=
        Subset_take_drop b mt_id _ (by rw [hb]; omega)
      obtain ⟨hv1, hv2⟩ := inputBits_spec a mt_id _ 0 [] v_r hv
      simp only [Nat.add_zero, List.nil_append] at hv1 hv2
      have hrest : n - (mt_id + min mb (n - mt_id)) = (n - mt_id) - min mb (n - mt_id) := by
        omega
      have hlen : (n - mt_id + mb - 1) / mb =
          (n - (mt_id + min mb (n - mt_id)) + mb - 1) / mb + 1 := by
        rw [hrest]
        exact ceil_step (n - mt_id) mb hmb (by omega)
      refine ⟨⟨1, min mb (n - mt_id), OTProtocol.XCOT, v_r, []⟩ :: sb1,
        ⟨1, min mb (n - mt_id), OTProtocol.XCOT, (b.drop mt_id).take (min mb (n - mt_id)), []⟩
          :: rb1, ?_, ?_, ?_, ?_, ?_, ?_, ?_, ?_, ?_, ?_, ?_⟩
      · rw [registerLoop_step _ _ _ _ _ _ _ _ hlt, hv, hsub]
        simp only []
        rw [registerLoop_acc, hreg]
        simp
      · rw [List.length_cons, hls, hlen]
      · rw [List.length_cons, hlr, hlen]
      · intro S hmem
        rcases List.mem_cons.mp hmem with rfl | hmem
        · refine ⟨rfl, rfl, ?_, ?_, ?_⟩
          · show 1 ≤ min mb (n - mt_id)
            omega
          · show min mb (n - mt_id) ≤ mb
            omega
          · show v_r.length = min mb (n - mt_id)
            rw [hv1, List.length_map, hv2]
        · exact hS S hmem
      · intro R hmem
        rcases List.mem_cons.mp hmem with rfl | hmem
        · refine ⟨rfl, rfl, ?_, ?_, ?_⟩
          · show 1 ≤ min mb (n - mt_id)
            omega
          · show min mb (n - mt_id) ≤ mb
            omega
          · show ((b.drop mt_id).take (min mb (n - mt_id))).length = min mb (n - mt_id)
            rw [List.length_take, List.length_drop, hb]
            omega
        · exact hR R hmem
      · intro k hk
        rw [List.length_cons] at hk
        cases k with
        | zero =>
          have hpos : 1 ≤ n - (mt_id + min mb (n - mt_id)) :=
            ceil_pos _ mb hmb (by rw [← hls]; omega)
          simp only [List.map_cons, List.getElem?_cons_zero, Option.some.injEq]
          omega
        | succ k =>
          simp only [List.map_cons, List.getElem?_cons_succ]
          exact hks k (by omega)
      · intro k hk
        rw [List.length_cons] at hk
        cases k with
        | zero =>
          have hpos : 1 ≤ n - (mt_id + min mb (n - mt_id)) :=
            ceil_pos _ mb hmb (by rw [← hlr]; omega)
          simp only [List.map_cons, List.getElem?_cons_zero, Option.some.injEq]
          omega
        | succ k =>
          simp only [List.map_cons, List.getElem?_cons_succ]
          exact hkr k (by omega)
      · simp only [List.map_cons, List.sum_cons, hss]
        omega
      · simp only [List.map_cons, List.sum_cons, hsr]
        omega
      · simp only [List.map_cons, List.flatten_cons, hjs, hv1]
        rw [← List.map_append, ← List.drop_drop, List.take_append_drop]
      · simp only [List.map_cons, List.flatten_cons, hjr]
        rw [← List.drop_drop, List.take_append_drop]
    · have he : n - mt_id = 0 := by omega
      have hd : mt_id = n := by omega
      have hz : (n - mt_id + mb - 1) / mb = 0 := by rw [he]; exact ceil_zero mb hmb
      refine ⟨[], [], registerLoop_done _ _ _ _ _ _ _ _ hlt, by simp [hz], by simp [hz],
        by simp, by simp, by simp, by simp, by simp [he], by simp [he], ?_, ?_⟩
      · simp [hd, ← ha]
      · simp [hd, ← hb]

theorem firstBit_of_getElem (out : List (List Bool)) (t : Nat) (x : Bool)
    (h : out[t]? = some [x]) : out[t]? = some [firstBit out t] := by
  simp [firstBit, h]

/-- The parsing loop on the queues that the registration loop produced, once every OT
output is in place: it empties both queues and updates every bit of `c` by the first bits of
the two outputs at its position. -/
theorem parse_of_registered (mb n : Nat) (a b : List Bool) (hmb : 1 ≤ mb) :
    ∀ (fuel mt_id : Nat) (oS oR : Nat → List (List Bool))
      (sb : List OTVectorSender) (rb : List OTVectorReceiver) (cs : List Bool),
      registerLoop mb n a b fuel mt_id [] [] = some (sb, rb) →
      (∀ k S, sb[k]? = some S → ∀ j, j < S.num_ots → ∃ x, (oS k)[j]? = some [x]) →
      (∀ k R, rb[k]? = some R → ∀ j, j < R.num_ots → ∃ x, (oR k)[j]? = some [x]) →
      cs.length = n →
      ∃ cf,
        parseLoop mb n fuel mt_id
          (sb.mapIdx (fun k ot => { ot with outputs := oS k }))
          (rb.mapIdx (fun k ot => { ot with outputs := oR k })) cs = some ([], [], cf) ∧
        cf.length = n ∧
        ∀ i, cf.getD i false =
          if mt_id ≤ i ∧ i < n then
            xor (xor (firstBit (oR ((i - mt_id) / mb)) ((i - mt_id) % mb))
              (firstBit (oS ((i - mt_id) / mb)) ((i - mt_id) % mb))) (cs.getD i false)
          else cs.getD i false := by
  intro fuel
  induction fuel with
  | zero =>
    intro mt_id oS oR sb rb cs hreg _ _ hl
    by_cases h : mt_id < n
    · rw [registerLoop_zero _ _ _ _ _ _ _ h] at hreg
      cases hreg
    · rw [registerLoop_done _ _ _ _ _ _ _ _ h] at hreg
      simp only [Option.some.injEq, Prod.mk.injEq] at hreg
      obtain ⟨rfl, rfl⟩ := hreg
      refine ⟨cs, by simp [parseLoop_done, h], hl, ?_⟩
      intro i
      rw [if_neg (by omega)]
  | succ fuel ih =>
    intro mt_id oS oR sb rb cs hreg hS hR hl
    by_cases h : mt_id < n
    · obtain ⟨v, ch, sbt, rbt, _, _, hregt, rfl, rfl⟩ :=
        registerLoop_step_inv _ _ _ _ _ _ _ _ h hreg
      have hbits : ∀ t, 0 ≤ t → t < 0 + min mb (n - mt_id) →
          (oS 0)[t]? = some [firstBit (oS 0) t] ∧ (oR 0)[t]? = some [firstBit (oR 0) t] := by
        intro t _ ht
        obtain ⟨x, hx⟩ := hS 0 _ List.getElem?_cons_zero t (by simpa using ht)
        obtain ⟨y, hy⟩ := hR 0 _ List.getElem?_cons_zero t (by simpa using ht)
        exact ⟨firstBit_of_getElem _ _ _ hx, firstBit_of_getElem _ _ _ hy⟩
      obtain ⟨csa, hb0, hla, hva⟩ := parseBatch_spec (oS 0) (oR 0) mt_id
        (firstBit (oS 0)) (firstBit (oR 0)) (min mb (n - mt_id)) 0 cs hbits (by omega)
      obtain ⟨cf, hpl, hlf, hfin⟩ :=
        ih (mt_id + min mb (n - mt_id)) (fun k => oS (k + 1)) (fun k => oR (k + 1))
          sbt rbt csa hregt
          (fun k S hk => hS (k + 1) S (by simpa using hk))
          (fun k R hk => hR (k + 1) R (by simpa using hk))
          (by rw [hla, hl])
      refine ⟨cf, ?_, hlf, ?_⟩
      · rw [List.mapIdx_cons, List.mapIdx_cons, parseLoop_step _ _ _ _ _ _ _ _ _ h]
        simp only [hb0]
        exact hpl
      · intro i
        have hA := hva i
        simp only [Nat.add_zero] at hA
        rw [hfin i, hA]
        by_cases hin : mt_id ≤ i ∧ i < n
        · rw [if_pos hin]
          by_cases hfirst : i < mt_id + min mb (n - mt_id)
          · rw [if_neg (by omega), if_pos ⟨hin.1, hfirst⟩]
            have hsmall : i - mt_id < mb := by omega
            rw [Nat.div_eq_of_lt hsmall, Nat.mod_eq_of_lt hsmall]
          · have hfull : min mb (n - mt_id) = mb := by omega
            rw [if_pos (by omega), if_neg (by omega), hfull]
            have hsplit : i - mt_id = (i - (mt_id + mb)) + mb := by omega
            rw [hsplit, Nat.add_div_right _ (by omega), Nat.add_mod_right]
        · rw [if_neg hin, if_neg (by omega), if_neg (by omega)]
    · rw [registerLoop_done _ _ _ _ _ _ _ _ h] at hreg
      simp only [Option.some.injEq, Prod.mk.injEq] at hreg
      obtain ⟨rfl, rfl⟩ := hreg
      refine ⟨cs, by simp [parseLoop_done, h], hl, ?_⟩
      intro i
      rw [if_neg (by omega)]

/-- Both parties of a two-party run: what `RegisterOTs` returns, with the queues towards the
peer as the registration loop produced them. -/
theorem RegisterOTs_two_party (N mb fuel my_id : Nat) (rnd : RandomSource)
    (hN : N < 2 ^ 64) (hmb : 1 ≤ mb) (hfuel : N ≤ fuel) (hid : my_id = 0 ∨ my_id = 1) :
    ∃ q sb rb, RegisterOTs fuel rnd (twoPartyProvider my_id mb N) = some q ∧
      registerLoop mb N (Random rnd.bit_a N) (Random rnd.bit_b N) fuel 0 [] [] =
        some (sb, rb) ∧
      q.my_id = my_id ∧ q.num_providers = 2 ∧ q.num_bit_mts = N ∧ q.max_batch_size = mb ∧
      q.bit_ots_snd = (if my_id = 0 then [[], sb] else [sb, []]) ∧
      q.bit_ots_rcv = (if my_id = 0 then [[], rb] else [rb, []]) ∧
      q.bit_ots_snd.getD (1 - my_id) [] = sb ∧ q.bit_ots_rcv.getD (1 - my_id) [] = rb ∧
      q.bit_ots_snd.getD my_id [] = [] ∧ q.bit_ots_rcv.getD my_id [] = [] ∧
      q.bit_mts = ⟨Random rnd.bit_a N, Random rnd.bit_b N,
        List.zipWith (fun x y => x && y) (Random rnd.bit_a N) (Random rnd.bit_b N)⟩ := by
  have hmod : N % SIZE_MOD = N := Nat.mod_eq_of_lt (by simpa [SIZE_MOD] using hN)
  by_cases hz : N = 0
  · subst hz
    have hq : RegisterOTs fuel rnd (twoPartyProvider my_id mb 0) =
        some (initBinaryPool rnd (twoPartyProvider my_id mb 0)) := by
      rw [RegisterOTs_binary _ _ _ rfl rfl rfl rfl]
      exact registerPeers_no_bits _ _ _ _
        (by simp [initBinaryPool, twoPartyProvider, RequestBinaryMTs, MTProviderFromOTs.new])
    refine ⟨_, [], [], hq, registerLoop_done _ _ _ _ _ _ _ _ (by omega), ?_⟩
    rcases hid with rfl | rfl <;>
      simp [initBinaryPool, twoPartyProvider, RequestBinaryMTs, MTProviderFromOTs.new, Random]
  have hpos : 0 < N := Nat.pos_of_ne_zero hz
  obtain ⟨q, hq⟩ := RegisterOTs_returns N mb fuel my_id rnd hN hmb hfuel hid
  rcases hid with rfl | rfl
  · obtain ⟨sb, rb, h1, h2, h3, h4, h5, h6, h7, h8⟩ :=
      RegisterOTs_party0 N mb fuel rnd q hmod hpos hq
    exact ⟨q, sb, rb, hq, h1, h2, h3, h4, h5, by simp [h6], by simp [h7], by simp [h6],
      by simp [h7], by simp [h6], by simp [h7], h8⟩
  · obtain ⟨sb, rb, h1, h2, h3, h4, h5, h6, h7, h8⟩ :=
      RegisterOTs_party1 N mb fuel rnd q hmod hpos hq
    exact ⟨q, sb, rb, hq, h1, h2, h3, h4, h5, by simp [h6], by simp [h7], by simp [h6],
      by simp [h7], by simp [h6], by simp [h7], h8⟩

/-- Both parties of a two-party run: `ParseOutputs` after the OT phase, given that the
parsing loop on the queue towards the peer returns with empty queues. -/
theorem ParseOutputs_two_party (fuel my_id : Nat) (out : OTOutcome) (q : MTProviderFromOTs)
    (sb : List OTVectorSender) (rb : List OTVectorReceiver) (cf : List Bool)
    (hid : my_id = 0 ∨ my_id = 1) (hq : q.my_id = my_id) (hnp : q.num_providers = 2)
    (hs : q.bit_ots_snd = (if my_id = 0 then [[], sb] else [sb, []]))
    (hr : q.bit_ots_rcv = (if my_id = 0 then [[], rb] else [rb, []]))
    (hp : parseLoop q.max_batch_size q.num_bit_mts fuel 0
      (sb.mapIdx (fun k ot => { ot with outputs := out.snd (1 - my_id) k }))
      (rb.mapIdx (fun k ot => { ot with outputs := out.rcv (1 - my_id) k })) q.bit_mts.c =
        some ([], [], cf)) :
    ParseOutputs fuel (runOTs out q) =
      some { runOTs out q with
        bit_mts := ⟨q.bit_mts.a, q.bit_mts.b, cf⟩
        bit_ots_snd := [[], []]
        bit_ots_rcv := [[], []] } := by
  unfold ParseOutputs
  have h1 : (runOTs out q).num_providers = 2 := hnp
  by_cases hz : q.num_bit_mts = 0
  · rw [hz, parseLoop_done _ _ _ _ _ _ _ (by omega)] at hp
    simp only [Option.some.injEq, Prod.mk.injEq, List.mapIdx_eq_nil_iff] at hp
    obtain ⟨rfl, rfl, rfl⟩ := hp
    rw [parsePeers_no_bits _ _ _ _ (by exact hz)]
    have e1 : (runOTs out q).bit_ots_snd = [[], []] := by
      rcases hid with rfl | rfl <;> simp [runOTs, hs]
    have e2 : (runOTs out q).bit_ots_rcv = [[], []] := by
      rcases hid with rfl | rfl <;> simp [runOTs, hr]
    rw [← e1, ← e2]
    rfl
  have hpos : 0 < q.num_bit_mts := Nat.pos_of_ne_zero hz
  rcases hid with rfl | rfl
  · simp only [if_true] at hs hr
    rw [h1, parsePeers_party0 fuel (runOTs out q) hq hpos _ _ cf
      (by simp [runOTs, hs, hq]) (by simp [runOTs, hr, hq]) hp]
    rfl
  · simp only [one_ne_zero, if_false] at hs hr
    rw [h1, parsePeers_party1 fuel (runOTs out q) hq hpos _ _ cf
      (by simp [runOTs, hs, hq]) (by simp [runOTs, hr, hq]) hp]
    rfl

theorem flatten_singletons (l : List Bool) : (l.map (fun x => [x])).flatten = l := by
  induction l with
  | nil => rfl
  | cons x l ih => simp [ih]

theorem sampleRegistered0_eq :
    RegisterOTs 3 sampleRandom0 (twoPartyProvider 0 2 3) = some sampleRegistered0 := by
  decide

theorem sample_queues :
    sampleRegistered0.bit_ots_snd.getD 1 [] =
        [⟨1, 2, OTProtocol.XCOT, [[true], [false]], []⟩,
          ⟨1, 1, OTProtocol.XCOT, [[true]], []⟩] ∧
      sampleRegistered0.bit_ots_rcv.getD 1 [] =
        [⟨1, 2, OTProtocol.XCOT, [true, false], []⟩,
          ⟨1, 1, OTProtocol.XCOT, [false], []⟩] := by
  decide

theorem one_bit_output (o : List (List Bool)) (j : Nat) (hj : j < o.length)
    (hall : ∀ y ∈ o, y.length = 1) : ∃ x, o[j]? = some [x] := by
  have hy := hall (o[j]) (List.getElem_mem hj)
  obtain ⟨x, hx⟩ := List.length_eq_one.mp hy
  exact ⟨x, by rw [List.getElem?_eq_getElem hj, hx]⟩

theorem sample_snd_exact (k : Nat) (S : OTVectorSender)
    (hk : (sampleRegistered0.bit_ots_snd.getD 1 [])[k]? = some S) :
    (sampleOutcomeExact.snd 1 k).length = S.num_ots ∧
      ∀ y ∈ sampleOutcomeExact.snd 1 k, y.length = S.bitlen := by
  rw [sample_queues.1] at hk
  rcases k with _ | _ | k
  · simp only [List.getElem?_cons_zero, Option.some.injEq] at hk
    subst hk
    simp [sampleOutcomeExact]
  · simp only [List.getElem?_cons_succ, List.getElem?_cons_zero, Option.some.injEq] at hk
    subst hk
    simp [sampleOutcomeExact]
  · simp at hk

theorem sample_rcv_exact (k : Nat) (R : OTVectorReceiver)
    (hk : (sampleRegistered0.bit_ots_rcv.getD 1 [])[k]? = some R) :
    (sampleOutcomeExact.rcv 1 k).length = R.num_ots ∧
      ∀ y ∈ sampleOutcomeExact.rcv 1 k, y.length = R.bitlen := by
  rw [sample_queues.2] at hk
  rcases k with _ | _ | k
  · simp only [List.getElem?_cons_zero, Option.some.injEq] at hk
    subst hk
    simp [sampleOutcomeExact]
  · simp only [List.getElem?_cons_succ, List.getElem?_cons_zero, Option.some.injEq] at hk
    subst hk
    simp [sampleOutcomeExact]
  · simp at hk

theorem sampleParsed0_eq :
    ParseOutputs 3 (runOTs sampleOutcomeExact sampleRegistered0) = some sampleParsed0 := by
  decide

/-- C28: on both parties of a two-party run with `N` reserved binary MTs (`N > 0`, and also
`N = 0`, where nothing is registered) and a maximal
batch size `mb ≥ 1`, `RegisterOTs` returns (the registration loop terminates within `N`
iterations), and the queue towards the peer holds exactly `⌈N / mb⌉` send vectors and as
many receive vectors; every vector has between 1 and `mb` OTs, every vector but the last has
`mb` OTs, and the sizes sum to `N`, for the send vectors and for the receive vectors.
Nothing is registered towards the party itself. -/
theorem C28_batching (N mb fuel my_id : Nat) (rnd : RandomSource)
    (hN : N < 2 ^ 64) (hmb : 1 ≤ mb) (hfuel : N ≤ fuel) (hid : my_id = 0 ∨ my_id = 1) :
    ∃ q, RegisterOTs fuel rnd (twoPartyProvider my_id mb N) = some q ∧
      (q.bit_ots_snd.getD (1 - my_id) []).length = (N + mb - 1) / mb ∧
      (q.bit_ots_rcv.getD (1 - my_id) []).length = (N + mb - 1) / mb ∧
      (∀ S ∈ q.bit_ots_snd.getD (1 - my_id) [], 1 ≤ S.num_ots ∧ S.num_ots ≤ mb) ∧
      (∀ R ∈ q.bit_ots_rcv.getD (1 - my_id) [], 1 ≤ R.num_ots ∧ R.num_ots ≤ mb) ∧
      (∀ k, k + 1 < (N + mb - 1) / mb →
        ((q.bit_ots_snd.getD (1 - my_id) []).map fun S => S.num_ots)[k]? = some mb ∧
          ((q.bit_ots_rcv.getD (1 - my_id) []).map fun R => R.num_ots)[k]? = some mb) ∧
      ((q.bit_ots_snd.getD (1 - my_id) []).map fun S => S.num_ots).sum = N ∧
      ((q.bit_ots_rcv.getD (1 - my_id) []).map fun R => R.num_ots).sum = N ∧
      q.bit_ots_snd.getD my_id [] = [] ∧ q.bit_ots_rcv.getD my_id [] = [] := by
  obtain ⟨q, sb, rb, hq, hreg, _, _, _, _, _, _, hs, hr, hs0, hr0, _⟩ :=
    RegisterOTs_two_party N mb fuel my_id rnd hN hmb hfuel hid
  obtain ⟨sb1, rb1, hreg1, hls, hlr, hS, hR, hks, hkr, hss, hsr, _, _⟩ :=
    registerLoop_batches mb N (Random rnd.bit_a N) (Random rnd.bit_b N) hmb
      (Random_length _ _) (Random_length _ _) fuel 0 (by omega) (by omega)
  rw [hreg] at hreg1
  simp only [Option.some.injEq, Prod.mk.injEq] at hreg1
  obtain ⟨rfl, rfl⟩ := hreg1
  simp only [Nat.sub_zero] at hls hlr hss hsr
  refine ⟨q, hq, ?_, ?_, ?_, ?_, ?_, ?_, ?_, hs0, hr0⟩
  · rw [hs, hls]
  · rw [hr, hlr]
  · intro S hmem
    rw [hs] at hmem
    exact ⟨(hS S hmem).2.2.1, (hS S hmem).2.2.2.1⟩
  · intro R hmem
    rw [hr] at hmem
    exact ⟨(hR R hmem).2.2.1, (hR R hmem).2.2.2.1⟩
  · intro k hk
    rw [hs, hr]
    exact ⟨hks k (by rw [hls]; exact hk), hkr k (by rw [hlr]; exact hk)⟩
  · rw [hs, hss]
  · rw [hr, hsr]

/-- C28 (witness): three MTs in batches of at most two give two send vectors. -/
theorem C28_batching_witness :
    ∃ q, RegisterOTs 3 sampleRandom0 (twoPartyProvider 0 2 3) = some q ∧
      (q.bit_ots_snd.getD 1 []).length = 2 ∧
      ((q.bit_ots_snd.getD 1 []).map fun S => S.num_ots).sum = 3 := by
  obtain ⟨q, h1, h2, _, _, _, _, h3, _⟩ :=
    C28_batching 3 2 3 0 sampleRandom0 (by decide) (by decide) (by decide) (Or.inl rfl)
  exact ⟨q, h1, h2, h3⟩

/-- C24: on both parties of a two-party run with `N` reserved binary MTs, every OT vector
that `RegisterOTs` registers towards the peer is an XCOT vector of bit length 1 that holds
one input (one choice) per OT; the inputs set on the send vectors, concatenated in
registration order, are the one-bit vectors of the bits `a[0], ..., a[N-1]`, and the choices
set on the receive vectors, concatenated in registration order, are the bits
`b[0], ..., b[N-1]`. Nothing is registered towards the party itself. -/
theorem C24_ot_inputs (N mb fuel my_id : Nat) (rnd : RandomSource)
    (hN : N < 2 ^ 64) (hmb : 1 ≤ mb) (hfuel : N ≤ fuel) (hid : my_id = 0 ∨ my_id = 1) :
    ∃ q, RegisterOTs fuel rnd (twoPartyProvider my_id mb N) = some q ∧
      (∀ S ∈ q.bit_ots_snd.getD (1 - my_id) [],
        S.p = OTProtocol.XCOT ∧ S.bitlen = 1 ∧ S.inputs.length = S.num_ots) ∧
      (∀ R ∈ q.bit_ots_rcv.getD (1 - my_id) [],
        R.p = OTProtocol.XCOT ∧ R.bitlen = 1 ∧ R.choices.length = R.num_ots) ∧
      q.bit_mts.a.length = N ∧ q.bit_mts.b.length = N ∧
      ((q.bit_ots_snd.getD (1 - my_id) []).map fun S => S.inputs).flatten =
        q.bit_mts.a.map (fun x => [x]) ∧
      (((q.bit_ots_snd.getD (1 - my_id) []).map fun S => S.inputs).flatten).flatten =
        q.bit_mts.a ∧
      ((q.bit_ots_rcv.getD (1 - my_id) []).map fun R => R.choices).flatten = q.bit_mts.b ∧
      q.bit_ots_snd.getD my_id [] = [] ∧ q.bit_ots_rcv.getD my_id [] = [] := by
  obtain ⟨q, sb, rb, hq, hreg, _, _, _, _, _, _, hs, hr, hs0, hr0, hm⟩ :=
    RegisterOTs_two_party N mb fuel my_id rnd hN hmb hfuel hid
  obtain ⟨sb1, rb1, hreg1, _, _, hS, hR, _, _, _, _, hjs, hjr⟩ :=
    registerLoop_batches mb N (Random rnd.bit_a N) (Random rnd.bit_b N) hmb
      (Random_length _ _) (Random_length _ _) fuel 0 (by omega) (by omega)
  rw [hreg] at hreg1
  simp only [Option.some.injEq, Prod.mk.injEq] at hreg1
  obtain ⟨rfl, rfl⟩ := hreg1
  simp only [List.drop_zero] at hjs hjr
  refine ⟨q, hq, ?_, ?_, ?_, ?_, ?_, ?_, ?_, hs0, hr0⟩
  · intro S hmem
    rw [hs] at hmem
    exact ⟨(hS S hmem).2.1, (hS S hmem).1, (hS S hmem).2.2.2.2⟩
  · intro R hmem
    rw [hr] at hmem
    exact ⟨(hR R hmem).2.1, (hR R hmem).1, (hR R hmem).2.2.2.2⟩
  · rw [hm]; exact Random_length _ _
  · rw [hm]; exact Random_length _ _
  · rw [hs, hjs, hm]
  · rw [hs, hjs, hm, flatten_singletons]
  · rw [hr, hjr, hm]

/-- C24 (witness): three MTs in batches of at most two; the inputs of the two send vectors
are the bits of `a`. -/
theorem C24_ot_inputs_witness :
    ∃ q, RegisterOTs 3 sampleRandom0 (twoPartyProvider 0 2 3) = some q ∧
      (((q.bit_ots_snd.getD 1 []).map fun S => S.inputs).flatten).flatten = q.bit_mts.a ∧
      ((q.bit_ots_rcv.getD 1 []).map fun R => R.choices).flatten = q.bit_mts.b := by
  obtain ⟨q, h1, _, _, _, _, _, h2, h3, _⟩ :=
    C24_ot_inputs 3 2 3 0 sampleRandom0 (by decide) (by decide) (by decide) (Or.inl rfl)
  exact ⟨q, h1, h2, h3⟩

/-- C23: on both parties of a two-party run with `N` reserved binary MTs, let `q` be the
provider that `RegisterOTs` returned. Whatever one-bit outputs the OT protocol delivers for
the registered vectors, `ParseOutputs` returns, leaves the vectors `a` and `b` and the
length of `c` unchanged, and for every `i < N` the bit `c[i]` afterwards is
`out_r[i] XOR out_s[i] XOR c[i]`, where `out_s[i]` and `out_r[i]` are the first bits of the
outputs of the send and of the receive vector of the batch `i / mb` at the position
`i mod mb` of `i` inside that batch. -/
theorem C23_parse_outputs_update (N mb fuel my_id : Nat) (rnd : RandomSource)
    (hN : N < 2 ^ 64) (hmb : 1 ≤ mb) (hfuel : N ≤ fuel) (hid : my_id = 0 ∨ my_id = 1) :
    ∃ q, RegisterOTs fuel rnd (twoPartyProvider my_id mb N) = some q ∧
      ∀ out : OTOutcome,
        (∀ k S, (q.bit_ots_snd.getD (1 - my_id) [])[k]? = some S → ∀ j, j < S.num_ots →
          ∃ x, (out.snd (1 - my_id) k)[j]? = some [x]) →
        (∀ k R, (q.bit_ots_rcv.getD (1 - my_id) [])[k]? = some R → ∀ j, j < R.num_ots →
          ∃ x, (out.rcv (1 - my_id) k)[j]? = some [x]) →
        ∃ r, ParseOutputs fuel (runOTs out q) = some r ∧
          r.bit_mts.a = q.bit_mts.a ∧ r.bit_mts.b = q.bit_mts.b ∧
          r.bit_mts.c.length = q.bit_mts.c.length ∧
          ∀ i, i < N →
            r.bit_mts.c.getD i false =
              xor (xor (firstBit (out.rcv (1 - my_id) (i / mb)) (i % mb))
                (firstBit (out.snd (1 - my_id) (i / mb)) (i % mb)))
                (q.bit_mts.c.getD i false) := by
  obtain ⟨q, sb, rb, hq, hreg, hqid, hnp, hn, hqmb, hqs, hqr, hs, hr, _, _, hm⟩ :=
    RegisterOTs_two_party N mb fuel my_id rnd hN hmb hfuel hid
  refine ⟨q, hq, ?_⟩
  intro out hS hR
  rw [hs] at hS
  rw [hr] at hR
  have hcl : q.bit_mts.c.length = N := by
    rw [hm]
    simp [Random_length]
  obtain ⟨cf, hpl, hlf, hrule⟩ := parse_of_registered mb N _ _ hmb fuel 0
    (out.snd (1 - my_id)) (out.rcv (1 - my_id)) sb rb q.bit_mts.c hreg hS hR hcl
  have hpo := ParseOutputs_two_party fuel my_id out q sb rb cf hid hqid hnp
    hqs hqr (by rw [hqmb, hn]; exact hpl)
  refine ⟨_, hpo, rfl, rfl, ?_, ?_⟩
  · show cf.length = q.bit_mts.c.length
    rw [hlf, hcl]
  · intro i hi
    show cf.getD i false = _
    rw [hrule i, if_pos ⟨Nat.zero_le _, hi⟩]
    simp only [Nat.sub_zero]

/-- C23 (witness): party 0 with three MTs in batches of at most two, on the outputs
`sampleOutcomeExact`. -/
theorem C23_parse_outputs_update_witness :
    ParseOutputs 3 (runOTs sampleOutcomeExact sampleRegistered0) = some sampleParsed0 ∧
      sampleParsed0.bit_mts.a = sampleRegistered0.bit_mts.a ∧
      sampleParsed0.bit_mts.b = sampleRegistered0.bit_mts.b ∧
      ∀ i, i < 3 →
        sampleParsed0.bit_mts.c.getD i false =
          xor (xor (firstBit (sampleOutcomeExact.rcv 1 (i / 2)) (i % 2))
            (firstBit (sampleOutcomeExact.snd 1 (i / 2)) (i % 2)))
            (sampleRegistered0.bit_mts.c.getD i false) := by
  obtain ⟨q, hq, hall⟩ :=
    C23_parse_outputs_update 3 2 3 0 sampleRandom0 (by decide) (by decide) (by decide)
      (Or.inl rfl)
  rw [sampleRegistered0_eq] at hq
  obtain rfl := Option.some.inj hq
  obtain ⟨r, hr, ha, hb, _, hrule⟩ := hall sampleOutcomeExact
    (fun k S hk j hj => one_bit_output _ j (by rw [(sample_snd_exact k S hk).1]; exact hj)
      (fun y hy => by
        rw [(sample_snd_exact k S hk).2 y hy]
        rw [sample_queues.1] at hk
        rcases k with _ | _ | k <;> simp at hk <;> subst hk <;> rfl))
    (fun k R hk j hj => one_bit_output _ j (by rw [(sample_rcv_exact k R hk).1]; exact hj)
      (fun y hy => by
        rw [(sample_rcv_exact k R hk).2 y hy]
        rw [sample_queues.2] at hk
        rcases k with _ | _ | k <;> simp at hk <;> subst hk <;> rfl))
  rw [sampleParsed0_eq] at hr
  obtain rfl := Option.some.inj hr
  exact ⟨sampleParsed0_eq, ha, hb, hrule⟩

/-- C29: on both parties of a two-party run with `N` reserved binary MTs, let `q` be the
provider that `RegisterOTs` returned, and let the OT protocol deliver, for every registered
vector, exactly as many outputs as the vector has OTs, each of the bit length of the vector.
Then `ParseOutputs` with the same `N` and the same maximal batch size returns: its loop
never takes the front of an empty queue and never reads an output at an index that the
vector at the front does not have (either would make the run fail), and afterwards the send
queue and the receive queue of every party are empty, as the two assertions demand. -/
theorem C29_parse_consumes_registered (N mb fuel my_id : Nat) (rnd : RandomSource)
    (hN : N < 2 ^ 64) (hmb : 1 ≤ mb) (hfuel : N ≤ fuel)
    (hid : my_id = 0 ∨ my_id = 1) :
    ∃ q, RegisterOTs fuel rnd (twoPartyProvider my_id mb N) = some q ∧
      ∀ out : OTOutcome,
        (∀ k S, (q.bit_ots_snd.getD (1 - my_id) [])[k]? = some S →
          (out.snd (1 - my_id) k).length = S.num_ots ∧
            ∀ y ∈ out.snd (1 - my_id) k, y.length = S.bitlen) →
        (∀ k R, (q.bit_ots_rcv.getD (1 - my_id) [])[k]? = some R →
          (out.rcv (1 - my_id) k).length = R.num_ots ∧
            ∀ y ∈ out.rcv (1 - my_id) k, y.length = R.bitlen) →
        ∃ r, ParseOutputs fuel (runOTs out q) = some r ∧
          r.bit_ots_snd = [[], []] ∧ r.bit_ots_rcv = [[], []] ∧
          (∀ i, r.bit_ots_snd.getD i [] = [] ∧ r.bit_ots_rcv.getD i [] = []) := by
  obtain ⟨q, sb, rb, hq, hreg, hqid, hnp, hn, hqmb, hqs, hqr, hs, hr, _, _, hm⟩ :=
    RegisterOTs_two_party N mb fuel my_id rnd hN hmb hfuel hid
  obtain ⟨sb1, rb1, hreg1, _, _, hSb, hRb, _⟩ :=
    registerLoop_batches mb N (Random rnd.bit_a N) (Random rnd.bit_b N) hmb
      (Random_length _ _) (Random_length _ _) fuel 0 (by omega) (by omega)
  rw [hreg] at hreg1
  simp only [Option.some.injEq, Prod.mk.injEq] at hreg1
  obtain ⟨rfl, rfl⟩ := hreg1
  refine ⟨q, hq, ?_⟩
  intro out hS hR
  rw [hs] at hS
  rw [hr] at hR
  have hcl : q.bit_mts.c.length = N := by
    rw [hm]
    simp [Random_length]
  obtain ⟨cf, hpl, _, _⟩ := parse_of_registered mb N _ _ hmb fuel 0
    (out.snd (1 - my_id)) (out.rcv (1 - my_id)) sb rb q.bit_mts.c hreg
    (fun k S hk j hj => one_bit_output _ j (by rw [(hS k S hk).1]; exact hj)
      (fun y hy => by
        rw [(hS k S hk).2 y hy]
        exact (hSb S (List.getElem?_mem hk)).1))
    (fun k R hk j hj => one_bit_output _ j (by rw [(hR k R hk).1]; exact hj)
      (fun y hy => by
        rw [(hR k R hk).2 y hy]
        exact (hRb R (List.getElem?_mem hk)).1))
    hcl
  have hpo := ParseOutputs_two_party fuel my_id out q sb rb cf hid hqid hnp
    hqs hqr (by rw [hqmb, hn]; exact hpl)
  refine ⟨_, hpo, rfl, rfl, ?_⟩
  intro i
  show ([[], []] : List (List OTVectorSender)).getD i [] = [] ∧
    ([[], []] : List (List OTVectorReceiver)).getD i [] = []
  rcases i with _ | _ | i <;> simp

/-- C29 (witness): party 0 with three MTs in batches of at most two, on the outputs
`sampleOutcomeExact`, which has two outputs for the first batch and one for the second. -/
theorem C29_parse_consumes_registered_witness :
    ParseOutputs 3 (runOTs sampleOutcomeExact sampleRegistered0) = some sampleParsed0 ∧
      sampleParsed0.bit_ots_snd = [[], []] ∧ sampleParsed0.bit_ots_rcv = [[], []] := by
  obtain ⟨q, hq, hall⟩ :=
    C29_parse_consumes_registered 3 2 3 0 sampleRandom0 (by decide) (by decide) (by decide)
      (Or.inl rfl)
  rw [sampleRegistered0_eq] at hq
  obtain rfl := Option.some.inj hq
  obtain ⟨r, hr, hs, hrc, _⟩ := hall sampleOutcomeExact sample_snd_exact sample_rcv_exact
  rw [sampleParsed0_eq] at hr
  obtain rfl := Option.some.inj hr
  exact ⟨sampleParsed0_eq, hs, hrc⟩

end ABYN

namespace ABYN

/-- With `2^58` 64-bit MTs the size `num_mts_64_ * 64` of the random buffer is `2^64`,
which is 0 in `std::size_t`: `assign` reads past the end of the empty buffer, although the
sum of the counters is below `2^64`. -/
theorem fillIntegerMTs_buffer_wraps (ra rb : Nat → Nat) (v : IntegerMTVector) :
    fillIntegerMTs 64 (2 ^ 58) ra rb v = none := by
  have h : ¬ (2 ^ 58 * 64 ≤ (2 ^ 58 * 64) % SIZE_MOD) := by decide
  simp only [fillIntegerMTs, randomIntegers, if_neg h]
  simp

end ABYN

namespace MOTION

theorem stepMain_rel (gates : List NewGate) (s s1 : ExecState)
    (h : stepMain gates s = some s1) : StepRel gates s s1 := by
  unfold stepMain at h
  split at h
  · rename_i hpc
    simp only [Option.some.injEq] at h
    subst h
    exact StepRel.pre s hpc
  · rename_i ph i hpc
    split at h
    · rename_i gate hg
      split at h
      · rename_i hn
        simp only [Option.some.injEq] at h
        subst h
        exact StepRel.post_task s ph i gate hpc hg hn
      · rename_i hn
        simp only [Option.some.injEq] at h
        subst h
        exact StepRel.post_skip s ph i gate hpc hg (by simpa using hn)
    · rename_i hg
      simp only [Option.some.injEq] at h
      subst h
      exact StepRel.post_end s ph i hpc hg
  · rename_i ph hpc
    split at h
    · rename_i he
      simp only [Option.some.injEq] at h
      subst h
      exact StepRel.wait_error s ph hpc he
    · rename_i he
      split at h
      · rename_i hc
        cases ph with
        | setup =>
          simp only [Option.some.injEq] at h
          subst h
          exact StepRel.wait_setup s hpc (by simpa using he) hc
        | online =>
          simp only [Option.some.injEq] at h
          subst h
          exact StepRel.wait_online s hpc (by simpa using he) hc
      · cases h
  · rename_i hpc
    split at h
    · simp only [Option.some.injEq] at h
      subst h
      exact StepRel.join s hpc
    · cases h
  · cases h
  · cases h

theorem stepTask_rel (gates : List NewGate) (s s1 : ExecState) (ph : Phase) (g : Nat)
    (h : stepTask gates s ph g = some s1) : StepRel gates s s1 := by
  unfold stepTask at h
  split at h
  · cases h
  · rename_i gate hg
    split at h
    · rename_i hs
      simp only [Option.some.injEq] at h
      subst h
      exact StepRel.task_start s ph g gate hg hs
    · rename_i hs
      split at h
      · rename_i hok
        simp only [Option.some.injEq] at h
        subst h
        exact StepRel.task_return s ph g gate hg hs hok
      · rename_i hok
        simp only [Option.some.injEq] at h
        subst h
        exact StepRel.task_error s ph g gate hg hs (by simpa using hok)
    · rename_i hs
      simp only [Option.some.injEq] at h
      subst h
      exact StepRel.task_count s ph g gate hg hs
    · cases h

theorem step_rel (gates : List NewGate) (s s1 : ExecState) (c : Choice)
    (h : step gates s c = some s1) : StepRel gates s s1 := by
  cases c with
  | main => exact stepMain_rel gates s s1 h
  | task ph g => exact stepTask_rel gates s s1 ph g h

theorem filter_length_mono (l : List Nat) (p q : Nat → Bool)
    (h : ∀ x ∈ l, p x = true → q x = true) :
    (l.filter p).length ≤ (l.filter q).length := by
  induction l with
  | nil => simp
  | cons a l ih =>
    have ih1 := ih (fun x hx => h x (List.mem_cons_of_mem a hx))
    have ha := h a (List.mem_cons_self a l)
    cases hp : p a with
    | false =>
      cases hq : q a with
      | false => simpa [List.filter, hp, hq] using ih1
      | true => simp only [List.filter, hp, hq, List.length_cons]; omega
    | true =>
      have hq : q a = true := ha hp
      simpa [List.filter, hp, hq] using ih1

theorem filter_length_eq_imp (l : List Nat) (p q : Nat → Bool)
    (h : ∀ x ∈ l, p x = true → q x = true)
    (heq : (l.filter p).length = (l.filter q).length) :
    ∀ x ∈ l, q x = true → p x = true := by
  induction l with
  | nil => intro x hx; cases hx
  | cons a l ih =>
    have hl : ∀ x ∈ l, p x = true → q x = true :=
      fun x hx => h x (List.mem_cons_of_mem a hx)
    have hmono := filter_length_mono l p q hl
    have ha := h a (List.mem_cons_self a l)
    cases hp : p a with
    | false =>
      cases hq : q a with
      | false =>
        simp only [List.filter, hp, hq] at heq
        intro x hx hqx
        rcases List.mem_cons.mp hx with rfl | hx1
        · rw [hq] at hqx; cases hqx
        · exact ih hl heq x hx1 hqx
      | true =>
        simp only [List.filter, hp, hq, List.length_cons] at heq
        omega
    | true =>
      have hq : q a = true := ha hp
      simp only [List.filter, hp, hq, List.length_cons, Nat.add_right_cancel_iff] at heq
      intro x hx hqx
      rcases List.mem_cons.mp hx with rfl | hx1
      · exact hp
      · exact ih hl heq x hx1 hqx

theorem numNeeded_range (gates : List NewGate) (ph : Phase) :
    numNeeded gates ph = ((List.range gates.length).filter (needAt gates ph)).length := by
  unfold numNeeded
  induction gates using List.reverseRecOn with
  | nil => rfl
  | append_singleton l a ih =>
    rw [List.filter_append, List.length_append, ih, List.length_append, List.length_singleton,
      List.range_succ, List.filter_append, List.length_append]
    congr 1
    · congr 1
      apply List.filter_congr
      intro g hg
      have hlt : g < l.length := List.mem_range.mp hg
      simp [needAt, List.getElem?_append_left hlt]
    · have : needAt (l ++ [a]) ph l.length = a.need ph := by
        simp [needAt]
      cases hn : a.need ph <;> simp [List.filter, hn, this]

theorem needAt_lt (gates : List NewGate) (ph : Phase) (g : Nat)
    (h : needAt gates ph g = true) : g < gates.length := by
  by_contra hc
  unfold needAt at h
  rw [List.getElem?_eq_none (by omega)] at h
  cases h

theorem append_singleton_eq_split {α : Type} (l t1 t2 : List α) (e x : α)
    (h : l ++ [e] = t1 ++ x :: t2) :
    (t2 = [] ∧ e = x ∧ t1 = l) ∨ ∃ t3, t2 = t3 ++ [e] ∧ l = t1 ++ x :: t3 := by
  induction t2 using List.reverseRecOn with
  | nil =>
    left
    have h1 : l ++ [e] = t1 ++ [x] := h
    have := List.append_inj' h1 rfl
    exact ⟨rfl, by simpa using this.2, this.1.symm⟩
  | append_singleton t3 y _ =>
    right
    have h1 : l ++ [e] = (t1 ++ x :: t3) ++ [y] := by simpa using h
    have := List.append_inj' h1 rfl
    refine ⟨t3, ?_, this.1⟩
    have hy : e = y := by simpa using this.2
    rw [hy]

end MOTION

namespace MOTION

theorem setTask_same (t : Phase → Nat → TaskStatus) (ph : Phase) (g : Nat) (st : TaskStatus) :
    setTask t ph g st ph g = st := by
  simp [setTask]

theorem setTask_other (t : Phase → Nat → TaskStatus) (ph ph1 : Phase) (g g1 : Nat)
    (st : TaskStatus) (h : ¬ (ph1 = ph ∧ g1 = g)) :
    setTask t ph g st ph1 g1 = t ph1 g1 := by
  simp only [setTask, if_neg h]

theorem Inv_init (gates : List NewGate) : Inv gates ExecState.init where
  idle_of := fun _ _ _ => rfl
  need_of := fun _ _ h => absurd rfl h
  setup_done_pc := fun h => by cases h
  setup_done_task := fun _ h => absurd rfl h
  online_done := fun h => by rcases h with h | h <;> cases h
  counter_eq := fun _ => by simp [ExecState.init]
  error_of := fun _ _ h => by cases h
  trace_nil := fun _ => rfl
  trace_pre := fun h => absurd rfl h
  count_start := fun _ _ => by simp [ExecState.init, TaskStatus.started]
  count_return := fun _ _ => by simp [ExecState.init, TaskStatus.back]
  count_error := fun _ _ => by simp [ExecState.init]
  count_inc := fun _ _ => by simp [ExecState.init]
  order := fun _ h => by cases h
  split := fun t1 t2 g h => by
    have : ([] : List Event) = t1 ++ Event.evaluate_start Phase.online g :: t2 := h
    simp at this

theorem step_idle_of (gates : List NewGate) (s s1 : ExecState) (h : Inv gates s)
    (hstep : StepRel gates s s1) :
    ∀ ph g, notYetPosted s1.pc ph g → s1.tasks ph g = TaskStatus.idle := by
  have htask : ∀ (ph : Phase) (g : Nat) (st : TaskStatus),
      s.tasks ph g ≠ TaskStatus.idle →
      ∀ ph1 g1, notYetPosted s.pc ph1 g1 → setTask s.tasks ph g st ph1 g1 = TaskStatus.idle := by
    intro ph g st hne ph1 g1 hny
    by_cases he : ph1 = ph ∧ g1 = g
    · obtain ⟨rfl, rfl⟩ := he
      exact absurd (h.idle_of _ _ hny) hne
    · rw [setTask_other _ _ _ _ _ _ he]
      exact h.idle_of _ _ hny
  cases hstep with
  | pre hpc =>
    intro ph g _
    exact h.idle_of ph g (by rw [hpc]; trivial)
  | post_task ph i gate hpc hg hn =>
    intro ph1 g1 hny
    simp only [notYetPosted] at hny
    have he : ¬ (ph1 = ph ∧ g1 = i) := by
      rintro ⟨rfl, rfl⟩
      rcases hny with ⟨rfl, h2⟩ | ⟨_, h2⟩
      · cases h2
      · omega
    simp only
    rw [setTask_other _ _ _ _ _ _ he]
    apply h.idle_of
    rw [hpc]
    simp only [notYetPosted]
    rcases hny with h1 | ⟨h1, h2⟩
    · exact Or.inl h1
    · exact Or.inr ⟨h1, by omega⟩
  | post_skip ph i gate hpc hg hn =>
    intro ph1 g1 hny
    simp only [notYetPosted] at hny
    apply h.idle_of
    rw [hpc]
    simp only [notYetPosted]
    rcases hny with h1 | ⟨h1, h2⟩
    · exact Or.inl h1
    · exact Or.inr ⟨h1, by omega⟩
  | post_end ph i hpc hg =>
    intro ph1 g1 hny
    simp only [notYetPosted] at hny
    apply h.idle_of
    rw [hpc]
    exact Or.inl hny
  | wait_error ph hpc he => intro ph1 g1 hny; cases hny
  | wait_setup hpc he hc =>
    intro ph1 g1 hny
    simp only [notYetPosted] at hny
    apply h.idle_of
    rw [hpc]
    rcases hny with ⟨h1, _⟩ | ⟨h1, _⟩
    · cases h1
    · exact ⟨rfl, h1.symm⟩
  | wait_online hpc he hc => intro ph1 g1 hny; cases hny
  | join hpc => intro ph1 g1 hny; cases hny
  | task_start ph g gate hg hs => exact htask ph g _ (by rw [hs]; decide)
  | task_return ph g gate hg hs hok => exact htask ph g _ (by rw [hs]; decide)
  | task_error ph g gate hg hs hok => exact htask ph g _ (by rw [hs]; decide)
  | task_count ph g gate hg hs => exact htask ph g _ (by rw [hs]; decide)

theorem all_finished_of_counter (gates : List NewGate) (s : ExecState) (h : Inv gates s)
    (ph : Phase) (hc : s.counter ph = numNeeded gates ph) :
    ∀ g, needAt gates ph g = true → s.tasks ph g = TaskStatus.finished := by
  intro g hg
  rw [h.counter_eq ph, numNeeded_range] at hc
  have := filter_length_eq_imp (List.range gates.length)
    (fun g => decide (s.tasks ph g = TaskStatus.finished)) (needAt gates ph)
    (fun x _ hx => h.need_of ph x (by
      have : s.tasks ph x = TaskStatus.finished := by simpa using hx
      rw [this]; decide))
    hc g (List.mem_range.mpr (needAt_lt gates ph g hg)) hg
  simpa using this

theorem finished_stable (t : Phase → Nat → TaskStatus) (ph ph1 : Phase) (g g1 : Nat)
    (st : TaskStatus) (hne : t ph g ≠ TaskStatus.finished)
    (hf : t ph1 g1 = TaskStatus.finished) :
    setTask t ph g st ph1 g1 = TaskStatus.finished := by
  by_cases he : ph1 = ph ∧ g1 = g
  · obtain ⟨rfl, rfl⟩ := he
    exact absurd hf hne
  · rw [setTask_other _ _ _ _ _ _ he]
    exact hf

theorem step_need_of (gates : List NewGate) (s s1 : ExecState) (h : Inv gates s)
    (hstep : StepRel gates s s1) :
    ∀ ph g, s1.tasks ph g ≠ TaskStatus.idle → needAt gates ph g = true := by
  have htask : ∀ (ph : Phase) (g : Nat) (st : TaskStatus),
      s.tasks ph g ≠ TaskStatus.idle →
      ∀ ph1 g1, setTask s.tasks ph g st ph1 g1 ≠ TaskStatus.idle →
        needAt gates ph1 g1 = true := by
    intro ph g st hne ph1 g1 hn1
    by_cases he : ph1 = ph ∧ g1 = g
    · obtain ⟨rfl, rfl⟩ := he
      exact h.need_of _ _ hne
    · rw [setTask_other _ _ _ _ _ _ he] at hn1
      exact h.need_of _ _ hn1
  cases hstep with
  | pre hpc => exact h.need_of
  | post_task ph i gate hpc hg hn =>
    intro ph1 g1 hn1
    by_cases he : ph1 = ph ∧ g1 = i
    · obtain ⟨rfl, rfl⟩ := he
      simp [needAt, hg, hn]
    · simp only at hn1
      rw [setTask_other _ _ _ _ _ _ he] at hn1
      exact h.need_of _ _ hn1
  | post_skip ph i gate hpc hg hn => exact h.need_of
  | post_end ph i hpc hg => exact h.need_of
  | wait_error ph hpc he => exact h.need_of
  | wait_setup hpc he hc => exact h.need_of
  | wait_online hpc he hc => exact h.need_of
  | join hpc => exact h.need_of
  | task_start ph g gate hg hs => exact htask ph g _ (by rw [hs]; decide)
  | task_return ph g gate hg hs hok => exact htask ph g _ (by rw [hs]; decide)
  | task_error ph g gate hg hs hok => exact htask ph g _ (by rw [hs]; decide)
  | task_count ph g gate hg hs => exact htask ph g _ (by rw [hs]; decide)

theorem step_setup_done_pc (gates : List NewGate) (s s1 : ExecState) (h : Inv gates s)
    (hstep : StepRel gates s s1) :
    onlinePc s1.pc → ∀ g, needAt gates Phase.setup g = true →
      s1.tasks Phase.setup g = TaskStatus.finished := by
  have htask : ∀ (ph : Phase) (g : Nat) (st : TaskStatus),
      s.tasks ph g ≠ TaskStatus.finished →
      onlinePc s.pc → ∀ g1, needAt gates Phase.setup g1 = true →
        setTask s.tasks ph g st Phase.setup g1 = TaskStatus.finished := by
    intro ph g st hne hpc g1 hg1
    exact finished_stable _ _ _ _ _ _ hne (h.setup_done_pc hpc g1 hg1)
  cases hstep with
  | pre hpc => intro ho; cases ho
  | post_task ph i gate hpc hg hn =>
    intro ho g hg1
    cases ph with
    | setup => cases ho
    | online =>
      simp only
      rw [setTask_other _ _ _ _ _ _ (by simp)]
      exact h.setup_done_pc (by rw [hpc]; trivial) g hg1
  | post_skip ph i gate hpc hg hn =>
    intro ho g hg1
    cases ph with
    | setup => cases ho
    | online => exact h.setup_done_pc (by rw [hpc]; trivial) g hg1
  | post_end ph i hpc hg =>
    intro ho g hg1
    cases ph with
    | setup => cases ho
    | online => exact h.setup_done_pc (by rw [hpc]; trivial) g hg1
  | wait_error ph hpc he => intro ho; cases ho
  | wait_setup hpc he hc =>
    intro _ g hg1
    exact all_finished_of_counter gates s h Phase.setup hc g hg1
  | wait_online hpc he hc =>
    intro _ g hg1
    exact h.setup_done_pc (by rw [hpc]; trivial) g hg1
  | join hpc =>
    intro _ g hg1
    exact h.setup_done_pc (by rw [hpc]; trivial) g hg1
  | task_start ph g gate hg hs => exact htask ph g _ (by rw [hs]; decide)
  | task_return ph g gate hg hs hok => exact htask ph g _ (by rw [hs]; decide)
  | task_error ph g gate hg hs hok => exact htask ph g _ (by rw [hs]; decide)
  | task_count ph g gate hg hs => exact htask ph g _ (by rw [hs]; decide)

theorem step_setup_done_task (gates : List NewGate) (s s1 : ExecState) (h : Inv gates s)
    (hstep : StepRel gates s s1) :
    ∀ g, s1.tasks Phase.online g ≠ TaskStatus.idle →
      ∀ g1, needAt gates Phase.setup g1 = true →
        s1.tasks Phase.setup g1 = TaskStatus.finished := by
  have htask : ∀ (ph : Phase) (g : Nat) (st : TaskStatus),
      s.tasks ph g ≠ TaskStatus.finished → s.tasks ph g ≠ TaskStatus.idle →
      ∀ g0, setTask s.tasks ph g st Phase.online g0 ≠ TaskStatus.idle →
        ∀ g1, needAt gates Phase.setup g1 = true →
          setTask s.tasks ph g st Phase.setup g1 = TaskStatus.finished := by
    intro ph g st hne hni g0 hn0 g1 hg1
    apply finished_stable _ _ _ _ _ _ hne
    by_cases he : Phase.online = ph ∧ g0 = g
    · obtain ⟨rfl, rfl⟩ := he
      exact h.setup_done_task _ hni g1 hg1
    · rw [setTask_other _ _ _ _ _ _ he] at hn0
      exact h.setup_done_task _ hn0 g1 hg1
  cases hstep with
  | pre hpc => exact h.setup_done_task
  | post_task ph i gate hpc hg hn =>
    intro g0 hn0 g1 hg1
    cases ph with
    | setup =>
      simp only at hn0
      rw [setTask_other _ _ _ _ _ _ (by simp)] at hn0
      exact absurd (h.idle_of Phase.online g0 (by rw [hpc]; exact Or.inl ⟨rfl, rfl⟩)) hn0
    | online =>
      simp only
      rw [setTask_other _ _ _ _ _ _ (by simp)]
      exact h.setup_done_pc (by rw [hpc]; trivial) g1 hg1
  | post_skip ph i gate hpc hg hn => exact h.setup_done_task
  | post_end ph i hpc hg => exact h.setup_done_task
  | wait_error ph hpc he => exact h.setup_done_task
  | wait_setup hpc he hc => exact h.setup_done_task
  | wait_online hpc he hc => exact h.setup_done_task
  | join hpc => exact h.setup_done_task
  | task_start ph g gate hg hs =>
    exact htask ph g _ (by rw [hs]; decide) (by rw [hs]; decide)
  | task_return ph g gate hg hs hok =>
    exact htask ph g _ (by rw [hs]; decide) (by rw [hs]; decide)
  | task_error ph g gate hg hs hok =>
    exact htask ph g _ (by rw [hs]; decide) (by rw [hs]; decide)
  | task_count ph g gate hg hs =>
    exact htask ph g _ (by rw [hs]; decide) (by rw [hs]; decide)

theorem step_online_done (gates : List NewGate) (s s1 : ExecState) (h : Inv gates s)
    (hstep : StepRel gates s s1) :
    s1.pc = MainPc.join ∨ s1.pc = MainPc.returned →
      ∀ g, needAt gates Phase.online g = true →
        s1.tasks Phase.online g = TaskStatus.finished := by
  have htask : ∀ (ph : Phase) (g : Nat) (st : TaskStatus),
      s.tasks ph g ≠ TaskStatus.finished →
      s.pc = MainPc.join ∨ s.pc = MainPc.returned →
      ∀ g1, needAt gates Phase.online g1 = true →
        setTask s.tasks ph g st Phase.online g1 = TaskStatus.finished := by
    intro ph g st hne hpc g1 hg1
    exact finished_stable _ _ _ _ _ _ hne (h.online_done hpc g1 hg1)
  cases hstep with
  | pre hpc => intro ho; rcases ho with ho | ho <;> cases ho
  | post_task ph i gate hpc hg hn => intro ho; rcases ho with ho | ho <;> cases ho
  | post_skip ph i gate hpc hg hn => intro ho; rcases ho with ho | ho <;> cases ho
  | post_end ph i hpc hg => intro ho; rcases ho with ho | ho <;> cases ho
  | wait_error ph hpc he => intro ho; rcases ho with ho | ho <;> cases ho
  | wait_setup hpc he hc => intro ho; rcases ho with ho | ho <;> cases ho
  | wait_online hpc he hc =>
    intro _ g hg1
    exact all_finished_of_counter gates s h Phase.online hc g hg1
  | join hpc =>
    intro _ g hg1
    exact h.online_done (Or.inl hpc) g hg1
  | task_start ph g gate hg hs => exact htask ph g _ (by rw [hs]; decide)
  | task_return ph g gate hg hs hok => exact htask ph g _ (by rw [hs]; decide)
  | task_error ph g gate hg hs hok => exact htask ph g _ (by rw [hs]; decide)
  | task_count ph g gate hg hs => exact htask ph g _ (by rw [hs]; decide)

end MOTION

namespace MOTION

theorem filter_update_length (l : List Nat) (hnd : l.Nodup) (g : Nat) (hg : g ∈ l)
    (p q : Nat → Bool) (hp : p g = false) (hq : q g = true)
    (hsame : ∀ x, x ≠ g → q x = p x) :
    (l.filter q).length = (l.filter p).length + 1 := by
  induction l with
  | nil => cases hg
  | cons a l ih =>
    have hnd1 := List.nodup_cons.mp hnd
    by_cases ha : a = g
    · subst ha
      have hrest : l.filter q = l.filter p := by
        apply List.filter_congr
        intro x hx
        exact hsame x (fun hxa => hnd1.1 (hxa ▸ hx))
      simp [List.filter, hp, hq, hrest]
    · have hgl : g ∈ l := by
        rcases List.mem_cons.mp hg with h1 | h1
        · exact absurd h1.symm ha
        · exact h1
      have := ih hnd1.2 hgl
      rw [List.filter_cons, List.filter_cons, hsame a ha]
      cases p a <;> simp [this]

theorem step_counter_eq (gates : List NewGate) (s s1 : ExecState) (h : Inv gates s)
    (hstep : StepRel gates s s1) :
    ∀ ph, s1.counter ph = ((List.range gates.length).filter
      (fun g => decide (s1.tasks ph g = TaskStatus.finished))).length := by
  have hsame : ∀ (ph : Phase) (g : Nat) (st : TaskStatus),
      s.tasks ph g ≠ TaskStatus.finished → st ≠ TaskStatus.finished →
      ∀ ph1, s.counter ph1 = ((List.range gates.length).filter
        (fun g1 => decide (setTask s.tasks ph g st ph1 g1 = TaskStatus.finished))).length := by
    intro ph g st hne hst ph1
    rw [h.counter_eq ph1]
    congr 1
    apply List.filter_congr
    intro x _
    by_cases he : ph1 = ph ∧ x = g
    · obtain ⟨rfl, rfl⟩ := he
      simp [setTask_same, hne, hst]
    · rw [setTask_other _ _ _ _ _ _ he]
  cases hstep with
  | pre hpc => exact h.counter_eq
  | post_task ph i gate hpc hg hn =>
    exact hsame ph i _ (by
      rw [h.idle_of ph i (by rw [hpc]; exact Or.inr ⟨rfl, Nat.le_refl i⟩)]; decide)
      (by decide)
  | post_skip ph i gate hpc hg hn => exact h.counter_eq
  | post_end ph i hpc hg => exact h.counter_eq
  | wait_error ph hpc he => exact h.counter_eq
  | wait_setup hpc he hc => exact h.counter_eq
  | wait_online hpc he hc => exact h.counter_eq
  | join hpc => exact h.counter_eq
  | task_start ph g gate hg hs => exact hsame ph g _ (by rw [hs]; decide) (by decide)
  | task_return ph g gate hg hs hok => exact hsame ph g _ (by rw [hs]; decide) (by decide)
  | task_error ph g gate hg hs hok => exact hsame ph g _ (by rw [hs]; decide) (by decide)
  | task_count ph g gate hg hs =>
    intro ph1
    have hlt : g < gates.length := by
      by_contra hc
      rw [List.getElem?_eq_none (by omega)] at hg
      cases hg
    by_cases hph : ph1 = ph
    · subst hph
      simp only [incCounter, if_true]
      rw [h.counter_eq ph1]
      symm
      apply filter_update_length _ (List.nodup_range _) g (List.mem_range.mpr hlt)
      · simp [hs]
      · simp [setTask_same]
      · intro x hx
        have he : ¬ (ph1 = ph1 ∧ x = g) := by simp [hx]
        simp only [setTask_other _ _ _ _ _ _ he]
    · simp only [incCounter, if_neg hph]
      rw [h.counter_eq ph1]
      congr 1
      apply List.filter_congr
      intro x _
      have he : ¬ (ph1 = ph ∧ x = g) := by simp [hph]
      simp only [setTask_other _ _ _ _ _ _ he]

theorem step_error_of (gates : List NewGate) (s s1 : ExecState) (h : Inv gates s)
    (hstep : StepRel gates s s1) :
    ∀ ph g, s1.tasks ph g = TaskStatus.failed → s1.error = true := by
  have htask : ∀ (ph : Phase) (g : Nat) (st : TaskStatus), st ≠ TaskStatus.failed →
      ∀ ph1 g1, setTask s.tasks ph g st ph1 g1 = TaskStatus.failed → s.error = true := by
    intro ph g st hst ph1 g1 hf
    by_cases he : ph1 = ph ∧ g1 = g
    · obtain ⟨rfl, rfl⟩ := he
      rw [setTask_same] at hf
      exact absurd hf hst
    · rw [setTask_other _ _ _ _ _ _ he] at hf
      exact h.error_of _ _ hf
  cases hstep with
  | pre hpc => exact h.error_of
  | post_task ph i gate hpc hg hn => exact htask ph i _ (by decide)
  | post_skip ph i gate hpc hg hn => exact h.error_of
  | post_end ph i hpc hg => exact h.error_of
  | wait_error ph hpc he => exact h.error_of
  | wait_setup hpc he hc => exact h.error_of
  | wait_online hpc he hc => exact h.error_of
  | join hpc => exact h.error_of
  | task_start ph g gate hg hs => exact htask ph g _ (by decide)
  | task_return ph g gate hg hs hok => exact htask ph g _ (by decide)
  | task_error ph g gate hg hs hok => intro _ _ _; rfl
  | task_count ph g gate hg hs => exact htask ph g _ (by decide)

theorem pc_of_active (gates : List NewGate) (s : ExecState) (h : Inv gates s) (ph : Phase)
    (g : Nat) (hne : s.tasks ph g ≠ TaskStatus.idle) : s.pc ≠ MainPc.preprocessing := by
  intro hpc
  exact hne (h.idle_of ph g (by rw [hpc]; trivial))

theorem step_trace_nil (gates : List NewGate) (s s1 : ExecState) (h : Inv gates s)
    (hstep : StepRel gates s s1) : s1.pc = MainPc.preprocessing → s1.trace = [] := by
  cases hstep with
  | pre hpc => intro ho; cases ho
  | post_task ph i gate hpc hg hn => intro ho; cases ho
  | post_skip ph i gate hpc hg hn => intro ho; cases ho
  | post_end ph i hpc hg => intro ho; cases ho
  | wait_error ph hpc he => intro ho; cases ho
  | wait_setup hpc he hc => intro ho; cases ho
  | wait_online hpc he hc => intro ho; cases ho
  | join hpc => intro ho; cases ho
  | task_start ph g gate hg hs =>
    intro ho; exact absurd ho (pc_of_active gates s h ph g (by rw [hs]; decide))
  | task_return ph g gate hg hs hok =>
    intro ho; exact absurd ho (pc_of_active gates s h ph g (by rw [hs]; decide))
  | task_error ph g gate hg hs hok =>
    intro ho; exact absurd ho (pc_of_active gates s h ph g (by rw [hs]; decide))
  | task_count ph g gate hg hs =>
    intro ho; exact absurd ho (pc_of_active gates s h ph g (by rw [hs]; decide))

theorem step_trace_pre (gates : List NewGate) (s s1 : ExecState) (h : Inv gates s)
    (hstep : StepRel gates s s1) :
    s1.pc ≠ MainPc.preprocessing →
      ∃ rest, s1.trace = Event.preprocessing :: rest ∧ Event.preprocessing ∉ rest := by
  have hold : ∀ pc1, s.pc = pc1 → pc1 ≠ MainPc.preprocessing →
      ∃ rest, s.trace = Event.preprocessing :: rest ∧ Event.preprocessing ∉ rest := by
    intro pc1 h1 h2
    exact h.trace_pre (by rw [h1]; exact h2)
  have htask : ∀ (ph : Phase) (g : Nat) (e : Event), s.tasks ph g ≠ TaskStatus.idle →
      e ≠ Event.preprocessing →
      ∃ rest, s.trace ++ [e] = Event.preprocessing :: rest ∧ Event.preprocessing ∉ rest := by
    intro ph g e hne he
    obtain ⟨rest, h1, h2⟩ := h.trace_pre (pc_of_active gates s h ph g hne)
    refine ⟨rest ++ [e], by rw [h1]; rfl, ?_⟩
    intro hm
    rcases List.mem_append.mp hm with hm1 | hm1
    · exact h2 hm1
    · simp only [List.mem_singleton] at hm1
      exact he hm1.symm
  cases hstep with
  | pre hpc =>
    intro _
    refine ⟨[], ?_, by simp⟩
    simp [h.trace_nil hpc]
  | post_task ph i gate hpc hg hn => intro _; exact hold _ hpc (by simp)
  | post_skip ph i gate hpc hg hn => intro _; exact hold _ hpc (by simp)
  | post_end ph i hpc hg => intro _; exact hold _ hpc (by simp)
  | wait_error ph hpc he => intro _; exact hold _ hpc (by simp)
  | wait_setup hpc he hc => intro _; exact hold _ hpc (by simp)
  | wait_online hpc he hc => intro _; exact hold _ hpc (by simp)
  | join hpc => intro _; exact hold _ hpc (by simp)
  | task_start ph g gate hg hs =>
    intro _; exact htask ph g _ (by rw [hs]; decide) (by simp)
  | task_return ph g gate hg hs hok =>
    intro _; exact htask ph g _ (by rw [hs]; decide) (by simp)
  | task_error ph g gate hg hs hok =>
    intro _; exact htask ph g _ (by rw [hs]; decide) (by simp)
  | task_count ph g gate hg hs =>
    intro _; exact htask ph g _ (by rw [hs]; decide) (by simp)

end MOTION

namespace MOTION

theorem count_task_update (trace : List Event) (tasks : Phase → Nat → TaskStatus)
    (ph : Phase) (g : Nat) (st : TaskStatus) (e : Event) (E : Phase → Nat → Event)
    (c : TaskStatus → Prop) [DecidablePred c]
    (hold : ∀ ph1 g1, trace.count (E ph1 g1) = if c (tasks ph1 g1) then 1 else 0)
    (hother : ∀ ph1 g1, ¬ (ph1 = ph ∧ g1 = g) → e ≠ E ph1 g1)
    (hself : (if c (tasks ph g) then 1 else 0) + (if e = E ph g then 1 else 0) =
      if c st then 1 else 0) :
    ∀ ph1 g1, (trace ++ [e]).count (E ph1 g1) =
      if c (setTask tasks ph g st ph1 g1) then 1 else 0 := by
  intro ph1 g1
  rw [List.count_append, List.count_singleton, hold]
  by_cases he : ph1 = ph ∧ g1 = g
  · obtain ⟨rfl, rfl⟩ := he
    rw [setTask_same, ← hself]
    simp only [beq_iff_eq]
  · rw [setTask_other _ _ _ _ _ _ he]
    have := hother ph1 g1 he
    simp [this]

theorem count_post_update (trace : List Event) (tasks : Phase → Nat → TaskStatus)
    (ph : Phase) (g : Nat) (st : TaskStatus) (E : Phase → Nat → Event)
    (c : TaskStatus → Prop) [DecidablePred c]
    (hold : ∀ ph1 g1, trace.count (E ph1 g1) = if c (tasks ph1 g1) then 1 else 0)
    (hself : c st ↔ c (tasks ph g)) :
    ∀ ph1 g1, trace.count (E ph1 g1) =
      if c (setTask tasks ph g st ph1 g1) then 1 else 0 := by
  intro ph1 g1
  rw [hold]
  by_cases he : ph1 = ph ∧ g1 = g
  · obtain ⟨rfl, rfl⟩ := he
    rw [setTask_same]
    simp only [hself]
  · rw [setTask_other _ _ _ _ _ _ he]

theorem step_count_start (gates : List NewGate) (s s1 : ExecState) (h : Inv gates s)
    (hstep : StepRel gates s s1) :
    ∀ ph g, s1.trace.count (Event.evaluate_start ph g) =
      if (s1.tasks ph g).started then 1 else 0 := by
  cases hstep with
  | pre hpc =>
    intro ph g
    simp only [List.count_append, h.count_start, List.count_singleton]
    simp
  | post_task ph i gate hpc hg hn =>
    exact count_post_update _ _ ph i _ Event.evaluate_start (fun st => st.started = true)
      h.count_start (by
        rw [h.idle_of ph i (by rw [hpc]; exact Or.inr ⟨rfl, Nat.le_refl i⟩)]
        decide)
  | post_skip ph i gate hpc hg hn => exact h.count_start
  | post_end ph i hpc hg => exact h.count_start
  | wait_error ph hpc he => exact h.count_start
  | wait_setup hpc he hc => exact h.count_start
  | wait_online hpc he hc => exact h.count_start
  | join hpc => exact h.count_start
  | task_start ph g gate hg hs =>
    exact count_task_update _ _ ph g _ _ Event.evaluate_start (fun st => st.started = true)
      h.count_start (by intro ph1 g1 he hc; injection hc with h1 h2; exact he ⟨h1.symm, h2.symm⟩)
      (by simp [hs, TaskStatus.started])
  | task_return ph g gate hg hs hok =>
    exact count_task_update _ _ ph g _ _ Event.evaluate_start (fun st => st.started = true)
      h.count_start (by intro ph1 g1 _ hc; cases hc) (by simp [hs, TaskStatus.started])
  | task_error ph g gate hg hs hok =>
    exact count_task_update _ _ ph g _ _ Event.evaluate_start (fun st => st.started = true)
      h.count_start (by intro ph1 g1 _ hc; cases hc) (by simp [hs, TaskStatus.started])
  | task_count ph g gate hg hs =>
    exact count_task_update _ _ ph g _ _ Event.evaluate_start (fun st => st.started = true)
      h.count_start (by intro ph1 g1 _ hc; cases hc) (by simp [hs, TaskStatus.started])

theorem step_count_return (gates : List NewGate) (s s1 : ExecState) (h : Inv gates s)
    (hstep : StepRel gates s s1) :
    ∀ ph g, s1.trace.count (Event.evaluate_return ph g) =
      if (s1.tasks ph g).back then 1 else 0 := by
  cases hstep with
  | pre hpc =>
    intro ph g
    simp only [List.count_append, h.count_return, List.count_singleton]
    simp
  | post_task ph i gate hpc hg hn =>
    exact count_post_update _ _ ph i _ Event.evaluate_return (fun st => st.back = true)
      h.count_return (by
        rw [h.idle_of ph i (by rw [hpc]; exact Or.inr ⟨rfl, Nat.le_refl i⟩)]
        decide)
  | post_skip ph i gate hpc hg hn => exact h.count_return
  | post_end ph i hpc hg => exact h.count_return
  | wait_error ph hpc he => exact h.count_return
  | wait_setup hpc he hc => exact h.count_return
  | wait_online hpc he hc => exact h.count_return
  | join hpc => exact h.count_return
  | task_start ph g gate hg hs =>
    exact count_task_update _ _ ph g _ _ Event.evaluate_return (fun st => st.back = true)
      h.count_return (by intro ph1 g1 _ hc; cases hc) (by simp [hs, TaskStatus.back])
  | task_return ph g gate hg hs hok =>
    exact count_task_update _ _ ph g _ _ Event.evaluate_return (fun st => st.back = true)
      h.count_return
      (by intro ph1 g1 he hc; injection hc with h1 h2; exact he ⟨h1.symm, h2.symm⟩)
      (by simp [hs, TaskStatus.back])
  | task_error ph g gate hg hs hok =>
    exact count_task_update _ _ ph g _ _ Event.evaluate_return (fun st => st.back = true)
      h.count_return (by intro ph1 g1 _ hc; cases hc) (by simp [hs, TaskStatus.back])
  | task_count ph g gate hg hs =>
    exact count_task_update _ _ ph g _ _ Event.evaluate_return (fun st => st.back = true)
      h.count_return (by intro ph1 g1 _ hc; cases hc) (by simp [hs, TaskStatus.back])

theorem step_count_error (gates : List NewGate) (s s1 : ExecState) (h : Inv gates s)
    (hstep : StepRel gates s s1) :
    ∀ ph g, s1.trace.count (Event.evaluate_error ph g) =
      if s1.tasks ph g = TaskStatus.failed then 1 else 0 := by
  cases hstep with
  | pre hpc =>
    intro ph g
    simp only [List.count_append, h.count_error, List.count_singleton]
    simp
  | post_task ph i gate hpc hg hn =>
    exact count_post_update _ _ ph i _ Event.evaluate_error (fun st => st = TaskStatus.failed)
      h.count_error (by
        rw [h.idle_of ph i (by rw [hpc]; exact Or.inr ⟨rfl, Nat.le_refl i⟩)]
        decide)
  | post_skip ph i gate hpc hg hn => exact h.count_error
  | post_end ph i hpc hg => exact h.count_error
  | wait_error ph hpc he => exact h.count_error
  | wait_setup hpc he hc => exact h.count_error
  | wait_online hpc he hc => exact h.count_error
  | join hpc => exact h.count_error
  | task_start ph g gate hg hs =>
    exact count_task_update _ _ ph g _ _ Event.evaluate_error (fun st => st = TaskStatus.failed)
      h.count_error (by intro ph1 g1 _ hc; cases hc) (by simp [hs])
  | task_return ph g gate hg hs hok =>
    exact count_task_update _ _ ph g _ _ Event.evaluate_error (fun st => st = TaskStatus.failed)
      h.count_error (by intro ph1 g1 _ hc; cases hc) (by simp [hs])
  | task_error ph g gate hg hs hok =>
    exact count_task_update _ _ ph g _ _ Event.evaluate_error (fun st => st = TaskStatus.failed)
      h.count_error
      (by intro ph1 g1 he hc; injection hc with h1 h2; exact he ⟨h1.symm, h2.symm⟩)
      (by simp [hs])
  | task_count ph g gate hg hs =>
    exact count_task_update _ _ ph g _ _ Event.evaluate_error (fun st => st = TaskStatus.failed)
      h.count_error (by intro ph1 g1 _ hc; cases hc) (by simp [hs])

theorem step_count_inc (gates : List NewGate) (s s1 : ExecState) (h : Inv gates s)
    (hstep : StepRel gates s s1) :
    ∀ ph g, s1.trace.count (Event.counter_increment ph g) =
      if s1.tasks ph g = TaskStatus.finished then 1 else 0 := by
  cases hstep with
  | pre hpc =>
    intro ph g
    simp only [List.count_append, h.count_inc, List.count_singleton]
    simp
  | post_task ph i gate hpc hg hn =>
    exact count_post_update _ _ ph i _ Event.counter_increment
      (fun st => st = TaskStatus.finished) h.count_inc (by
        rw [h.idle_of ph i (by rw [hpc]; exact Or.inr ⟨rfl, Nat.le_refl i⟩)]
        decide)
  | post_skip ph i gate hpc hg hn => exact h.count_inc
  | post_end ph i hpc hg => exact h.count_inc
  | wait_error ph hpc he => exact h.count_inc
  | wait_setup hpc he hc => exact h.count_inc
  | wait_online hpc he hc => exact h.count_inc
  | join hpc => exact h.count_inc
  | task_start ph g gate hg hs =>
    exact count_task_update _ _ ph g _ _ Event.counter_increment
      (fun st => st = TaskStatus.finished)
      h.count_inc (by intro ph1 g1 _ hc; cases hc) (by simp [hs])
  | task_return ph g gate hg hs hok =>
    exact count_task_update _ _ ph g _ _ Event.counter_increment
      (fun st => st = TaskStatus.finished)
      h.count_inc (by intro ph1 g1 _ hc; cases hc) (by simp [hs])
  | task_error ph g gate hg hs hok =>
    exact count_task_update _ _ ph g _ _ Event.counter_increment
      (fun st => st = TaskStatus.finished)
      h.count_inc (by intro ph1 g1 _ hc; cases hc) (by simp [hs])
  | task_count ph g gate hg hs =>
    exact count_task_update _ _ ph g _ _ Event.counter_increment
      (fun st => st = TaskStatus.finished)
      h.count_inc
      (by intro ph1 g1 he hc; injection hc with h1 h2; exact he ⟨h1.symm, h2.symm⟩)
      (by simp [hs])

end MOTION

namespace MOTION

theorem step_order (gates : List NewGate) (s s1 : ExecState) (h : Inv gates s)
    (hstep : StepRel gates s s1) :
    ∀ g, s1.tasks Phase.setup g = TaskStatus.finished →
      List.Sublist
        [Event.evaluate_return Phase.setup g, Event.counter_increment Phase.setup g]
        s1.trace := by
  have htask : ∀ (ph : Phase) (g : Nat) (st : TaskStatus) (e : Event),
      st ≠ TaskStatus.finished →
      ∀ g1, setTask s.tasks ph g st Phase.setup g1 = TaskStatus.finished →
        List.Sublist
          [Event.evaluate_return Phase.setup g1, Event.counter_increment Phase.setup g1]
          (s.trace ++ [e]) := by
    intro ph g st e hst g1 hf
    by_cases he : Phase.setup = ph ∧ g1 = g
    · obtain ⟨rfl, rfl⟩ := he
      rw [setTask_same] at hf
      exact absurd hf hst
    · rw [setTask_other _ _ _ _ _ _ he] at hf
      exact (h.order g1 hf).trans (List.sublist_append_left _ _)
  cases hstep with
  | pre hpc =>
    intro g hf
    exact (h.order g hf).trans (List.sublist_append_left _ _)
  | post_task ph i gate hpc hg hn =>
    intro g1 hf
    by_cases he : Phase.setup = ph ∧ g1 = i
    · obtain ⟨rfl, rfl⟩ := he
      simp only [setTask_same] at hf
      cases hf
    · simp only [setTask_other _ _ _ _ _ _ he] at hf
      exact h.order g1 hf
  | post_skip ph i gate hpc hg hn => exact h.order
  | post_end ph i hpc hg => exact h.order
  | wait_error ph hpc he => exact h.order
  | wait_setup hpc he hc => exact h.order
  | wait_online hpc he hc => exact h.order
  | join hpc => exact h.order
  | task_start ph g gate hg hs => exact htask ph g _ _ (by decide)
  | task_return ph g gate hg hs hok => exact htask ph g _ _ (by decide)
  | task_error ph g gate hg hs hok => exact htask ph g _ _ (by decide)
  | task_count ph g gate hg hs =>
    intro g1 hf
    by_cases he : Phase.setup = ph ∧ g1 = g
    · obtain ⟨rfl, rfl⟩ := he
      have hcount := h.count_return Phase.setup g1
      rw [hs] at hcount
      have hmem : Event.evaluate_return Phase.setup g1 ∈ s.trace := by
        apply List.count_pos_iff.mp
        rw [hcount]
        decide
      have h1 : List.Sublist [Event.evaluate_return Phase.setup g1] s.trace :=
        List.singleton_sublist.mpr hmem
      exact List.Sublist.append h1 (List.Sublist.refl _)
    · simp only [setTask_other _ _ _ _ _ _ he] at hf
      exact (h.order g1 hf).trans (List.sublist_append_left _ _)

theorem step_split (gates : List NewGate) (s s1 : ExecState) (h : Inv gates s)
    (hstep : StepRel gates s s1) :
    ∀ t1 t2 g, s1.trace = t1 ++ Event.evaluate_start Phase.online g :: t2 →
      ∀ g1, needAt gates Phase.setup g1 = true →
        List.Sublist
          [Event.evaluate_return Phase.setup g1, Event.counter_increment Phase.setup g1]
          t1 := by
  have hother : ∀ (e : Event), (∀ g, e ≠ Event.evaluate_start Phase.online g) →
      ∀ t1 t2 g, s.trace ++ [e] = t1 ++ Event.evaluate_start Phase.online g :: t2 →
        ∀ g1, needAt gates Phase.setup g1 = true →
          List.Sublist
            [Event.evaluate_return Phase.setup g1, Event.counter_increment Phase.setup g1]
            t1 := by
    intro e he t1 t2 g heq g1 hg1
    rcases append_singleton_eq_split _ _ _ _ _ heq with ⟨_, h2, _⟩ | ⟨t3, _, h3⟩
    · exact absurd h2 (he g)
    · exact h.split t1 t3 g h3 g1 hg1
  cases hstep with
  | pre hpc => exact hother _ (by intro g hc; cases hc)
  | post_task ph i gate hpc hg hn => exact h.split
  | post_skip ph i gate hpc hg hn => exact h.split
  | post_end ph i hpc hg => exact h.split
  | wait_error ph hpc he => exact h.split
  | wait_setup hpc he hc => exact h.split
  | wait_online hpc he hc => exact h.split
  | join hpc => exact h.split
  | task_start ph g gate hg hs =>
    intro t1 t2 g0 heq g1 hg1
    rcases append_singleton_eq_split _ _ _ _ _ heq with ⟨_, h2, h3⟩ | ⟨t3, _, h3⟩
    · injection h2 with hph hgg
      subst hph
      subst h3
      exact h.order g1 (h.setup_done_task g (by rw [hs]; decide) g1 hg1)
    · exact h.split t1 t3 g0 h3 g1 hg1
  | task_return ph g gate hg hs hok => exact hother _ (by intro g hc; cases hc)
  | task_error ph g gate hg hs hok => exact hother _ (by intro g hc; cases hc)
  | task_count ph g gate hg hs => exact hother _ (by intro g hc; cases hc)

/-- Every step of the execution preserves the invariant. -/
theorem Inv_step (gates : List NewGate) (s s1 : ExecState) (h : Inv gates s)
    (hstep : StepRel gates s s1) : Inv gates s1 where
  idle_of := step_idle_of gates s s1 h hstep
  need_of := step_need_of gates s s1 h hstep
  setup_done_pc := step_setup_done_pc gates s s1 h hstep
  setup_done_task := step_setup_done_task gates s s1 h hstep
  online_done := step_online_done gates s s1 h hstep
  counter_eq := step_counter_eq gates s s1 h hstep
  error_of := step_error_of gates s s1 h hstep
  trace_nil := step_trace_nil gates s s1 h hstep
  trace_pre := step_trace_pre gates s s1 h hstep
  count_start := step_count_start gates s s1 h hstep
  count_return := step_count_return gates s s1 h hstep
  count_error := step_count_error gates s s1 h hstep
  count_inc := step_count_inc gates s s1 h hstep
  order := step_order gates s s1 h hstep
  split := step_split gates s s1 h hstep

theorem Inv_run (gates : List NewGate) (schedule : List Choice) :
    ∀ s, Inv gates s → Inv gates (run gates s schedule) := by
  induction schedule with
  | nil => intro s h; exact h
  | cons c cs ih =>
    intro s h
    simp only [run]
    cases hs : step gates s c with
    | none => exact ih s h
    | some s1 => exact ih s1 (Inv_step gates s s1 h (step_rel gates s s1 c hs))

/-- The invariant holds in every state of every execution. -/
theorem Inv_exec (gates : List NewGate) (schedule : List Choice) :
    Inv gates (evaluate_setup_online gates schedule) :=
  Inv_run gates schedule ExecState.init (Inv_init gates)

end MOTION

namespace MOTION

theorem step_increments (gates : List NewGate) (s s1 : ExecState)
    (h : ∀ ph, (s.trace.filter (isIncrement ph)).length = s.counter ph)
    (hstep : StepRel gates s s1) :
    ∀ ph, (s1.trace.filter (isIncrement ph)).length = s1.counter ph := by
  cases hstep with
  | pre hpc => intro ph; simpa [List.filter_append, isIncrement] using h ph
  | post_task ph i gate hpc hg hn => exact h
  | post_skip ph i gate hpc hg hn => exact h
  | post_end ph i hpc hg => exact h
  | wait_error ph hpc he => exact h
  | wait_setup hpc he hc => exact h
  | wait_online hpc he hc => exact h
  | join hpc => exact h
  | task_start ph g gate hg hs =>
    intro ph1; simpa [List.filter_append, isIncrement] using h ph1
  | task_return ph g gate hg hs hok =>
    intro ph1; simpa [List.filter_append, isIncrement] using h ph1
  | task_error ph g gate hg hs hok =>
    intro ph1; simpa [List.filter_append, isIncrement] using h ph1
  | task_count ph g gate hg hs =>
    intro ph1
    by_cases hph : ph1 = ph
    · subst hph
      simp [List.filter_append, isIncrement, incCounter, h ph1]
    · have hph2 : ¬ ph = ph1 := fun hc => hph hc.symm
      simp [List.filter_append, isIncrement, incCounter, hph, hph2, h ph1]

theorem run_increments (gates : List NewGate) (schedule : List Choice) :
    ∀ s, (∀ ph, (s.trace.filter (isIncrement ph)).length = s.counter ph) →
      ∀ ph, ((run gates s schedule).trace.filter (isIncrement ph)).length =
        (run gates s schedule).counter ph := by
  induction schedule with
  | nil => intro s h; exact h
  | cons c cs ih =>
    intro s h
    simp only [run]
    cases hs : step gates s c with
    | none => exact ih s h
    | some s1 => exact ih s1 (step_increments gates s s1 h (step_rel gates s s1 c hs))

theorem counter_at_return (gates : List NewGate) (s : ExecState) (h : Inv gates s)
    (ph : Phase)
    (hall : ∀ g, needAt gates ph g = true → s.tasks ph g = TaskStatus.finished) :
    s.counter ph = numNeeded gates ph := by
  rw [h.counter_eq ph, numNeeded_range]
  congr 1
  apply List.filter_congr
  intro g _
  cases hn : needAt gates ph g with
  | true => simp [hall g hn]
  | false =>
    have : s.tasks ph g = TaskStatus.idle := by
      by_contra hc
      rw [h.need_of ph g hc] at hn
      cases hn
    simp [this]

theorem count_at_return (gates : List NewGate) (s : ExecState) (h : Inv gates s)
    (ph : Phase)
    (hall : ∀ g, needAt gates ph g = true → s.tasks ph g = TaskStatus.finished) (g : Nat) :
    s.trace.count (Event.evaluate_start ph g) = (if needAt gates ph g then 1 else 0) ∧
    s.trace.count (Event.evaluate_return ph g) = (if needAt gates ph g then 1 else 0) ∧
    s.trace.count (Event.counter_increment ph g) = (if needAt gates ph g then 1 else 0) := by
  rw [h.count_start, h.count_return, h.count_inc]
  cases hn : needAt gates ph g with
  | true => simp [hall g hn, TaskStatus.started, TaskStatus.back]
  | false =>
    have : s.tasks ph g = TaskStatus.idle := by
      by_contra hc
      rw [h.need_of ph g hc] at hn
      cases hn
    simp [this, TaskStatus.started, TaskStatus.back]

/-- C8: for every gate list and every schedule, when `evaluate_setup_online` returns
normally, `evaluate_setup` has been called (and has returned) exactly once on each gate with
`need_setup` and never on another gate, `evaluate_online` exactly once on each gate with
`need_online` and never on another gate, and the number of increments of the setup counter
(online counter), as well as the counter itself, equals the number of gates with
`need_setup` (`need_online`). -/
theorem C8_each_gate_exactly_once (gates : List NewGate) (schedule : List Choice)
    (hret : (evaluate_setup_online gates schedule).pc = MainPc.returned) :
    (∀ ph g,
      (evaluate_setup_online gates schedule).trace.count (Event.evaluate_start ph g) =
        (if needAt gates ph g then 1 else 0) ∧
      (evaluate_setup_online gates schedule).trace.count (Event.evaluate_return ph g) =
        (if needAt gates ph g then 1 else 0) ∧
      (evaluate_setup_online gates schedule).trace.count (Event.counter_increment ph g) =
        (if needAt gates ph g then 1 else 0)) ∧
    (∀ ph, ((evaluate_setup_online gates schedule).trace.filter (isIncrement ph)).length =
      (gates.filter (fun gate => gate.need ph)).length) ∧
    (∀ ph, (evaluate_setup_online gates schedule).counter ph =
      (gates.filter (fun gate => gate.need ph)).length) := by
  have h := Inv_exec gates schedule
  have hall : ∀ ph g, needAt gates ph g = true →
      (evaluate_setup_online gates schedule).tasks ph g = TaskStatus.finished := by
    intro ph
    cases ph with
    | setup => exact h.setup_done_pc (by rw [hret]; trivial)
    | online => exact h.online_done (Or.inr hret)
  have hcnt : ∀ ph, (evaluate_setup_online gates schedule).counter ph = numNeeded gates ph :=
    fun ph => counter_at_return gates _ h ph (hall ph)
  refine ⟨fun ph g => count_at_return gates _ h ph (hall ph) g, ?_, hcnt⟩
  intro ph
  have := run_increments gates schedule ExecState.init (by intro ph; rfl) ph
  rw [show run gates ExecState.init schedule = evaluate_setup_online gates schedule from rfl] at this
  rw [this, hcnt ph]
  rfl

/-- The execution of `sampleGates` under `sampleSchedule` returns normally: an instance of C8. -/
theorem C8_each_gate_exactly_once_witness :
    (∀ ph g,
      (evaluate_setup_online sampleGates sampleSchedule).trace.count (Event.evaluate_start ph g) =
        (if needAt sampleGates ph g then 1 else 0) ∧
      (evaluate_setup_online sampleGates sampleSchedule).trace.count (Event.evaluate_return ph g) =
        (if needAt sampleGates ph g then 1 else 0) ∧
      (evaluate_setup_online sampleGates sampleSchedule).trace.count (Event.counter_increment ph g) =
        (if needAt sampleGates ph g then 1 else 0)) ∧
    (∀ ph, ((evaluate_setup_online sampleGates sampleSchedule).trace.filter (isIncrement ph)).length =
      (sampleGates.filter (fun gate => gate.need ph)).length) ∧
    (∀ ph, (evaluate_setup_online sampleGates sampleSchedule).counter ph =
      (sampleGates.filter (fun gate => gate.need ph)).length) :=
  C8_each_gate_exactly_once sampleGates sampleSchedule (by decide)

end MOTION

namespace MOTION

theorem failed_stable (gates : List NewGate) (s s1 : ExecState) (h : Inv gates s)
    (hstep : StepRel gates s s1) (ph : Phase) (g : Nat)
    (hf : s.tasks ph g = TaskStatus.failed) : s1.tasks ph g = TaskStatus.failed := by
  have htask : ∀ (ph1 : Phase) (g1 : Nat) (st : TaskStatus),
      s.tasks ph1 g1 ≠ TaskStatus.failed →
      setTask s.tasks ph1 g1 st ph g = TaskStatus.failed := by
    intro ph1 g1 st hne
    by_cases he : ph = ph1 ∧ g = g1
    · obtain ⟨rfl, rfl⟩ := he
      exact absurd hf hne
    · rw [setTask_other _ _ _ _ _ _ he]
      exact hf
  cases hstep with
  | pre hpc => exact hf
  | post_task ph1 i gate hpc hg hn =>
    exact htask ph1 i _ (by
      rw [h.idle_of ph1 i (by rw [hpc]; exact Or.inr ⟨rfl, Nat.le_refl i⟩)]; decide)
  | post_skip ph1 i gate hpc hg hn => exact hf
  | post_end ph1 i hpc hg => exact hf
  | wait_error ph1 hpc he => exact hf
  | wait_setup hpc he hc => exact hf
  | wait_online hpc he hc => exact hf
  | join hpc => exact hf
  | task_start ph1 g1 gate hg hs => exact htask ph1 g1 _ (by rw [hs]; decide)
  | task_return ph1 g1 gate hg hs hok => exact htask ph1 g1 _ (by rw [hs]; decide)
  | task_error ph1 g1 gate hg hs hok => exact htask ph1 g1 _ (by rw [hs]; decide)
  | task_count ph1 g1 gate hg hs => exact htask ph1 g1 _ (by rw [hs]; decide)

theorem not_online_of_failed (gates : List NewGate) (s : ExecState) (h : Inv gates s)
    (g : Nat) (hf : s.tasks Phase.setup g = TaskStatus.failed) : ¬ onlinePc s.pc := by
  intro ho
  have hn : needAt gates Phase.setup g = true :=
    h.need_of Phase.setup g (by rw [hf]; decide)
  have := h.setup_done_pc ho g hn
  rw [hf] at this
  cases this

theorem pc_of_failed (gates : List NewGate) (s : ExecState) (h : Inv gates s)
    (g : Nat) (hf : s.tasks Phase.setup g = TaskStatus.failed) :
    (∃ i, s.pc = MainPc.post Phase.setup i) ∨ s.pc = MainPc.wait Phase.setup ∨
      s.pc = MainPc.raised := by
  have hno := not_online_of_failed gates s h g hf
  have hpre := pc_of_active gates s h Phase.setup g (by rw [hf]; decide)
  cases hpc : s.pc with
  | preprocessing => exact absurd hpc hpre
  | post ph i =>
    cases ph with
    | setup => exact Or.inl ⟨i, rfl⟩
    | online => rw [hpc] at hno; exact absurd trivial hno
  | wait ph =>
    cases ph with
    | setup => exact Or.inr (Or.inl rfl)
    | online => rw [hpc] at hno; exact absurd trivial hno
  | join => rw [hpc] at hno; exact absurd trivial hno
  | returned => rw [hpc] at hno; exact absurd trivial hno
  | raised => exact Or.inr (Or.inr rfl)

theorem stepTask_pc (gates : List NewGate) (s s1 : ExecState) (ph : Phase) (g : Nat)
    (h : stepTask gates s ph g = some s1) : s1.pc = s.pc := by
  unfold stepTask at h
  split at h
  · cases h
  · split at h
    · simp only [Option.some.injEq] at h; rw [← h]
    · split at h
      · simp only [Option.some.injEq] at h; rw [← h]
      · simp only [Option.some.injEq] at h; rw [← h]
    · simp only [Option.some.injEq] at h; rw [← h]
    · cases h

theorem main_progress (gates : List NewGate) (s : ExecState) (h : Inv gates s)
    (g : Nat) (hf : s.tasks Phase.setup g = TaskStatus.failed) :
    (s.pc = MainPc.raised ∧ stepMain gates s = none) ∨
      ∃ s1, stepMain gates s = some s1 ∧
        mainStepsLeft gates.length s1.pc + 1 ≤ mainStepsLeft gates.length s.pc := by
  rcases pc_of_failed gates s h g hf with ⟨i, hpc⟩ | hpc | hpc
  · right
    cases hg : gates[i]? with
    | none =>
      refine ⟨{ s with pc := MainPc.wait Phase.setup }, by simp [stepMain, hpc, hg], ?_⟩
      rw [hpc]
      simp only [mainStepsLeft]
      omega
    | some gate =>
      have hlt : i < gates.length := by
        by_contra hc
        rw [List.getElem?_eq_none (by omega)] at hg
        cases hg
      cases hn : gate.need Phase.setup with
      | true =>
        refine ⟨{ s with pc := MainPc.post Phase.setup (i + 1)
                         tasks := setTask s.tasks Phase.setup i TaskStatus.posted },
          by simp [stepMain, hpc, hg, hn], ?_⟩
        rw [hpc]
        simp only [mainStepsLeft]
        omega
      | false =>
        refine ⟨{ s with pc := MainPc.post Phase.setup (i + 1) },
          by simp [stepMain, hpc, hg, hn], ?_⟩
        rw [hpc]
        simp only [mainStepsLeft]
        omega
  · right
    have he : s.error = true := h.error_of Phase.setup g hf
    refine ⟨{ s with pc := MainPc.raised }, by simp [stepMain, hpc, he], ?_⟩
    rw [hpc]
    simp [mainStepsLeft]
  · left
    exact ⟨hpc, by simp [stepMain, hpc]⟩

theorem raised_after_failure (gates : List NewGate) (g : Nat) (ext : List Choice) :
    ∀ s, Inv gates s → s.tasks Phase.setup g = TaskStatus.failed →
      mainStepsLeft gates.length s.pc ≤ ext.count Choice.main →
      (run gates s ext).pc = MainPc.raised := by
  induction ext with
  | nil =>
    intro s h hf hle
    simp only [List.count_nil, Nat.le_zero] at hle
    rcases main_progress gates s h g hf with ⟨hpc, _⟩ | ⟨s1, _, hlt⟩
    · exact hpc
    · omega
  | cons c cs ih =>
    intro s h hf hle
    cases c with
    | main =>
      simp only [List.count_cons_self] at hle
      simp only [run, step]
      rcases main_progress gates s h g hf with ⟨hpc, hnone⟩ | ⟨s1, hs1, hlt⟩
      · rw [hnone]
        apply ih s h hf
        rw [hpc]
        simp [mainStepsLeft]
      · rw [hs1]
        have hrel := stepMain_rel gates s s1 hs1
        exact ih s1 (Inv_step gates s s1 h hrel)
          (failed_stable gates s s1 h hrel Phase.setup g hf) (by omega)
    | task ph g1 =>
      have hcount : (Choice.task ph g1 :: cs).count Choice.main = cs.count Choice.main := by
        rw [List.count_cons]
        simp
      rw [hcount] at hle
      simp only [run, step]
      cases hs1 : stepTask gates s ph g1 with
      | none => exact ih s h hf hle
      | some s1 =>
        have hrel := stepTask_rel gates s s1 ph g1 hs1
        exact ih s1 (Inv_step gates s s1 h hrel)
          (failed_stable gates s s1 h hrel Phase.setup g hf)
          (by rw [stepTask_pc gates s s1 ph g1 hs1]; exact hle)

/-- C9: if in an execution the `evaluate_setup` of some gate has failed, then no gate's
`evaluate_online` has been started, `evaluate_setup_online` has not returned normally, and
however the execution goes on, the main thread is never blocked and leaves the function by
the error after at most `gates.length + 2` further steps of its own. -/
theorem C9_setup_failure_propagates (gates : List NewGate) (schedule : List Choice) (g : Nat)
    (hfail : Event.evaluate_error Phase.setup g ∈ (evaluate_setup_online gates schedule).trace) :
    (∀ g1, Event.evaluate_start Phase.online g1 ∉ (evaluate_setup_online gates schedule).trace) ∧
    (evaluate_setup_online gates schedule).pc ≠ MainPc.returned ∧
    (evaluate_setup_online gates schedule).error = true ∧
    (∀ ext, gates.length + 2 ≤ ext.count Choice.main →
      (run gates (evaluate_setup_online gates schedule) ext).pc = MainPc.raised ∧
      ∀ g1, Event.evaluate_start Phase.online g1 ∉
        (run gates (evaluate_setup_online gates schedule) ext).trace) := by
  have h := Inv_exec gates schedule
  have hstat : ∀ s, Inv gates s → s.trace.count (Event.evaluate_error Phase.setup g) ≠ 0 →
      s.tasks Phase.setup g = TaskStatus.failed := by
    intro s hs hc
    by_contra hne
    rw [hs.count_error, if_neg hne] at hc
    exact hc rfl
  have hf : (evaluate_setup_online gates schedule).tasks Phase.setup g = TaskStatus.failed :=
    hstat _ h (by
      have := List.count_pos_iff.mpr hfail
      omega)
  have hno : ∀ s, Inv gates s → s.tasks Phase.setup g = TaskStatus.failed →
      ∀ g1, Event.evaluate_start Phase.online g1 ∉ s.trace := by
    intro s hs hfs g1 hmem
    have hc := hs.count_start Phase.online g1
    have hpos := List.count_pos_iff.mpr hmem
    have hne : s.tasks Phase.online g1 ≠ TaskStatus.idle := by
      intro hi
      rw [hi] at hc
      simp [TaskStatus.started] at hc
      omega
    have hn : needAt gates Phase.setup g = true :=
      hs.need_of Phase.setup g (by rw [hfs]; decide)
    have := hs.setup_done_task g1 hne g hn
    rw [hfs] at this
    cases this
  refine ⟨hno _ h hf, ?_, h.error_of Phase.setup g hf, ?_⟩
  · intro hret
    exact not_online_of_failed gates _ h g hf (by rw [hret]; trivial)
  · intro ext hext
    have hle : mainStepsLeft gates.length (evaluate_setup_online gates schedule).pc ≤
        ext.count Choice.main := by
      rcases pc_of_failed gates _ h g hf with ⟨i, hpc⟩ | hpc | hpc <;>
        rw [hpc] <;> simp only [mainStepsLeft] <;> omega
    refine ⟨raised_after_failure gates g ext _ h hf hle, ?_⟩
    have hinv := Inv_run gates ext _ h
    have hfe : (run gates (evaluate_setup_online gates schedule) ext).tasks Phase.setup g =
        TaskStatus.failed := by
      clear hle hext
      have : ∀ (ext : List Choice) (s : ExecState), Inv gates s →
          s.tasks Phase.setup g = TaskStatus.failed →
          (run gates s ext).tasks Phase.setup g = TaskStatus.failed := by
        intro ext
        induction ext with
        | nil => intro s _ hs; exact hs
        | cons c cs ih =>
          intro s hs hfs
          simp only [run]
          cases hst : step gates s c with
          | none => exact ih s hs hfs
          | some s1 =>
            have hrel := step_rel gates s s1 c hst
            exact ih s1 (Inv_step gates s s1 hs hrel)
              (failed_stable gates s s1 hs hrel Phase.setup g hfs)
      exact this ext _ h hf
    exact hno _ hinv hfe

/-- The execution of `sampleFailingGates` under `sampleFailingSchedule`, in which the setup of
gate 1 fails: an instance of C9. -/
theorem C9_setup_failure_propagates_witness :
    (∀ g1, Event.evaluate_start Phase.online g1 ∉
      (evaluate_setup_online sampleFailingGates sampleFailingSchedule).trace) ∧
    (evaluate_setup_online sampleFailingGates sampleFailingSchedule).pc ≠ MainPc.returned ∧
    (evaluate_setup_online sampleFailingGates sampleFailingSchedule).error = true ∧
    (∀ ext, sampleFailingGates.length + 2 ≤ ext.count Choice.main →
      (run sampleFailingGates (evaluate_setup_online sampleFailingGates sampleFailingSchedule) ext).pc =
        MainPc.raised ∧
      ∀ g1, Event.evaluate_start Phase.online g1 ∉
        (run sampleFailingGates (evaluate_setup_online sampleFailingGates sampleFailingSchedule) ext).trace) :=
  C9_setup_failure_propagates sampleFailingGates sampleFailingSchedule 1 (by decide)

end MOTION

namespace MOTION.proto.gmw

theorem boolean_my_iff (p : GMWProvider) (input_owner num_wires num_simd : Nat) :
    (raisesWrongParty (make_boolean_input_gate_my p input_owner num_wires num_simd) ↔
      input_owner ≠ p.my_id) ∧
    (accepted (make_boolean_input_gate_my p input_owner num_wires num_simd) ↔
      input_owner = p.my_id) := by
  unfold make_boolean_input_gate_my
  by_cases h : input_owner = p.my_id
  · simp [h, raisesWrongParty, accepted, GateRegister.get_next_gate_id]
  · simp [h, raisesWrongParty, accepted]

theorem boolean_other_iff (p : GMWProvider) (input_owner num_wires num_simd : Nat) :
    (raisesWrongParty (make_boolean_input_gate_other p input_owner num_wires num_simd) ↔
      input_owner = p.my_id) ∧
    (accepted (make_boolean_input_gate_other p input_owner num_wires num_simd) ↔
      input_owner ≠ p.my_id) := by
  unfold make_boolean_input_gate_other
  by_cases h : input_owner = p.my_id
  · simp [h, raisesWrongParty, accepted]
  · simp [h, raisesWrongParty, accepted, GateRegister.get_next_gate_id]

theorem arithmetic_my_iff (bits : Nat) (p : GMWProvider) (input_owner num_simd : Nat) :
    (raisesWrongParty (basic_make_arithmetic_input_gate_my bits p input_owner num_simd) ↔
      input_owner ≠ p.my_id) ∧
    (accepted (basic_make_arithmetic_input_gate_my bits p input_owner num_simd) ↔
      input_owner = p.my_id) := by
  unfold basic_make_arithmetic_input_gate_my
  by_cases h : input_owner = p.my_id
  · simp [h, raisesWrongParty, accepted, GateRegister.get_next_gate_id]
  · simp [h, raisesWrongParty, accepted]

theorem arithmetic_other_iff (bits : Nat) (p : GMWProvider) (input_owner num_simd : Nat) :
    (raisesWrongParty (basic_make_arithmetic_input_gate_other bits p input_owner num_simd) ↔
      input_owner = p.my_id) ∧
    (accepted (basic_make_arithmetic_input_gate_other bits p input_owner num_simd) ↔
      input_owner ≠ p.my_id) := by
  unfold basic_make_arithmetic_input_gate_other
  by_cases h : input_owner = p.my_id
  · simp [h, raisesWrongParty, accepted]
  · simp [h, raisesWrongParty, accepted, GateRegister.get_next_gate_id]

/-- C10: for every provider (hence every `my_id`) and every `input_owner`, for the Boolean
input gates and for the arithmetic input gates of each width 8, 16, 32, 64, the `_my`
constructor raises the wrong-party error if and only if `input_owner != my_id`, the `_other`
constructor raises it if and only if `input_owner == my_id`, and exactly one of the two
constructors is accepted. -/
theorem C10_input_gate_role_check (p : GMWProvider) (input_owner num_wires num_simd : Nat) :
    ((raisesWrongParty (make_boolean_input_gate_my p input_owner num_wires num_simd) ↔
        input_owner ≠ p.my_id) ∧
      (raisesWrongParty (make_boolean_input_gate_other p input_owner num_wires num_simd) ↔
        input_owner = p.my_id) ∧
      (accepted (make_boolean_input_gate_my p input_owner num_wires num_simd) ↔
        ¬ accepted (make_boolean_input_gate_other p input_owner num_wires num_simd))) ∧
    ((raisesWrongParty (make_arithmetic_8_input_gate_my p input_owner num_simd) ↔
        input_owner ≠ p.my_id) ∧
      (raisesWrongParty (make_arithmetic_8_input_gate_other p input_owner num_simd) ↔
        input_owner = p.my_id) ∧
      (accepted (make_arithmetic_8_input_gate_my p input_owner num_simd) ↔
        ¬ accepted (make_arithmetic_8_input_gate_other p input_owner num_simd))) ∧
    ((raisesWrongParty (make_arithmetic_16_input_gate_my p input_owner num_simd) ↔
        input_owner ≠ p.my_id) ∧
      (raisesWrongParty (make_arithmetic_16_input_gate_other p input_owner num_simd) ↔
        input_owner = p.my_id) ∧
      (accepted (make_arithmetic_16_input_gate_my p input_owner num_simd) ↔
        ¬ accepted (make_arithmetic_16_input_gate_other p input_owner num_simd))) ∧
    ((raisesWrongParty (make_arithmetic_32_input_gate_my p input_owner num_simd) ↔
        input_owner ≠ p.my_id) ∧
      (raisesWrongParty (make_arithmetic_32_input_gate_other p input_owner num_simd) ↔
        input_owner = p.my_id) ∧
      (accepted (make_arithmetic_32_input_gate_my p input_owner num_simd) ↔
        ¬ accepted (make_arithmetic_32_input_gate_other p input_owner num_simd))) ∧
    ((raisesWrongParty (make_arithmetic_64_input_gate_my p input_owner num_simd) ↔
        input_owner ≠ p.my_id) ∧
      (raisesWrongParty (make_arithmetic_64_input_gate_other p input_owner num_simd) ↔
        input_owner = p.my_id) ∧
      (accepted (make_arithmetic_64_input_gate_my p input_owner num_simd) ↔
        ¬ accepted (make_arithmetic_64_input_gate_other p input_owner num_simd))) := by
  have hb1 := boolean_my_iff p input_owner num_wires num_simd
  have hb2 := boolean_other_iff p input_owner num_wires num_simd
  have ha1 := fun bits => arithmetic_my_iff bits p input_owner num_simd
  have ha2 := fun bits => arithmetic_other_iff bits p input_owner num_simd
  refine ⟨⟨hb1.1, hb2.1, ?_⟩, ⟨(ha1 8).1, (ha2 8).1, ?_⟩, ⟨(ha1 16).1, (ha2 16).1, ?_⟩,
    ⟨(ha1 32).1, (ha2 32).1, ?_⟩, ⟨(ha1 64).1, (ha2 64).1, ?_⟩⟩
  · rw [hb1.2, hb2.2]; simp
  · unfold make_arithmetic_8_input_gate_my make_arithmetic_8_input_gate_other
    rw [(ha1 8).2, (ha2 8).2]; simp
  · unfold make_arithmetic_16_input_gate_my make_arithmetic_16_input_gate_other
    rw [(ha1 16).2, (ha2 16).2]; simp
  · unfold make_arithmetic_32_input_gate_my make_arithmetic_32_input_gate_other
    rw [(ha1 32).2, (ha2 32).2]; simp
  · unfold make_arithmetic_64_input_gate_my make_arithmetic_64_input_gate_other
    rw [(ha1 64).2, (ha2 64).2]; simp

end MOTION.proto.gmw

namespace MOTION.proto.gmw

theorem append_head_ne (a b s t : String) (x y : Char) (ha : a.data.head? = some x)
    (hb : b.data.head? = some y) (hxy : x ≠ y) : a ++ s ≠ b ++ t := by
  intro h
  have h2 := congrArg (fun z => z.data.head?) h
  simp only [String.data_append] at h2
  cases ha1 : a.data with
  | nil => simp [ha1] at ha
  | cons c cs =>
    cases hb1 : b.data with
    | nil => simp [hb1] at hb
    | cons d ds =>
      simp [ha1, hb1] at h2 ha hb
      exact hxy (by rw [← ha, ← hb, h2])

theorem boolean_output_my_role (p : GMWProvider) (output_owner : Nat) (in_a : List NewWire) :
    ((make_boolean_output_gate_my p output_owner in_a).2 =
        Result.error output_gate_wrong_party ↔
      (output_owner ≠ ALL_PARTIES ∧ output_owner ≠ p.my_id)) ∧
    ((output_owner ≠ ALL_PARTIES ∧ output_owner ≠ p.my_id) →
      make_boolean_output_gate_my p output_owner in_a =
        (p, Result.error output_gate_wrong_party)) := by
  unfold make_boolean_output_gate_my
  by_cases h : output_owner ≠ ALL_PARTIES ∧ output_owner ≠ p.my_id
  · simp [h]
  · simp only [h, if_false, GateRegister.get_next_gate_id]
    simp

theorem boolean_output_other_role (p : GMWProvider) (output_owner : Nat)
    (in_a : List NewWire) :
    ((make_boolean_output_gate_other p output_owner in_a).2 =
        Result.error output_gate_wrong_party ↔
      (output_owner = ALL_PARTIES ∨ output_owner = p.my_id)) ∧
    ((output_owner = ALL_PARTIES ∨ output_owner = p.my_id) →
      make_boolean_output_gate_other p output_owner in_a =
        (p, Result.error output_gate_wrong_party)) := by
  unfold make_boolean_output_gate_other
  by_cases h : output_owner = ALL_PARTIES ∨ output_owner = p.my_id
  · simp [h]
  · simp only [h, if_false, GateRegister.get_next_gate_id]
    simp

theorem arithmetic_output_my_role (bits : Nat) (p : GMWProvider) (output_owner : Nat)
    (in_a : List NewWire) :
    ((basic_make_arithmetic_output_gate_my bits p output_owner in_a).2 =
        Result.error output_gate_wrong_party ↔
      (output_owner ≠ ALL_PARTIES ∧ output_owner ≠ p.my_id)) ∧
    ((output_owner ≠ ALL_PARTIES ∧ output_owner ≠ p.my_id) →
      basic_make_arithmetic_output_gate_my bits p output_owner in_a =
        (p, Result.error output_gate_wrong_party)) := by
  unfold basic_make_arithmetic_output_gate_my
  have hne : invalid_number_of_wires ≠ output_gate_wrong_party := by decide
  by_cases h : output_owner ≠ ALL_PARTIES ∧ output_owner ≠ p.my_id
  · simp [h]
  · simp only [h, if_false, GateRegister.get_next_gate_id]
    rcases in_a with _ | ⟨w, _ | ⟨w2, ws⟩⟩
    · simp [hne]
    · cases hc : cast_arith_wire bits w <;> simp [hc]
    · simp [hne]

theorem arithmetic_output_other_role (p : GMWProvider) (output_owner : Nat)
    (in_a : List NewWire) :
    ((make_arithmetic_output_gate_other p output_owner in_a).2 =
        Result.error output_gate_wrong_party ↔
      (output_owner = ALL_PARTIES ∨ output_owner = p.my_id)) ∧
    ((output_owner = ALL_PARTIES ∨ output_owner = p.my_id) →
      make_arithmetic_output_gate_other p output_owner in_a =
        (p, Result.error output_gate_wrong_party)) := by
  unfold make_arithmetic_output_gate_other
  have hne : invalid_number_of_wires ≠ output_gate_wrong_party := by decide
  have hne2 : unsupported_bit_size ≠ output_gate_wrong_party := by decide
  by_cases h : output_owner = ALL_PARTIES ∨ output_owner = p.my_id
  · simp [h]
  · simp only [h, if_false, GateRegister.get_next_gate_id]
    rcases in_a with _ | ⟨w, _ | ⟨w2, ws⟩⟩
    · simp [hne]
    · simp only [outputGateForBitSize]
      split_ifs
      · generalize cast_arith_wire 8 w = cw; cases cw <;> simp
      · generalize cast_arith_wire 16 w = cw; cases cw <;> simp
      · generalize cast_arith_wire 32 w = cw; cases cw <;> simp
      · generalize cast_arith_wire 64 w = cw; cases cw <;> simp
      · simp [hne2]
    · simp [hne]

/-- C11: for every provider (hence every `my_id`), every `output_owner` and every wire
vector, `make_boolean_output_gate_my` and `make_arithmetic_{8,16,32,64}_output_gate_my`
raise the wrong-party error if and only if `output_owner` is neither `ALL_PARTIES` nor
`my_id`, and `make_boolean_output_gate_other` and `make_arithmetic_output_gate_other` raise
it if and only if `output_owner` is `ALL_PARTIES` or `my_id`; when the role check fails the
call ends with that error whatever the wires are and leaves the provider, hence the gate
register and its id counter, unchanged. -/
theorem C11_output_gate_role_check (p : GMWProvider) (output_owner : Nat)
    (in_a : List NewWire) :
    (((make_boolean_output_gate_my p output_owner in_a).2 =
          Result.error output_gate_wrong_party ↔
        (output_owner ≠ ALL_PARTIES ∧ output_owner ≠ p.my_id)) ∧
      ((output_owner ≠ ALL_PARTIES ∧ output_owner ≠ p.my_id) →
        make_boolean_output_gate_my p output_owner in_a =
          (p, Result.error output_gate_wrong_party))) ∧
    (((make_arithmetic_8_output_gate_my p output_owner in_a).2 =
          Result.error output_gate_wrong_party ↔
        (output_owner ≠ ALL_PARTIES ∧ output_owner ≠ p.my_id)) ∧
      ((output_owner ≠ ALL_PARTIES ∧ output_owner ≠ p.my_id) →
        make_arithmetic_8_output_gate_my p output_owner in_a =
          (p, Result.error output_gate_wrong_party))) ∧
    (((make_arithmetic_16_output_gate_my p output_owner in_a).2 =
          Result.error output_gate_wrong_party ↔
        (output_owner ≠ ALL_PARTIES ∧ output_owner ≠ p.my_id)) ∧
      ((output_owner ≠ ALL_PARTIES ∧ output_owner ≠ p.my_id) →
        make_arithmetic_16_output_gate_my p output_owner in_a =
          (p, Result.error output_gate_wrong_party))) ∧
    (((make_arithmetic_32_output_gate_my p output_owner in_a).2 =
          Result.error output_gate_wrong_party ↔
        (output_owner ≠ ALL_PARTIES ∧ output_owner ≠ p.my_id)) ∧
      ((output_owner ≠ ALL_PARTIES ∧ output_owner ≠ p.my_id) →
        make_arithmetic_32_output_gate_my p output_owner in_a =
          (p, Result.error output_gate_wrong_party))) ∧
    (((make_arithmetic_64_output_gate_my p output_owner in_a).2 =
          Result.error output_gate_wrong_party ↔
        (output_owner ≠ ALL_PARTIES ∧ output_owner ≠ p.my_id)) ∧
      ((output_owner ≠ ALL_PARTIES ∧ output_owner ≠ p.my_id) →
        make_arithmetic_64_output_gate_my p output_owner in_a =
          (p, Result.error output_gate_wrong_party))) ∧
    (((make_boolean_output_gate_other p output_owner in_a).2 =
          Result.error output_gate_wrong_party ↔
        (output_owner = ALL_PARTIES ∨ output_owner = p.my_id)) ∧
      ((output_owner = ALL_PARTIES ∨ output_owner = p.my_id) →
        make_boolean_output_gate_other p output_owner in_a =
          (p, Result.error output_gate_wrong_party))) ∧
    (((make_arithmetic_output_gate_other p output_owner in_a).2 =
          Result.error output_gate_wrong_party ↔
        (output_owner = ALL_PARTIES ∨ output_owner = p.my_id)) ∧
      ((output_owner = ALL_PARTIES ∨ output_owner = p.my_id) →
        make_arithmetic_output_gate_other p output_owner in_a =
          (p, Result.error output_gate_wrong_party))) :=
  ⟨boolean_output_my_role p output_owner in_a,
    arithmetic_output_my_role 8 p output_owner in_a,
    arithmetic_output_my_role 16 p output_owner in_a,
    arithmetic_output_my_role 32 p output_owner in_a,
    arithmetic_output_my_role 64 p output_owner in_a,
    boolean_output_other_role p output_owner in_a,
    arithmetic_output_other_role p output_owner in_a⟩


theorem cast_arith_wire_self (w : NewWire) :
    cast_arith_wire w.get_bit_size w =
      if w.get_protocol = MPCProtocol.ArithmeticGMW then some w else none := by
  cases w <;> simp [cast_arith_wire, NewWire.get_bit_size, NewWire.get_protocol]

theorem binary_T (B : Nat → NewWire → NewWire → GateKind) (bits : Nat) (p : GMWProvider)
    (a b : NewWire) (ha : a.get_bit_size = bits) (hb : b.get_bit_size = bits) :
    make_arithmetic_binary_gate_T B bits p a b =
      if a.get_protocol = MPCProtocol.ArithmeticGMW ∧
          b.get_protocol = MPCProtocol.ArithmeticGMW then
        ({ p with gate_register :=
            ⟨p.gate_register.next_gate_id + 1,
              p.gate_register.gates ++ [⟨p.gate_register.next_gate_id, B bits a b⟩]⟩ },
          Result.ok [arithmeticOutputWire p.gate_register.next_gate_id bits a.get_num_simd])
      else
        ({ p with gate_register := ⟨p.gate_register.next_gate_id + 1, p.gate_register.gates⟩ },
          Result.fault) := by
  have hca := cast_arith_wire_self a
  have hcb := cast_arith_wire_self b
  rw [ha] at hca
  rw [hb] at hcb
  unfold make_arithmetic_binary_gate_T
  rw [hca, hcb]
  by_cases h1 : a.get_protocol = MPCProtocol.ArithmeticGMW <;>
    by_cases h2 : b.get_protocol = MPCProtocol.ArithmeticGMW <;>
    simp [h1, h2, GateRegister.get_next_gate_id, GateRegister.register_gate]

theorem binary_single (B : Nat → NewWire → NewWire → GateKind) (p : GMWProvider)
    (a b : NewWire) :
    make_arithmetic_binary_gate B p [a] [b] =
      if a.get_bit_size ≠ b.get_bit_size then (p, Result.error different_bit_sizes)
      else if a.get_bit_size = 8 ∨ a.get_bit_size = 16 ∨ a.get_bit_size = 32 ∨
          a.get_bit_size = 64 then
        if a.get_protocol = MPCProtocol.ArithmeticGMW ∧
            b.get_protocol = MPCProtocol.ArithmeticGMW then
          ({ p with gate_register :=
              ⟨p.gate_register.next_gate_id + 1,
                p.gate_register.gates ++
                  [⟨p.gate_register.next_gate_id, B a.get_bit_size a b⟩]⟩ },
            Result.ok [arithmeticOutputWire p.gate_register.next_gate_id a.get_bit_size
              a.get_num_simd])
        else
          ({ p with gate_register :=
              ⟨p.gate_register.next_gate_id + 1, p.gate_register.gates⟩ },
            Result.fault)
      else (p, Result.error (unexpected_bit_size a.get_bit_size)) := by
  unfold make_arithmetic_binary_gate check_arithmetic_wires
  by_cases hne : a.get_bit_size ≠ b.get_bit_size
  · simp [hne]
  · have heq : a.get_bit_size = b.get_bit_size := not_not.mp hne
    simp only [hne, if_false]
    by_cases h8 : a.get_bit_size = 8
    · rw [if_pos h8, if_pos (Or.inl h8), binary_T B 8 p a b h8 (heq ▸ h8), h8]
    by_cases h16 : a.get_bit_size = 16
    · rw [if_neg h8, if_pos h16, if_pos (Or.inr (Or.inl h16)),
        binary_T B 16 p a b h16 (heq ▸ h16), h16]
    by_cases h32 : a.get_bit_size = 32
    · rw [if_neg h8, if_neg h16, if_pos h32, if_pos (Or.inr (Or.inr (Or.inl h32))),
        binary_T B 32 p a b h32 (heq ▸ h32), h32]
    by_cases h64 : a.get_bit_size = 64
    · rw [if_neg h8, if_neg h16, if_neg h32, if_pos h64,
        if_pos (Or.inr (Or.inr (Or.inr h64))), binary_T B 64 p a b h64 (heq ▸ h64), h64]
    simp [h8, h16, h32, h64]

theorem binary_not_single (B : Nat → NewWire → NewWire → GateKind) (p : GMWProvider)
    (in_a in_b : List NewWire) (h : in_a.length ≠ 1 ∨ in_b.length ≠ 1) :
    make_arithmetic_binary_gate B p in_a in_b = (p, Result.error single_wires_only) := by
  unfold make_arithmetic_binary_gate check_arithmetic_wires
  rcases in_a with _ | ⟨a, _ | ⟨a2, ta⟩⟩ <;> rcases in_b with _ | ⟨b, _ | ⟨b2, tb⟩⟩ <;>
    simp at h ⊢


theorem unary_T (U : Nat → NewWire → GateKind) (bits : Nat) (p : GMWProvider)
    (a : NewWire) (ha : a.get_bit_size = bits) :
    make_arithmetic_unary_gate_T U bits p a =
      if a.get_protocol = MPCProtocol.ArithmeticGMW then
        ({ p with gate_register :=
            ⟨p.gate_register.next_gate_id + 1,
              p.gate_register.gates ++ [⟨p.gate_register.next_gate_id, U bits a⟩]⟩ },
          Result.ok [arithmeticOutputWire p.gate_register.next_gate_id bits a.get_num_simd])
      else
        ({ p with gate_register := ⟨p.gate_register.next_gate_id + 1, p.gate_register.gates⟩ },
          Result.fault) := by
  have hca := cast_arith_wire_self a
  rw [ha] at hca
  unfold make_arithmetic_unary_gate_T
  rw [hca]
  by_cases h1 : a.get_protocol = MPCProtocol.ArithmeticGMW <;>
    simp [h1, GateRegister.get_next_gate_id, GateRegister.register_gate]

theorem unary_single (U : Nat → NewWire → GateKind) (p : GMWProvider) (a : NewWire) :
    make_arithmetic_unary_gate U p [a] =
      if a.get_bit_size = 8 ∨ a.get_bit_size = 16 ∨ a.get_bit_size = 32 ∨
          a.get_bit_size = 64 then
        if a.get_protocol = MPCProtocol.ArithmeticGMW then
          ({ p with gate_register :=
              ⟨p.gate_register.next_gate_id + 1,
                p.gate_register.gates ++
                  [⟨p.gate_register.next_gate_id, U a.get_bit_size a⟩]⟩ },
            Result.ok [arithmeticOutputWire p.gate_register.next_gate_id a.get_bit_size
              a.get_num_simd])
        else
          ({ p with gate_register :=
              ⟨p.gate_register.next_gate_id + 1, p.gate_register.gates⟩ },
            Result.fault)
      else (p, Result.error (unexpected_bit_size a.get_bit_size)) := by
  unfold make_arithmetic_unary_gate check_arithmetic_wire
  simp only []
  by_cases h8 : a.get_bit_size = 8
  · rw [if_pos h8, if_pos (Or.inl h8), unary_T U 8 p a h8, h8]
  by_cases h16 : a.get_bit_size = 16
  · rw [if_neg h8, if_pos h16, if_pos (Or.inr (Or.inl h16)), unary_T U 16 p a h16, h16]
  by_cases h32 : a.get_bit_size = 32
  · rw [if_neg h8, if_neg h16, if_pos h32, if_pos (Or.inr (Or.inr (Or.inl h32))),
      unary_T U 32 p a h32, h32]
  by_cases h64 : a.get_bit_size = 64
  · rw [if_neg h8, if_neg h16, if_neg h32, if_pos h64,
      if_pos (Or.inr (Or.inr (Or.inr h64))), unary_T U 64 p a h64, h64]
  simp [h8, h16, h32, h64]

theorem unary_not_single (U : Nat → NewWire → GateKind) (p : GMWProvider)
    (in_a : List NewWire) (h : in_a.length ≠ 1) :
    make_arithmetic_unary_gate U p in_a = (p, Result.error single_wires_only) := by
  unfold make_arithmetic_unary_gate check_arithmetic_wire
  rcases in_a with _ | ⟨a, _ | ⟨a2, ta⟩⟩ <;> simp at h ⊢

theorem single_ne_unary (op : PrimitiveOperationType) :
    single_wires_only ≠ unsupported_unary_operation op := by
  cases op <;> decide

theorem single_ne_binary (op : PrimitiveOperationType) :
    single_wires_only ≠ unsupported_binary_operation op := by
  cases op <;> decide

theorem different_ne_binary (op : PrimitiveOperationType) :
    different_bit_sizes ≠ unsupported_binary_operation op := by
  cases op <;> decide

theorem unexpected_ne_unary (n : Nat) (op : PrimitiveOperationType) :
    unexpected_bit_size n ≠ unsupported_unary_operation op :=
  append_head_ne _ _ _ _ 'u' 'G' (by decide) (by decide) (by decide)

theorem unexpected_ne_binary (n : Nat) (op : PrimitiveOperationType) :
    unexpected_bit_size n ≠ unsupported_binary_operation op :=
  append_head_ne _ _ _ _ 'u' 'G' (by decide) (by decide) (by decide)

theorem unary_never_unsupported (U : Nat → NewWire → GateKind) (p : GMWProvider)
    (in_a : List NewWire) (op : PrimitiveOperationType) :
    (make_arithmetic_unary_gate U p in_a).2 ≠
      Result.error (unsupported_unary_operation op) := by
  by_cases h : in_a.length = 1
  · obtain ⟨a, rfl⟩ := List.length_eq_one.mp h
    rw [unary_single]
    split_ifs
    · simp
    · simp
    · simp [unexpected_ne_unary]
  · rw [unary_not_single U p in_a h]
    simp [single_ne_unary]

theorem binary_never_unsupported (B : Nat → NewWire → NewWire → GateKind)
    (p : GMWProvider) (in_a in_b : List NewWire) (op : PrimitiveOperationType) :
    (make_arithmetic_binary_gate B p in_a in_b).2 ≠
      Result.error (unsupported_binary_operation op) := by
  by_cases h : in_a.length = 1 ∧ in_b.length = 1
  · obtain ⟨a, rfl⟩ := List.length_eq_one.mp h.1
    obtain ⟨b, rfl⟩ := List.length_eq_one.mp h.2
    rw [binary_single]
    split_ifs
    · simp [different_ne_binary]
    · simp
    · simp
    · simp [unexpected_ne_binary]
  · rw [binary_not_single B p in_a in_b (by tauto)]
    simp [single_ne_binary]

/-- C12: `make_unary_gate(op, in)` raises the unsupported-operation error if and only if
`op` is none of `INV`, `NEG`, `SQR`, and then leaves the provider unchanged; for these three
operations it is the call of `make_inv_gate`, `make_neg_gate`, `make_sqr_gate`.
`make_binary_gate(op, a, b)` raises the unsupported-operation error if and only if `op` is
none of `XOR`, `AND`, `ADD`, `MUL`, and then leaves the provider unchanged; for these four
operations it is the call of `make_xor_gate`, `make_and_gate`, `make_add_gate`,
`make_mul_gate`. -/
theorem C12_unary_binary_dispatch (p : GMWProvider) (op : PrimitiveOperationType)
    (in_a in_b : List NewWire) :
    (((make_unary_gate p op in_a).2 = Result.error (unsupported_unary_operation op) ↔
        (op ≠ PrimitiveOperationType.INV ∧ op ≠ PrimitiveOperationType.NEG ∧
          op ≠ PrimitiveOperationType.SQR)) ∧
      ((op ≠ PrimitiveOperationType.INV ∧ op ≠ PrimitiveOperationType.NEG ∧
          op ≠ PrimitiveOperationType.SQR) →
        make_unary_gate p op in_a = (p, Result.error (unsupported_unary_operation op))) ∧
      make_unary_gate p PrimitiveOperationType.INV in_a = make_inv_gate p in_a ∧
      make_unary_gate p PrimitiveOperationType.NEG in_a = make_neg_gate p in_a ∧
      make_unary_gate p PrimitiveOperationType.SQR in_a = make_sqr_gate p in_a) ∧
    (((make_binary_gate p op in_a in_b).2 = Result.error (unsupported_binary_operation op) ↔
        (op ≠ PrimitiveOperationType.XOR ∧ op ≠ PrimitiveOperationType.AND ∧
          op ≠ PrimitiveOperationType.ADD ∧ op ≠ PrimitiveOperationType.MUL)) ∧
      ((op ≠ PrimitiveOperationType.XOR ∧ op ≠ PrimitiveOperationType.AND ∧
          op ≠ PrimitiveOperationType.ADD ∧ op ≠ PrimitiveOperationType.MUL) →
        make_binary_gate p op in_a in_b =
          (p, Result.error (unsupported_binary_operation op))) ∧
      make_binary_gate p PrimitiveOperationType.XOR in_a in_b = make_xor_gate p in_a in_b ∧
      make_binary_gate p PrimitiveOperationType.AND in_a in_b = make_and_gate p in_a in_b ∧
      make_binary_gate p PrimitiveOperationType.ADD in_a in_b = make_add_gate p in_a in_b ∧
      make_binary_gate p PrimitiveOperationType.MUL in_a in_b =
        make_mul_gate p in_a in_b) := by
  have hneg := unary_never_unsupported GateKind.ArithmeticGMWNEGGate p in_a
    PrimitiveOperationType.NEG
  have hsqr := unary_never_unsupported GateKind.ArithmeticGMWSQRGate p in_a
    PrimitiveOperationType.SQR
  have hadd := binary_never_unsupported GateKind.ArithmeticGMWADDGate p in_a in_b
    PrimitiveOperationType.ADD
  have hmul := binary_never_unsupported GateKind.ArithmeticGMWMULGate p in_a in_b
    PrimitiveOperationType.MUL
  refine ⟨⟨?_, ?_, rfl, rfl, rfl⟩, ⟨?_, ?_, rfl, rfl, rfl, rfl⟩⟩
  · cases op <;>
      simp [make_unary_gate, make_inv_gate, make_neg_gate, make_sqr_gate,
        GateRegister.get_next_gate_id, hneg, hsqr]
  · cases op <;> simp [make_unary_gate]
  · cases op <;>
      simp [make_binary_gate, make_xor_gate, make_and_gate, make_add_gate, make_mul_gate,
        GateRegister.get_next_gate_id, hadd, hmul]
  · cases op <;> simp [make_binary_gate]

/-- C13 (amended): the GMW provider has no SUB gate. For every provider and all inputs,
among them two single Arithmetic-GMW wires of the same width 8, 16, 32 or 64,
`make_binary_gate(SUB, a, b)` raises the unsupported-operation error, returns no wire and
leaves the provider unchanged: no gate id is taken and no gate is registered. -/
theorem C13_sub_is_unsupported (p : GMWProvider) (in_a in_b : List NewWire) :
    make_binary_gate p PrimitiveOperationType.SUB in_a in_b =
      (p, Result.error (unsupported_binary_operation PrimitiveOperationType.SUB)) := by
  rfl

/-- C13 (counterexample): on two single 64-bit Arithmetic-GMW wires
`make_binary_gate(SUB, a, b)` does not succeed; it raises the error
"GMW does not support the binary operation SUB". -/
theorem C13_sub_gate_counterexample :
    (make_binary_gate sampleProvider PrimitiveOperationType.SUB [sampleWire64 0]
        [sampleWire64 1]).2.isOk = false ∧
      (make_binary_gate sampleProvider PrimitiveOperationType.SUB [sampleWire64 0]
        [sampleWire64 1]).2 = Result.error "GMW does not support the binary operation SUB" := by
  decide

end MOTION.proto.gmw

namespace MOTION.proto.gmw

theorem cast_wires_boolean (in_a : List NewWire)
    (h : ∀ w ∈ in_a, w.get_protocol = MPCProtocol.BooleanGMW) :
    cast_wires in_a = in_a.map some := by
  unfold cast_wires
  apply List.map_congr_left
  intro w hw
  have := h w hw
  cases w <;> first | rfl | simp [NewWire.get_protocol] at this

theorem cast_wires_length (in_a : List NewWire) : (cast_wires in_a).length = in_a.length := by
  simp [cast_wires]

theorem convert_gate_no_fault (q : GMWProvider) (input : List (Option NewWire)) :
    (make_convert_to_arithmetic_gmw_gate q input).2 ≠ Result.fault := by
  unfold make_convert_to_arithmetic_gmw_gate basic_make_convert_to_arithmetic_gmw_gate
  simp only [GateRegister.get_next_gate_id]
  split_ifs <;> simp_all

theorem convert_gate_supported (q : GMWProvider) (input : List (Option NewWire))
    (hk : input.length = 8 ∨ input.length = 16 ∨ input.length = 32 ∨ input.length = 64) :
    make_convert_to_arithmetic_gmw_gate q input =
      ({ q with gate_register :=
          ⟨q.gate_register.next_gate_id + 1,
            q.gate_register.gates ++
              [⟨q.gate_register.next_gate_id,
                GateKind.BooleanToArithmeticGMWGate input.length input⟩]⟩ },
        Result.ok [NewWire.ArithmeticGMWWire input.length (numSimdOf input)
          q.gate_register.next_gate_id]) := by
  unfold make_convert_to_arithmetic_gmw_gate basic_make_convert_to_arithmetic_gmw_gate
  simp only [GateRegister.get_next_gate_id, GateRegister.register_gate, arithmeticOutputWire]
  rcases hk with h | h | h | h <;> simp [h]

theorem convert_gate_unsupported (q : GMWProvider) (input : List (Option NewWire))
    (hk : ¬ (input.length = 8 ∨ input.length = 16 ∨ input.length = 32 ∨ input.length = 64)) :
    make_convert_to_arithmetic_gmw_gate q input =
      (q, Result.error (unsupported_conversion_bit_size input.length)) := by
  unfold make_convert_to_arithmetic_gmw_gate
  simp only [not_or] at hk
  simp [hk.1, hk.2.1, hk.2.2.1, hk.2.2.2]

theorem convert_of_boolean_head (p : GMWProvider) (proto : MPCProtocol) (w : NewWire)
    (rest : List NewWire) (hw : w.get_protocol = MPCProtocol.BooleanGMW) :
    convert p proto (w :: rest) = convert_boolean p proto (w :: rest) := by
  cases w <;> first
    | simp [NewWire.get_protocol] at hw; done
    | simp [convert, cast_wires, NewWire.get_protocol]

theorem convert_of_other_head (p : GMWProvider) (proto : MPCProtocol) (w : NewWire)
    (rest : List NewWire) (hw : w.get_protocol ≠ MPCProtocol.BooleanGMW) :
    convert p proto (w :: rest) = (p, Result.fault) := by
  cases w <;> first
    | simp [NewWire.get_protocol] at hw; done
    | simp [convert, cast_wires]

/-- C15: for every provider and every vector of `k` Boolean-GMW wires with `k` one of 8, 16,
32, 64, `convert(ArithmeticGMW, in)` returns: it takes the next gate id, registers exactly
one gate, the Boolean-to-arithmetic conversion gate for the `k`-bit integer type over the
`k` input wires, and returns exactly one wire, the Arithmetic-GMW wire of `k` bits of that
gate. The assertion `num_wires == bit_size_v<T>` never fails, whatever wires
`make_convert_to_arithmetic_gmw_gate` is called with. -/
theorem C15_boolean_to_arithmetic_conversion (p : GMWProvider) (in_a : List NewWire)
    (hbool : ∀ w ∈ in_a, w.get_protocol = MPCProtocol.BooleanGMW)
    (hk : in_a.length = 8 ∨ in_a.length = 16 ∨ in_a.length = 32 ∨ in_a.length = 64) :
    convert p MPCProtocol.ArithmeticGMW in_a =
        ({ p with gate_register :=
            ⟨p.gate_register.next_gate_id + 1,
              p.gate_register.gates ++
                [⟨p.gate_register.next_gate_id,
                  GateKind.BooleanToArithmeticGMWGate in_a.length (in_a.map some)⟩]⟩ },
          Result.ok [NewWire.ArithmeticGMWWire in_a.length (numSimdOf (in_a.map some))
            p.gate_register.next_gate_id]) ∧
      (∀ (q : GMWProvider) (input : List (Option NewWire)),
        (make_convert_to_arithmetic_gmw_gate q input).2 ≠ Result.fault) := by
  refine ⟨?_, convert_gate_no_fault⟩
  cases in_a with
  | nil => simp at hk
  | cons w rest =>
    rw [convert_of_boolean_head p _ w rest (hbool w (List.mem_cons_self _ _))]
    unfold convert_boolean
    simp only [cast_wires_boolean _ hbool]
    rw [convert_gate_supported p _ (by simpa using hk)]
    simp

/-- C15 (witness): eight Boolean-GMW wires on a fresh provider. -/
theorem C15_boolean_to_arithmetic_conversion_witness :
    (∀ w ∈ sampleBooleanWires, w.get_protocol = MPCProtocol.BooleanGMW) ∧
      (sampleBooleanWires.length = 8 ∨ sampleBooleanWires.length = 16 ∨
        sampleBooleanWires.length = 32 ∨ sampleBooleanWires.length = 64) ∧
      (convert sampleProvider MPCProtocol.ArithmeticGMW sampleBooleanWires =
          ({ sampleProvider with gate_register :=
              ⟨sampleProvider.gate_register.next_gate_id + 1,
                sampleProvider.gate_register.gates ++
                  [⟨sampleProvider.gate_register.next_gate_id,
                    GateKind.BooleanToArithmeticGMWGate sampleBooleanWires.length
                      (sampleBooleanWires.map some)⟩]⟩ },
            Result.ok [NewWire.ArithmeticGMWWire sampleBooleanWires.length
              (numSimdOf (sampleBooleanWires.map some))
              sampleProvider.gate_register.next_gate_id]) ∧
        (∀ (q : GMWProvider) (input : List (Option NewWire)),
          (make_convert_to_arithmetic_gmw_gate q input).2 ≠ Result.fault)) :=
  ⟨by decide, by decide,
    C15_boolean_to_arithmetic_conversion sampleProvider sampleBooleanWires (by decide)
      (by decide)⟩

/-- C16 (the code): `convert(proto, in)` casts the wires to `BooleanGMWWire` before it reads
the protocol of the first one. When the first wire is not a Boolean-GMW wire, the cast
yields a null pointer and the call has no defined outcome: it raises neither the error
"not yet implemented" nor "expected GMW protocol", nor any other. When the first wire is a
Boolean-GMW wire and `proto` is not `ArithmeticGMW`, the call raises the
unsupported-conversion error; when `proto` is `ArithmeticGMW` and the number of wires is
none of 8, 16, 32, 64, it raises the unsupported-bit-size error. In all three cases the
provider is unchanged: no gate id is taken and no gate is registered. -/
theorem C16_unsupported_conversions (p : GMWProvider) (proto : MPCProtocol) (w : NewWire)
    (rest : List NewWire) :
    (w.get_protocol ≠ MPCProtocol.BooleanGMW →
      convert p proto (w :: rest) = (p, Result.fault)) ∧
    (w.get_protocol = MPCProtocol.BooleanGMW → proto ≠ MPCProtocol.ArithmeticGMW →
      convert p proto (w :: rest) = (p, Result.error (unsupported_conversion proto))) ∧
    (w.get_protocol = MPCProtocol.BooleanGMW →
      ¬ ((w :: rest).length = 8 ∨ (w :: rest).length = 16 ∨ (w :: rest).length = 32 ∨
        (w :: rest).length = 64) →
      convert p MPCProtocol.ArithmeticGMW (w :: rest) =
        (p, Result.error (unsupported_conversion_bit_size (w :: rest).length))) := by
  refine ⟨convert_of_other_head p proto w rest, ?_, ?_⟩
  · intro hw hp
    rw [convert_of_boolean_head p _ w rest hw]
    cases proto <;> simp [convert_boolean] at hp ⊢
  · intro hw hk
    rw [convert_of_boolean_head p _ w rest hw]
    unfold convert_boolean
    simp only []
    rw [convert_gate_unsupported p _ (by simpa [cast_wires_length] using hk)]
    simp [cast_wires_length]

/-- C17 (counterexample): for a 64-bit Arithmetic-GMW shared value `x`,
`convert(BooleanGMW, x)` does not succeed: it returns no wires and registers no gate. -/
theorem C17_round_trip_counterexample :
    (convert sampleProvider MPCProtocol.BooleanGMW [sampleWire64 0]).2.isOk = false ∧
      (convert sampleProvider MPCProtocol.BooleanGMW [sampleWire64 0]).1 = sampleProvider := by
  decide

/-- C17 (amended): the GMW provider has no conversion from Arithmetic-GMW. For every
provider, every target protocol and every wire vector whose first wire is an Arithmetic-GMW
wire of any width, `convert` does not succeed, returns no wire and leaves the provider
unchanged, so the inner conversion of the round trip cannot be formed; conversion exists in
the direction Boolean-GMW to Arithmetic-GMW only. -/
theorem C17_no_conversion_from_arithmetic (p : GMWProvider) (proto : MPCProtocol)
    (bits num_simd gate_id : Nat) (rest : List NewWire) :
    (convert p proto (NewWire.ArithmeticGMWWire bits num_simd gate_id :: rest)).2.isOk = false ∧
      (convert p proto (NewWire.ArithmeticGMWWire bits num_simd gate_id :: rest)).1 = p ∧
      (∀ q target in_a ws,
        (convert q target in_a).2 = Result.ok ws →
          target = MPCProtocol.ArithmeticGMW ∧
            ∃ w tail, in_a = w :: tail ∧ w.get_protocol = MPCProtocol.BooleanGMW) := by
  refine ⟨?_, ?_, ?_⟩
  · rw [convert_of_other_head p proto _ rest (by simp [NewWire.get_protocol])]
    rfl
  · rw [convert_of_other_head p proto _ rest (by simp [NewWire.get_protocol])]
  · intro q target in_a ws h
    cases in_a with
    | nil => simp [convert, cast_wires] at h
    | cons w tail =>
      by_cases hw : w.get_protocol = MPCProtocol.BooleanGMW
      · refine ⟨?_, w, tail, rfl, hw⟩
        rw [convert_of_boolean_head q _ w tail hw] at h
        cases target <;> simp [convert_boolean] at h ⊢
      · rw [convert_of_other_head q _ w tail hw] at h
        simp at h

/-- C18: for every gate id `g` and every party count `n ≥ 1`, a party with an id below `n`
has the job for `g` if and only if its id is `g mod n`; `g mod n` is such an id, so exactly
one party has the job. With two parties, for every gate exactly one of party 0 and party 1
has the job. -/
theorem C18_is_my_job_unique (n g : Nat) (hn : 1 ≤ n) :
    (∀ p : GMWProvider, p.num_parties = n → p.my_id < n →
      (is_my_job p g = some true ↔ p.my_id = g % n)) ∧
    (∀ p : GMWProvider, p.num_parties = n → is_my_job p g = some (p.my_id == g % n)) ∧
    (∃! q, q < n ∧ ∀ p : GMWProvider, p.num_parties = n → p.my_id = q →
      is_my_job p g = some true) ∧
    (∀ p0 p1 : GMWProvider, p0.num_parties = 2 → p1.num_parties = 2 → p0.my_id = 0 →
      p1.my_id = 1 →
      (is_my_job p0 g = some true ∧ is_my_job p1 g = some false) ∨
        (is_my_job p0 g = some false ∧ is_my_job p1 g = some true)) := by
  have hn0 : n ≠ 0 := by omega
  have hjob : ∀ p : GMWProvider, p.num_parties = n →
      is_my_job p g = some (p.my_id == g % n) := by
    intro p hp
    simp [is_my_job, hp, hn0]
  refine ⟨?_, hjob, ?_, ?_⟩
  · intro p hp _
    rw [hjob p hp]
    simp
  · refine ⟨g % n, ⟨Nat.mod_lt _ (by omega), ?_⟩, ?_⟩
    · intro p hp hq
      rw [hjob p hp]
      simp [hq]
    · rintro q ⟨_, hq⟩
      have := hq ⟨q, n, ⟨0, []⟩, 0⟩ rfl rfl
      rw [hjob _ rfl] at this
      simpa using this
  · intro p0 p1 h0 h1 hi0 hi1
    simp only [is_my_job, h0, h1, hi0, hi1]
    rcases Nat.mod_two_eq_zero_or_one g with h | h <;> simp [h]

/-- C18 (witness): two parties and gate 5, which is the job of party 1. -/
theorem C18_is_my_job_unique_witness :
    1 ≤ 2 ∧ is_my_job (GMWProvider.new 1 2) 5 = some true ∧
      is_my_job (GMWProvider.new 0 2) 5 = some false :=
  ⟨by decide,
    ((C18_is_my_job_unique 2 5 (by decide)).1 (GMWProvider.new 1 2) rfl (by decide)).mpr
      (by decide),
    by decide⟩

theorem providerAfter_some {α : Type} (r : GMWProvider × Result α) (q1 : GMWProvider)
    (h : providerAfter r = some q1) : ∃ v, r = (q1, Result.ok v) := by
  rcases r with ⟨p, v | e | _⟩
  · simp only [providerAfter, Option.some.injEq] at h
    exact ⟨v, by rw [h]⟩
  · simp [providerAfter] at h
  · simp [providerAfter] at h

theorem unary_took_one (U : Nat → NewWire → GateKind) (q q1 : GMWProvider)
    (in_a : List NewWire) (v : List NewWire)
    (h : make_arithmetic_unary_gate U q in_a = (q1, Result.ok v)) :
    q1.gate_register.next_gate_id = q.gate_register.next_gate_id + 1 ∧
      ∃ kind, q1.gate_register.gates =
        q.gate_register.gates ++ [⟨q.gate_register.next_gate_id, kind⟩] := by
  by_cases hl : in_a.length = 1
  · obtain ⟨a, rfl⟩ := List.length_eq_one.mp hl
    rw [unary_single] at h
    split_ifs at h
    · simp only [Prod.mk.injEq] at h
      rw [← h.1]
      exact ⟨rfl, _, rfl⟩
    · simp at h
    · simp at h
  · rw [unary_not_single U q in_a hl] at h
    simp at h

theorem binary_took_one (B : Nat → NewWire → NewWire → GateKind) (q q1 : GMWProvider)
    (in_a in_b : List NewWire) (v : List NewWire)
    (h : make_arithmetic_binary_gate B q in_a in_b = (q1, Result.ok v)) :
    q1.gate_register.next_gate_id = q.gate_register.next_gate_id + 1 ∧
      ∃ kind, q1.gate_register.gates =
        q.gate_register.gates ++ [⟨q.gate_register.next_gate_id, kind⟩] := by
  by_cases hl : in_a.length = 1 ∧ in_b.length = 1
  · obtain ⟨a, rfl⟩ := List.length_eq_one.mp hl.1
    obtain ⟨b, rfl⟩ := List.length_eq_one.mp hl.2
    rw [binary_single] at h
    split_ifs at h
    · simp at h
    · simp only [Prod.mk.injEq] at h
      rw [← h.1]
      exact ⟨rfl, _, rfl⟩
    · simp at h
    · simp at h
  · rw [binary_not_single B q in_a in_b (by tauto)] at h
    simp at h

theorem convert_took_one (q q1 : GMWProvider) (proto : MPCProtocol) (in_a : List NewWire)
    (v : List NewWire) (h : convert q proto in_a = (q1, Result.ok v)) :
    q1.gate_register.next_gate_id = q.gate_register.next_gate_id + 1 ∧
      ∃ kind, q1.gate_register.gates =
        q.gate_register.gates ++ [⟨q.gate_register.next_gate_id, kind⟩] := by
  cases in_a with
  | nil => simp [convert, cast_wires] at h
  | cons w tail =>
    by_cases hw : w.get_protocol = MPCProtocol.BooleanGMW
    · rw [convert_of_boolean_head q _ w tail hw] at h
      cases proto <;> simp only [convert_boolean] at h
      · by_cases hk : (cast_wires (w :: tail)).length = 8 ∨
            (cast_wires (w :: tail)).length = 16 ∨ (cast_wires (w :: tail)).length = 32 ∨
            (cast_wires (w :: tail)).length = 64
        · rw [convert_gate_supported q _ hk] at h
          simp only [Prod.mk.injEq] at h
          rw [← h.1]
          exact ⟨rfl, _, rfl⟩
        · rw [convert_gate_unsupported q _ hk] at h
          simp at h
      all_goals simp at h
    · rw [convert_of_other_head q _ w tail hw] at h
      simp at h

theorem run_took_one (call : FactoryCall) (q q1 : GMWProvider) (h : call.run q = some q1) :
    q1.gate_register.next_gate_id = q.gate_register.next_gate_id + 1 ∧
      ∃ kind, q1.gate_register.gates =
        q.gate_register.gates ++ [⟨q.gate_register.next_gate_id, kind⟩] := by
  cases call with
  | boolean_input_gate_my input_owner num_wires num_simd =>
    simp only [FactoryCall.run, make_boolean_input_gate_my, GateRegister.get_next_gate_id,
      GateRegister.register_gate] at h
    split_ifs at h
    · simp [providerAfterInput] at h
    · simp only [providerAfterInput, Option.some.injEq] at h
      rw [← h]
      exact ⟨rfl, _, rfl⟩
  | boolean_input_gate_other input_owner num_wires num_simd =>
    simp only [FactoryCall.run, make_boolean_input_gate_other, GateRegister.get_next_gate_id,
      GateRegister.register_gate] at h
    split_ifs at h
    · simp [providerAfterInput] at h
    · simp only [providerAfterInput, Option.some.injEq] at h
      rw [← h]
      exact ⟨rfl, _, rfl⟩
  | arithmetic_input_gate_my bits input_owner num_simd =>
    simp only [FactoryCall.run, basic_make_arithmetic_input_gate_my,
      GateRegister.get_next_gate_id, GateRegister.register_gate] at h
    split_ifs at h
    · simp [providerAfterInput] at h
    · simp only [providerAfterInput, Option.some.injEq] at h
      rw [← h]
      exact ⟨rfl, _, rfl⟩
  | arithmetic_input_gate_other bits input_owner num_simd =>
    simp only [FactoryCall.run, basic_make_arithmetic_input_gate_other,
      GateRegister.get_next_gate_id, GateRegister.register_gate] at h
    split_ifs at h
    · simp [providerAfterInput] at h
    · simp only [providerAfterInput, Option.some.injEq] at h
      rw [← h]
      exact ⟨rfl, _, rfl⟩
  | boolean_output_gate_my output_owner in_a =>
    simp only [FactoryCall.run, make_boolean_output_gate_my, GateRegister.get_next_gate_id,
      GateRegister.register_gate] at h
    split_ifs at h
    · simp [providerAfter] at h
    · simp only [providerAfter, Option.some.injEq] at h
      rw [← h]
      exact ⟨rfl, _, rfl⟩
  | boolean_output_gate_other output_owner in_a =>
    simp only [FactoryCall.run, make_boolean_output_gate_other, GateRegister.get_next_gate_id,
      GateRegister.register_gate] at h
    split_ifs at h
    · simp [providerAfter] at h
    · simp only [providerAfter, Option.some.injEq] at h
      rw [← h]
      exact ⟨rfl, _, rfl⟩
  | arithmetic_output_gate_my bits output_owner in_a =>
    simp only [FactoryCall.run, basic_make_arithmetic_output_gate_my,
      GateRegister.get_next_gate_id, GateRegister.register_gate] at h
    split_ifs at h
    · simp [providerAfter] at h
    · rcases in_a with _ | ⟨w, _ | ⟨w2, ws⟩⟩
      · simp [providerAfter] at h
      · cases hc : cast_arith_wire bits w with
        | none => simp [hc, providerAfter] at h
        | some input =>
          simp only [hc, providerAfter, Option.some.injEq] at h
          rw [← h]
          exact ⟨rfl, _, rfl⟩
      · simp [providerAfter] at h
  | arithmetic_output_gate_other output_owner in_a =>
    simp only [FactoryCall.run, make_arithmetic_output_gate_other,
      GateRegister.get_next_gate_id, GateRegister.register_gate] at h
    split_ifs at h
    · simp [providerAfter] at h
    · rcases in_a with _ | ⟨w, _ | ⟨w2, ws⟩⟩
      · simp [providerAfter] at h
      · cases hc : outputGateForBitSize q.gate_register.next_gate_id output_owner w with
        | none => simp [hc, providerAfter] at h
        | some r =>
          cases r with
          | error e => simp [hc, providerAfter] at h
          | ok gate =>
            simp only [hc, providerAfter, Option.some.injEq] at h
            rw [← h]
            refine ⟨rfl, gate.kind, ?_⟩
            have hid : gate.gate_id = q.gate_register.next_gate_id := by
              unfold outputGateForBitSize at hc
              split_ifs at hc
              all_goals first
                | (simp only [Option.map_eq_some'] at hc
                   obtain ⟨_, _, hc⟩ := hc
                   simp only [Option.some.injEq, Except.ok.injEq] at hc
                   rw [← hc])
                | simp at hc
            simp only [← hid]
      · simp [providerAfter] at h
  | unary_gate op in_a =>
    obtain ⟨v, hv⟩ := providerAfter_some _ _ h
    cases op
    case INV =>
      simp only [make_unary_gate, make_inv_gate, GateRegister.get_next_gate_id,
        GateRegister.register_gate, Prod.mk.injEq] at hv
      rw [← hv.1]
      exact ⟨rfl, _, rfl⟩
    case NEG => exact unary_took_one _ q q1 in_a v hv
    case SQR => exact unary_took_one _ q q1 in_a v hv
    all_goals simp [make_unary_gate] at hv
  | binary_gate op in_a in_b =>
    obtain ⟨v, hv⟩ := providerAfter_some _ _ h
    cases op
    case XOR =>
      simp only [make_binary_gate, make_xor_gate, GateRegister.get_next_gate_id,
        GateRegister.register_gate, Prod.mk.injEq] at hv
      rw [← hv.1]
      exact ⟨rfl, _, rfl⟩
    case AND =>
      simp only [make_binary_gate, make_and_gate, GateRegister.get_next_gate_id,
        GateRegister.register_gate, Prod.mk.injEq] at hv
      rw [← hv.1]
      exact ⟨rfl, _, rfl⟩
    case ADD => exact binary_took_one _ q q1 in_a in_b v hv
    case MUL => exact binary_took_one _ q q1 in_a in_b v hv
    all_goals simp [make_binary_gate] at hv
  | convert proto in_a =>
    obtain ⟨v, hv⟩ := providerAfter_some _ _ h
    exact convert_took_one q q1 proto in_a v hv

theorem runCalls_ids (calls : List FactoryCall) :
    ∀ p p1 : GMWProvider, runCalls p calls = some p1 →
      p1.gate_register.next_gate_id = p.gate_register.next_gate_id + calls.length ∧
        p1.gate_register.gates.length = p.gate_register.gates.length + calls.length ∧
        p1.gate_register.ids =
          p.gate_register.ids ++ List.range' p.gate_register.next_gate_id calls.length := by
  induction calls with
  | nil =>
    intro p p1 h
    simp only [runCalls, Option.some.injEq] at h
    subst h
    simp
  | cons call calls ih =>
    intro p p1 h
    simp only [runCalls] at h
    cases hr : call.run p with
    | none => simp [hr] at h
    | some q =>
      simp only [hr] at h
      obtain ⟨h1, h2, h3⟩ := ih q p1 h
      obtain ⟨hq1, kind, hq2⟩ := run_took_one call p q hr
      refine ⟨?_, ?_, ?_⟩
      · rw [h1, hq1, List.length_cons]; omega
      · rw [h2, hq2]; simp; omega
      · rw [h3, hq1]
        simp only [GateRegister.ids, hq2, List.map_append, List.map_cons, List.map_nil,
          List.length_cons, List.range'_succ, List.append_assoc, List.singleton_append]

/-- C19: every successful factory call (input, output, unary, binary or conversion gate)
takes exactly one id from the gate register and registers exactly one gate, which carries
that id. Hence after a sequence of successful calls the counter has advanced by the number
of calls, the ids of the gates registered by the calls are the consecutive ids from the
counter at the start on, in creation order, and on a register that was empty at the start
(or held gates with strictly increasing ids below the counter) the ids of all registered
gates are strictly increasing in creation order. -/
theorem C19_gate_id_discipline (p p1 : GMWProvider) (calls : List FactoryCall)
    (h : runCalls p calls = some p1) :
    (∀ (call : FactoryCall) (q q1 : GMWProvider), call.run q = some q1 →
      q1.gate_register.next_gate_id = q.gate_register.next_gate_id + 1 ∧
        ∃ kind, q1.gate_register.gates =
          q.gate_register.gates ++ [⟨q.gate_register.next_gate_id, kind⟩]) ∧
    p1.gate_register.next_gate_id = p.gate_register.next_gate_id + calls.length ∧
    p1.gate_register.gates.length = p.gate_register.gates.length + calls.length ∧
    p1.gate_register.ids =
      p.gate_register.ids ++ List.range' p.gate_register.next_gate_id calls.length ∧
    (p.gate_register.ids.Pairwise (fun i j => i < j) →
      (∀ i ∈ p.gate_register.ids, i < p.gate_register.next_gate_id) →
      p1.gate_register.ids.Pairwise (fun i j => i < j)) ∧
    (p.gate_register.gates = [] → p1.gate_register.ids.Pairwise (fun i j => i < j)) := by
  obtain ⟨h1, h2, h3⟩ := runCalls_ids calls p p1 h
  have hpw : p.gate_register.ids.Pairwise (fun i j => i < j) →
      (∀ i ∈ p.gate_register.ids, i < p.gate_register.next_gate_id) →
      p1.gate_register.ids.Pairwise (fun i j => i < j) := by
    intro hs hlt
    rw [h3, List.pairwise_append]
    refine ⟨hs, ?_, ?_⟩
    · exact List.pairwise_lt_range' _ _
    · intro i hi j hj
      have := hlt i hi
      have hj2 := (List.mem_range'_1.mp hj).1
      omega
  refine ⟨run_took_one, h1, h2, h3, hpw, ?_⟩
  intro he
  apply hpw <;> simp [GateRegister.ids, he]

/-- C19 (witness): the four calls that build the addition circuit on a fresh provider
register the gates 0, 1, 2, 3. -/
theorem C19_gate_id_discipline_witness :
    runCalls sampleProvider sampleCalls = some sampleAfterCalls ∧
      sampleAfterCalls.gate_register.ids = [0, 1, 2, 3] ∧
      sampleAfterCalls.gate_register.next_gate_id = 4 ∧
      sampleAfterCalls.gate_register.ids.Pairwise (fun i j => i < j) :=
  ⟨by decide, by decide, by decide,
    (C19_gate_id_discipline sampleProvider sampleAfterCalls sampleCalls
      (by decide)).2.2.2.2.2 rfl⟩

end MOTION.proto.gmw

namespace MOTION.proto.gmw

theorem ending_error {α : Type} (r : GMWProvider × Result α) (what : String)
    (h : (ending r).2 = Result.error what) :
    r.2 = Result.error what ∧ (ending r).1 = r.1 := by
  rcases r with ⟨p, v | e | _⟩ <;> simp_all [ending]

theorem endingInput_error {α : Type} (p : GMWProvider) (r : Except String (GMWProvider × α))
    (what : String) (h : (endingInput p r).2 = Result.error what) :
    (endingInput p r).1 = p := by
  rcases r with e | ⟨p1, v⟩ <;> simp_all [endingInput]

theorem unary_error_atomic (U : Nat → NewWire → GateKind) (p : GMWProvider)
    (in_a : List NewWire) (what : String)
    (h : (make_arithmetic_unary_gate U p in_a).2 = Result.error what) :
    (make_arithmetic_unary_gate U p in_a).1 = p := by
  by_cases hl : in_a.length = 1
  · obtain ⟨a, rfl⟩ := List.length_eq_one.mp hl
    rw [unary_single] at h ⊢
    split_ifs at h ⊢
    all_goals rfl
  · rw [unary_not_single U p in_a hl]

theorem binary_error_atomic (B : Nat → NewWire → NewWire → GateKind) (p : GMWProvider)
    (in_a in_b : List NewWire) (what : String)
    (h : (make_arithmetic_binary_gate B p in_a in_b).2 = Result.error what) :
    (make_arithmetic_binary_gate B p in_a in_b).1 = p := by
  by_cases hl : in_a.length = 1 ∧ in_b.length = 1
  · obtain ⟨a, rfl⟩ := List.length_eq_one.mp hl.1
    obtain ⟨b, rfl⟩ := List.length_eq_one.mp hl.2
    rw [binary_single] at h ⊢
    split_ifs at h ⊢
    all_goals rfl
  · rw [binary_not_single B p in_a in_b (by tauto)]

theorem convert_error_atomic (p : GMWProvider) (proto : MPCProtocol) (in_a : List NewWire)
    (what : String) (h : (convert p proto in_a).2 = Result.error what) :
    (convert p proto in_a).1 = p := by
  cases in_a with
  | nil => simp [convert, cast_wires] at h
  | cons w tail =>
    by_cases hw : w.get_protocol = MPCProtocol.BooleanGMW
    · rw [convert_of_boolean_head p _ w tail hw] at h ⊢
      cases proto <;> simp only [convert_boolean] at h ⊢
      by_cases hk : (cast_wires (w :: tail)).length = 8 ∨
          (cast_wires (w :: tail)).length = 16 ∨ (cast_wires (w :: tail)).length = 32 ∨
          (cast_wires (w :: tail)).length = 64
      · rw [convert_gate_supported p _ hk] at h
        simp at h
      · rw [convert_gate_unsupported p _ hk]
    · rw [convert_of_other_head p _ w tail hw]

theorem outputGateForBitSize_error (gate_id output_owner : Nat) (w : NewWire)
    (what : String)
    (h : outputGateForBitSize gate_id output_owner w = some (Except.error what)) :
    what = unsupported_bit_size ∧
      ¬ (w.get_bit_size = 8 ∨ w.get_bit_size = 16 ∨ w.get_bit_size = 32 ∨
        w.get_bit_size = 64) := by
  unfold outputGateForBitSize at h
  split_ifs at h with h8 h16 h32 h64
  · generalize cast_arith_wire 8 w = cw at h; cases cw <;> simp at h
  · generalize cast_arith_wire 16 w = cw at h; cases cw <;> simp at h
  · generalize cast_arith_wire 32 w = cw at h; cases cw <;> simp at h
  · generalize cast_arith_wire 64 w = cw at h; cases cw <;> simp at h
  · simp only [Option.some.injEq, Except.error.injEq] at h
    exact ⟨h.symm, by tauto⟩

theorem outputGateForBitSize_unsupported (gate_id output_owner : Nat) (w : NewWire)
    (h : ¬ (w.get_bit_size = 8 ∨ w.get_bit_size = 16 ∨ w.get_bit_size = 32 ∨
      w.get_bit_size = 64)) :
    outputGateForBitSize gate_id output_owner w = some (Except.error unsupported_bit_size) := by
  unfold outputGateForBitSize
  simp only [not_or] at h
  simp [h.1, h.2.1, h.2.2.1, h.2.2.2]

/-- C30 (the code): a factory call that ends with an error leaves the provider unchanged,
so that no gate id is taken and no gate is registered, with one exception:
`make_arithmetic_output_gate_other` takes the gate id before it switches on the bit size of
the wire. Called for another party's output with a single wire whose bit size is none of 8,
16, 32, 64 (a Boolean-GMW wire, of bit size 1), it raises the error "unsupprted bit size"
after the counter of the register has been incremented and without a gate being registered:
one id more has been handed out than gates are registered. -/
theorem C30_failed_call_register_effect (p : GMWProvider) :
    (∀ (call : FactoryCall) (what : String), (call.call p).2 = Result.error what →
      (call.call p).1 = p ∨
        (∃ output_owner w,
          call = FactoryCall.arithmetic_output_gate_other output_owner [w] ∧
            what = unsupported_bit_size ∧
            (call.call p).1 = { p with gate_register :=
              ⟨p.gate_register.next_gate_id + 1, p.gate_register.gates⟩ })) ∧
    (∀ (output_owner : Nat) (w : NewWire), output_owner ≠ ALL_PARTIES →
      output_owner ≠ p.my_id →
      ¬ (w.get_bit_size = 8 ∨ w.get_bit_size = 16 ∨ w.get_bit_size = 32 ∨
        w.get_bit_size = 64) →
      (FactoryCall.arithmetic_output_gate_other output_owner [w]).call p =
        ({ p with gate_register :=
            ⟨p.gate_register.next_gate_id + 1, p.gate_register.gates⟩ },
          Result.error unsupported_bit_size)) ∧
    (FactoryCall.arithmetic_output_gate_other 1 [NewWire.BooleanGMWWire 1 0]).call
        sampleUsedProvider =
      ({ sampleUsedProvider with gate_register := ⟨6, sampleUsedProvider.gate_register.gates⟩ },
        Result.error "unsupprted bit size") ∧
    sampleUsedProvider.gate_register.next_gate_id = 5 ∧
    sampleUsedProvider.gate_register.gates.length = 5 := by
  refine ⟨?_, ?_, by decide, rfl, rfl⟩
  · intro call what h
    cases call with
    | boolean_input_gate_my input_owner num_wires num_simd =>
      exact Or.inl (endingInput_error p _ what h)
    | boolean_input_gate_other input_owner num_wires num_simd =>
      exact Or.inl (endingInput_error p _ what h)
    | arithmetic_input_gate_my bits input_owner num_simd =>
      exact Or.inl (endingInput_error p _ what h)
    | arithmetic_input_gate_other bits input_owner num_simd =>
      exact Or.inl (endingInput_error p _ what h)
    | boolean_output_gate_my output_owner in_a =>
      left
      obtain ⟨h1, h2⟩ := ending_error _ what h
      simp only [FactoryCall.call, h2]
      unfold make_boolean_output_gate_my at h1 ⊢
      split_ifs at h1 ⊢
      all_goals rfl
    | boolean_output_gate_other output_owner in_a =>
      left
      obtain ⟨h1, h2⟩ := ending_error _ what h
      simp only [FactoryCall.call, h2]
      unfold make_boolean_output_gate_other at h1 ⊢
      split_ifs at h1 ⊢
      all_goals rfl
    | arithmetic_output_gate_my bits output_owner in_a =>
      left
      obtain ⟨h1, h2⟩ := ending_error _ what h
      simp only [FactoryCall.call, h2]
      unfold basic_make_arithmetic_output_gate_my at h1 ⊢
      split_ifs at h1 ⊢
      · rfl
      · rcases in_a with _ | ⟨w, _ | ⟨w2, ws⟩⟩
        · rfl
        · cases hc : cast_arith_wire bits w with
          | none => simp [hc]
          | some input => simp [hc, GateRegister.get_next_gate_id] at h1
        · rfl
    | arithmetic_output_gate_other output_owner in_a =>
      obtain ⟨h1, h2⟩ := ending_error _ what h
      simp only [FactoryCall.call, h2]
      unfold make_arithmetic_output_gate_other at h1 ⊢
      split_ifs at h1 ⊢
      · exact Or.inl rfl
      · rcases in_a with _ | ⟨w, _ | ⟨w2, ws⟩⟩
        · exact Or.inl rfl
        · right
          simp only [GateRegister.get_next_gate_id] at h1 ⊢
          cases hc : outputGateForBitSize p.gate_register.next_gate_id output_owner w with
          | none => simp [hc] at h1
          | some r =>
            cases r with
            | error e =>
              simp only [hc, Result.error.injEq] at h1
              subst h1
              exact ⟨output_owner, w, rfl, (outputGateForBitSize_error _ _ _ _ hc).1, rfl⟩
            | ok gate => simp [hc] at h1
        · exact Or.inl rfl
    | unary_gate op in_a =>
      left
      obtain ⟨h1, h2⟩ := ending_error _ what h
      simp only [FactoryCall.call, h2]
      cases op
      case INV => simp [make_unary_gate, make_inv_gate, GateRegister.get_next_gate_id] at h1
      case NEG => exact unary_error_atomic _ p in_a what h1
      case SQR => exact unary_error_atomic _ p in_a what h1
      all_goals rfl
    | binary_gate op in_a in_b =>
      left
      obtain ⟨h1, h2⟩ := ending_error _ what h
      simp only [FactoryCall.call, h2]
      cases op
      case XOR => simp [make_binary_gate, make_xor_gate, GateRegister.get_next_gate_id] at h1
      case AND => simp [make_binary_gate, make_and_gate, GateRegister.get_next_gate_id] at h1
      case ADD => exact binary_error_atomic _ p in_a in_b what h1
      case MUL => exact binary_error_atomic _ p in_a in_b what h1
      all_goals rfl
    | convert proto in_a =>
      left
      obtain ⟨h1, h2⟩ := ending_error _ what h
      simp only [FactoryCall.call, h2]
      exact convert_error_atomic p proto in_a what h1
  · intro output_owner w h1 h2 h3
    simp [FactoryCall.call, make_arithmetic_output_gate_other, h1, h2,
      GateRegister.get_next_gate_id, outputGateForBitSize_unsupported _ _ _ h3, ending]

theorem cast_sub_mod (M x a : Nat) (hM : 0 < M) :
    (((x % M + M - a % M) % M : ℕ) : ZMod M) = (x : ZMod M) - (a : ZMod M) := by
  have h : a % M ≤ x % M + M := (Nat.mod_lt a hM).le.trans (Nat.le_add_left _ _)
  rw [ZMod.natCast_mod, Nat.cast_sub h, Nat.cast_add, ZMod.natCast_mod, ZMod.natCast_mod,
    ZMod.natCast_self, add_zero]

/-- C21: in the ring of the `k`-bit integers, for every width `k` (so for 8, 16, 32 and 64),
all shares `x_0, x_1, y_0, y_1` and every triple `(a_i, b_i, c_i)` with
`c_0 + c_1 = (a_0 + a_1)(b_0 + b_1) mod 2^k`, with `d` and `e` reconstructed from the shares
`x_i − a_i` and `y_i − b_i`, the value `d` is `(x_0 + x_1) − (a_0 + a_1)`, the value `e` is
`(y_0 + y_1) − (b_0 + b_1)`, and the outputs
`z_i = c_i + d·b_i + e·a_i + (d·e if i = 0 else 0)` satisfy
`z_0 + z_1 = (x_0 + x_1)(y_0 + y_1) mod 2^k`. -/
theorem C21_beaver_multiplication (k x_0 x_1 y_0 y_1 a_0 a_1 b_0 b_1 c_0 c_1 : Nat)
    (hc : (c_0 + c_1) % 2 ^ k = ((a_0 + a_1) * (b_0 + b_1)) % 2 ^ k) :
    (beaverShare k 0 a_0 b_0 c_0 (beaverOpen k x_0 x_1 a_0 a_1) (beaverOpen k y_0 y_1 b_0 b_1) +
        beaverShare k 1 a_1 b_1 c_1 (beaverOpen k x_0 x_1 a_0 a_1)
          (beaverOpen k y_0 y_1 b_0 b_1)) % 2 ^ k =
      ((x_0 + x_1) * (y_0 + y_1)) % 2 ^ k ∧
    (beaverOpen k x_0 x_1 a_0 a_1 + (a_0 + a_1)) % 2 ^ k = (x_0 + x_1) % 2 ^ k ∧
    (beaverOpen k y_0 y_1 b_0 b_1 + (b_0 + b_1)) % 2 ^ k = (y_0 + y_1) % 2 ^ k := by
  have hM : 0 < 2 ^ k := Nat.two_pow_pos k
  have hcz : ((c_0 : ZMod (2 ^ k)) + c_1) = ((a_0 : ZMod (2 ^ k)) + a_1) * (b_0 + b_1) := by
    have := (ZMod.natCast_eq_natCast_iff' (c_0 + c_1) ((a_0 + a_1) * (b_0 + b_1)) (2 ^ k)).mpr hc
    push_cast at this
    exact this
  have hopen : ∀ u_0 u_1 v_0 v_1 : Nat,
      ((beaverOpen k u_0 u_1 v_0 v_1 : ℕ) : ZMod (2 ^ k)) =
        ((u_0 : ZMod (2 ^ k)) - v_0) + (u_1 - v_1) := by
    intro u_0 u_1 v_0 v_1
    unfold beaverOpen
    rw [ZMod.natCast_mod, Nat.cast_add, cast_sub_mod _ _ _ hM, cast_sub_mod _ _ _ hM]
  refine ⟨?_, ?_, ?_⟩
  · apply (ZMod.natCast_eq_natCast_iff' _ _ (2 ^ k)).mp
    unfold beaverShare
    simp only [if_true, one_ne_zero, if_false, Nat.cast_add, ZMod.natCast_mod, Nat.cast_mul,
      hopen, add_zero]
    linear_combination hcz
  · apply (ZMod.natCast_eq_natCast_iff' _ _ (2 ^ k)).mp
    simp only [Nat.cast_add, hopen]
    ring
  · apply (ZMod.natCast_eq_natCast_iff' _ _ (2 ^ k)).mp
    simp only [Nat.cast_add, hopen]
    ring

/-- C21 (witness): 8-bit shares of `x = 5` and `y = 7` with the triple `3 · 4 = 12`. -/
theorem C21_beaver_multiplication_witness :
    (10 + 2) % 2 ^ 8 = ((1 + 2) * (3 + 1)) % 2 ^ 8 ∧
      (beaverShare 8 0 1 3 10 (beaverOpen 8 2 3 1 2) (beaverOpen 8 250 13 3 1) +
          beaverShare 8 1 2 1 2 (beaverOpen 8 2 3 1 2) (beaverOpen 8 250 13 3 1)) % 2 ^ 8 =
        ((2 + 3) * (250 + 13)) % 2 ^ 8 :=
  ⟨by decide, (C21_beaver_multiplication 8 2 3 250 13 1 2 3 1 10 2 (by decide)).1⟩

end MOTION.proto.gmw

namespace add_mul_compare

open MOTION.proto.gmw

theorem other_id_zero : other_id 0 = 1 := by decide

theorem other_id_one : other_id 1 = 0 := by decide

/-- The four gates of the addition circuit, as party 0 creates them from the gate id `n`
on. -/
theorem create_party_0 (options : Options) (p : GMWProvider) (h : options.my_id = 0)
    (hp : p.my_id = 0) :
    create_arith_add_circuit options p =
      ({ p with gate_register :=
          ⟨p.gate_register.next_gate_id + 4,
            p.gate_register.gates ++
              [⟨p.gate_register.next_gate_id, GateKind.ArithmeticGMWInputGateSender 64 1⟩,
                ⟨p.gate_register.next_gate_id + 1,
                  GateKind.ArithmeticGMWInputGateReceiver 64 1 1⟩,
                ⟨p.gate_register.next_gate_id + 2,
                  GateKind.ArithmeticGMWADDGate 64
                    (NewWire.ArithmeticGMWWire 64 1 p.gate_register.next_gate_id)
                    (NewWire.ArithmeticGMWWire 64 1 (p.gate_register.next_gate_id + 1))⟩,
                ⟨p.gate_register.next_gate_id + 3,
                  GateKind.ArithmeticGMWOutputGate 64
                    (NewWire.ArithmeticGMWWire 64 1 (p.gate_register.next_gate_id + 2))
                    ALL_PARTIES⟩]⟩ },
        Result.ok (p.gate_register.next_gate_id, p.gate_register.next_gate_id + 3)) := by
  simp [create_arith_add_circuit, h, hp, other_id_zero, make_arithmetic_64_input_gate_my,
    make_arithmetic_64_input_gate_other, basic_make_arithmetic_input_gate_my,
    basic_make_arithmetic_input_gate_other, GateRegister.get_next_gate_id,
    GateRegister.register_gate, arithmeticOutputWire, addAndOutput, make_binary_gate,
    make_add_gate, binary_single, NewWire.get_bit_size, NewWire.get_num_simd,
    NewWire.get_protocol,
    make_arithmetic_64_output_gate_my, basic_make_arithmetic_output_gate_my, cast_arith_wire]

/-- The four gates of the addition circuit, as party 1 creates them from the gate id `n`
on. -/
theorem create_party_1 (options : Options) (p : GMWProvider) (h : options.my_id = 1)
    (hp : p.my_id = 1) :
    create_arith_add_circuit options p =
      ({ p with gate_register :=
          ⟨p.gate_register.next_gate_id + 4,
            p.gate_register.gates ++
              [⟨p.gate_register.next_gate_id,
                  GateKind.ArithmeticGMWInputGateReceiver 64 1 0⟩,
                ⟨p.gate_register.next_gate_id + 1, GateKind.ArithmeticGMWInputGateSender 64 1⟩,
                ⟨p.gate_register.next_gate_id + 2,
                  GateKind.ArithmeticGMWADDGate 64
                    (NewWire.ArithmeticGMWWire 64 1 p.gate_register.next_gate_id)
                    (NewWire.ArithmeticGMWWire 64 1 (p.gate_register.next_gate_id + 1))⟩,
                ⟨p.gate_register.next_gate_id + 3,
                  GateKind.ArithmeticGMWOutputGate 64
                    (NewWire.ArithmeticGMWWire 64 1 (p.gate_register.next_gate_id + 2))
                    ALL_PARTIES⟩]⟩ },
        Result.ok (p.gate_register.next_gate_id + 1, p.gate_register.next_gate_id + 3)) := by
  simp [create_arith_add_circuit, h, hp, other_id_one, make_arithmetic_64_input_gate_my,
    make_arithmetic_64_input_gate_other, basic_make_arithmetic_input_gate_my,
    basic_make_arithmetic_input_gate_other, GateRegister.get_next_gate_id,
    GateRegister.register_gate, arithmeticOutputWire, addAndOutput, make_binary_gate,
    make_add_gate, binary_single, NewWire.get_bit_size, NewWire.get_num_simd,
    NewWire.get_protocol,
    make_arithmetic_64_output_gate_my, basic_make_arithmetic_output_gate_my, cast_arith_wire]

theorem reconstruct_sum (a b r s : Nat) :
    ((r % 2 ^ 64 + (b % 2 ^ 64 + 2 ^ 64 - s % 2 ^ 64) % 2 ^ 64) % 2 ^ 64 +
        ((a % 2 ^ 64 + 2 ^ 64 - r % 2 ^ 64) % 2 ^ 64 + s % 2 ^ 64) % 2 ^ 64) % 2 ^ 64 =
      (a + b) % 2 ^ 64 := by
  norm_num
  omega

/-- The joint evaluation of the two addition circuits on fresh registers. -/
theorem evaluate_add_circuit (a b : Nat) (rand : Nat → Nat) :
    evaluateGates [(0, a)] [(1, b)] rand ⟨[], [], [], []⟩
        [⟨0, GateKind.ArithmeticGMWInputGateSender 64 1⟩,
          ⟨1, GateKind.ArithmeticGMWInputGateReceiver 64 1 1⟩,
          ⟨2, GateKind.ArithmeticGMWADDGate 64 (NewWire.ArithmeticGMWWire 64 1 0)
            (NewWire.ArithmeticGMWWire 64 1 1)⟩,
          ⟨3, GateKind.ArithmeticGMWOutputGate 64 (NewWire.ArithmeticGMWWire 64 1 2)
            ALL_PARTIES⟩]
        [⟨0, GateKind.ArithmeticGMWInputGateReceiver 64 1 0⟩,
          ⟨1, GateKind.ArithmeticGMWInputGateSender 64 1⟩,
          ⟨2, GateKind.ArithmeticGMWADDGate 64 (NewWire.ArithmeticGMWWire 64 1 0)
            (NewWire.ArithmeticGMWWire 64 1 1)⟩,
          ⟨3, GateKind.ArithmeticGMWOutputGate 64 (NewWire.ArithmeticGMWWire 64 1 2)
            ALL_PARTIES⟩] =
      some ⟨[(2, (rand 0 % 2 ^ 64 + (b % 2 ^ 64 + 2 ^ 64 - rand 1 % 2 ^ 64) % 2 ^ 64) % 2 ^ 64),
          (1, (b % 2 ^ 64 + 2 ^ 64 - rand 1 % 2 ^ 64) % 2 ^ 64), (0, rand 0 % 2 ^ 64)],
        [(2, ((a % 2 ^ 64 + 2 ^ 64 - rand 0 % 2 ^ 64) % 2 ^ 64 + rand 1 % 2 ^ 64) % 2 ^ 64),
          (1, rand 1 % 2 ^ 64), (0, (a % 2 ^ 64 + 2 ^ 64 - rand 0 % 2 ^ 64) % 2 ^ 64)],
        [(3, (a + b) % 2 ^ 64)], [(3, (a + b) % 2 ^ 64)]⟩ := by
  simp only [evaluateGates, evaluateGate,
    List.lookup, NewWire.gate_id, ne_eq, not_true_eq_false, if_false, and_self, if_true,
    Option.map_some', beq_self_eq_true, true_or, true_and, Nat.reduceBEq, reconstruct_sum]

theorem fresh_party_0 (options : Options) (h : options.my_id = 0) :
    create_arith_add_circuit options (GMWProvider.new 0 2) =
      (⟨0, 2, ⟨4,
          [⟨0, GateKind.ArithmeticGMWInputGateSender 64 1⟩,
            ⟨1, GateKind.ArithmeticGMWInputGateReceiver 64 1 1⟩,
            ⟨2, GateKind.ArithmeticGMWADDGate 64 (NewWire.ArithmeticGMWWire 64 1 0)
              (NewWire.ArithmeticGMWWire 64 1 1)⟩,
            ⟨3, GateKind.ArithmeticGMWOutputGate 64 (NewWire.ArithmeticGMWWire 64 1 2)
              ALL_PARTIES⟩]⟩, 0⟩, Result.ok (0, 3)) := by
  rw [create_party_0 options _ h rfl]
  rfl

theorem fresh_party_1 (options : Options) (h : options.my_id = 1) :
    create_arith_add_circuit options (GMWProvider.new 1 2) =
      (⟨1, 2, ⟨4,
          [⟨0, GateKind.ArithmeticGMWInputGateReceiver 64 1 0⟩,
            ⟨1, GateKind.ArithmeticGMWInputGateSender 64 1⟩,
            ⟨2, GateKind.ArithmeticGMWADDGate 64 (NewWire.ArithmeticGMWWire 64 1 0)
              (NewWire.ArithmeticGMWWire 64 1 1)⟩,
            ⟨3, GateKind.ArithmeticGMWOutputGate 64 (NewWire.ArithmeticGMWWire 64 1 2)
              ALL_PARTIES⟩]⟩, 0⟩, Result.ok (1, 3)) := by
  rw [create_party_1 options _ h rfl]
  rfl

/-- C20: party 0 and party 1 each call `run_add_circuit` on a fresh backend, with the GMW
factory as arithmetic factory and without the no-run option, party 0 with
`input_value_1 = a` and party 1 with `input_value_1 = b`. Whatever the input owners sample,
each call sets its input promise, runs, and reads from its output future the value
`(a + b) mod 2^64`, which it prints unless the JSON option is set. The gates evaluate as the
Arithmetic-GMW sharing of the spec says (the gate classes are not part of the sources). -/
theorem C20_addition_scenario (options_0 options_1 : Options) (rand : Nat → Nat)
    (h0 : options_0.my_id = 0) (h1 : options_1.my_id = 1)
    (hr0 : options_0.no_run = false) (hr1 : options_1.no_run = false) :
    (run_add_circuit options_0 (GMWProvider.new 0 2)
        (partyOf options_1 (GMWProvider.new 1 2)) rand).2 =
      ([Action.set_value 0 options_0.input_value_1, Action.run,
          Action.get 3 ((options_0.input_value_1 + options_1.input_value_1) % 2 ^ 64)] ++
          (if options_0.json then []
            else [Action.print
              ((options_0.input_value_1 + options_1.input_value_1) % 2 ^ 64)]),
        Result.ok ()) ∧
    (run_add_circuit options_1 (GMWProvider.new 1 2)
        (partyOf options_0 (GMWProvider.new 0 2)) rand).2 =
      ([Action.set_value 1 options_1.input_value_1, Action.run,
          Action.get 3 ((options_0.input_value_1 + options_1.input_value_1) % 2 ^ 64)] ++
          (if options_1.json then []
            else [Action.print
              ((options_0.input_value_1 + options_1.input_value_1) % 2 ^ 64)]),
        Result.ok ()) := by
  constructor
  · simp only [run_add_circuit, partyOf, fresh_party_0 _ h0, fresh_party_1 _ h1, hr0, hr1,
      backend_run, evaluate_add_circuit, Bool.false_eq_true, if_false, and_self, if_true,
      Option.map_some', Option.some_bind, List.lookup, beq_self_eq_true]
  · simp only [run_add_circuit, partyOf, fresh_party_0 _ h0, fresh_party_1 _ h1, hr0, hr1,
      backend_run, evaluate_add_circuit, Bool.false_eq_true, if_false, and_self, if_true,
      Option.map_some', Option.some_bind, List.lookup, beq_self_eq_true, Nat.reduceEqDiff,
      one_ne_zero, zero_ne_one, false_and]

/-- C20 (witness): `a = 7` and `b = 35` give `42` on both parties. -/
theorem C20_addition_scenario_witness :
    (run_add_circuit (sampleOptions 0 7 false) (GMWProvider.new 0 2)
        (partyOf (sampleOptions 1 35 false) (GMWProvider.new 1 2)) (fun g => 1000 + g)).2 =
      ([Action.set_value 0 7, Action.run, Action.get 3 42, Action.print 42], Result.ok ()) ∧
    (run_add_circuit (sampleOptions 1 35 false) (GMWProvider.new 1 2)
        (partyOf (sampleOptions 0 7 false) (GMWProvider.new 0 2)) (fun g => 1000 + g)).2 =
      ([Action.set_value 1 35, Action.run, Action.get 3 42, Action.print 42], Result.ok ()) :=
  C20_addition_scenario (sampleOptions 0 7 false) (sampleOptions 1 35 false)
    (fun g => 1000 + g) rfl rfl rfl rfl

/-- C26: for `my_id = 0` and for `my_id = 1`, on providers of party 0 and party 1 whose
registers hand out the same next gate id `n` (`n = 0` on fresh backends),
`create_arith_add_circuit` registers four gates with the ids `n`, `n + 1`, `n + 2`, `n + 3`:
the 64-bit input gate owned by party 0, the 64-bit input gate owned by party 1, the ADD gate
over the wires of these two gates with the wire of party 0 first, and the output gate for
`ALL_PARTIES` over the wire of the ADD gate. The two lists differ only in which input gate
is the sender and which the receiver: party 0 is the sender of gate `n` and the receiver of
gate `n + 1` (owner 1), party 1 the receiver of gate `n` (owner 0) and the sender of gate
`n + 1`. -/
theorem C26_same_gate_layout (options_0 options_1 : Options) (p_0 p_1 : GMWProvider)
    (h0 : options_0.my_id = 0) (h1 : options_1.my_id = 1) (hp0 : p_0.my_id = 0)
    (hp1 : p_1.my_id = 1)
    (hn : p_0.gate_register.next_gate_id = p_1.gate_register.next_gate_id) :
    (create_arith_add_circuit options_0 p_0).1.gate_register.gates =
        p_0.gate_register.gates ++
          [⟨p_0.gate_register.next_gate_id, GateKind.ArithmeticGMWInputGateSender 64 1⟩,
            ⟨p_0.gate_register.next_gate_id + 1,
              GateKind.ArithmeticGMWInputGateReceiver 64 1 1⟩,
            ⟨p_0.gate_register.next_gate_id + 2,
              GateKind.ArithmeticGMWADDGate 64
                (NewWire.ArithmeticGMWWire 64 1 p_0.gate_register.next_gate_id)
                (NewWire.ArithmeticGMWWire 64 1 (p_0.gate_register.next_gate_id + 1))⟩,
            ⟨p_0.gate_register.next_gate_id + 3,
              GateKind.ArithmeticGMWOutputGate 64
                (NewWire.ArithmeticGMWWire 64 1 (p_0.gate_register.next_gate_id + 2))
                ALL_PARTIES⟩] ∧
      (create_arith_add_circuit options_1 p_1).1.gate_register.gates =
        p_1.gate_register.gates ++
          [⟨p_0.gate_register.next_gate_id, GateKind.ArithmeticGMWInputGateReceiver 64 1 0⟩,
            ⟨p_0.gate_register.next_gate_id + 1, GateKind.ArithmeticGMWInputGateSender 64 1⟩,
            ⟨p_0.gate_register.next_gate_id + 2,
              GateKind.ArithmeticGMWADDGate 64
                (NewWire.ArithmeticGMWWire 64 1 p_0.gate_register.next_gate_id)
                (NewWire.ArithmeticGMWWire 64 1 (p_0.gate_register.next_gate_id + 1))⟩,
            ⟨p_0.gate_register.next_gate_id + 3,
              GateKind.ArithmeticGMWOutputGate 64
                (NewWire.ArithmeticGMWWire 64 1 (p_0.gate_register.next_gate_id + 2))
                ALL_PARTIES⟩] ∧
      (create_arith_add_circuit options_0 p_0).2 =
        Result.ok (p_0.gate_register.next_gate_id, p_0.gate_register.next_gate_id + 3) ∧
      (create_arith_add_circuit options_1 p_1).2 =
        Result.ok (p_0.gate_register.next_gate_id + 1, p_0.gate_register.next_gate_id + 3) ∧
      ((create_arith_add_circuit options_0 p_0).1.gate_register.gates.drop
          p_0.gate_register.gates.length).map (fun g => g.gate_id) =
        ((create_arith_add_circuit options_1 p_1).1.gate_register.gates.drop
          p_1.gate_register.gates.length).map (fun g => g.gate_id) := by
  rw [create_party_0 options_0 p_0 h0 hp0, create_party_1 options_1 p_1 h1 hp1, ← hn]
  simp

/-- C26 (witness): on fresh backends the gates have the ids 0, 1, 2, 3. -/
theorem C26_same_gate_layout_witness :
    (create_arith_add_circuit (sampleOptions 0 7 false)
        (GMWProvider.new 0 2)).1.gate_register.gates =
      [⟨0, GateKind.ArithmeticGMWInputGateSender 64 1⟩,
        ⟨1, GateKind.ArithmeticGMWInputGateReceiver 64 1 1⟩,
        ⟨2, GateKind.ArithmeticGMWADDGate 64 (NewWire.ArithmeticGMWWire 64 1 0)
          (NewWire.ArithmeticGMWWire 64 1 1)⟩,
        ⟨3, GateKind.ArithmeticGMWOutputGate 64 (NewWire.ArithmeticGMWWire 64 1 2)
          ALL_PARTIES⟩] ∧
    (create_arith_add_circuit (sampleOptions 1 35 false)
        (GMWProvider.new 1 2)).1.gate_register.gates =
      [⟨0, GateKind.ArithmeticGMWInputGateReceiver 64 1 0⟩,
        ⟨1, GateKind.ArithmeticGMWInputGateSender 64 1⟩,
        ⟨2, GateKind.ArithmeticGMWADDGate 64 (NewWire.ArithmeticGMWWire 64 1 0)
          (NewWire.ArithmeticGMWWire 64 1 1)⟩,
        ⟨3, GateKind.ArithmeticGMWOutputGate 64 (NewWire.ArithmeticGMWWire 64 1 2)
          ALL_PARTIES⟩] :=
  ⟨(C26_same_gate_layout (sampleOptions 0 7 false) (sampleOptions 1 35 false)
      (GMWProvider.new 0 2) (GMWProvider.new 1 2) rfl rfl rfl rfl rfl).1,
    (C26_same_gate_layout (sampleOptions 0 7 false) (sampleOptions 1 35 false)
      (GMWProvider.new 0 2) (GMWProvider.new 1 2) rfl rfl rfl rfl rfl).2.1⟩

/-- C22: whenever `parse_program_options` returns options, their `my_id` is the value of the
`my-id` option and it is 0 or 1; with a `my-id` greater than 1 the function returns
`std::nullopt` (when the help option is set or `po::notify` fails it returns `std::nullopt`
before it looks at `my-id`). -/
theorem C22_my_id_zero_or_one (vm : VariablesMap) :
    (∀ options : Options, parse_program_options vm = Result.ok (some options) →
      options.my_id = vm.my_id ∧ (options.my_id = 0 ∨ options.my_id = 1)) ∧
    (1 < vm.my_id → parse_program_options vm = Result.ok none) := by
  constructor
  · intro options h
    unfold parse_program_options at h
    by_cases h1 : vm.help = true
    · simp [h1] at h
    by_cases h2 : vm.notify_ok = true
    swap
    · simp [h1, h2] at h
    by_cases h3 : vm.my_id > 1
    · simp [h1, h2, h3] at h
    have hid : vm.my_id = 0 ∨ vm.my_id = 1 := by omega
    simp only [h1, h2, h3, Bool.false_eq_true, if_false, Bool.not_true] at h
    repeat' first
      | (cases h; done)
      | split at h
    all_goals
      simp only [Result.ok.injEq, Option.some.injEq] at h
      rw [← h]
      exact ⟨rfl, hid⟩
  · intro h
    unfold parse_program_options
    split_ifs <;> rfl

end add_mul_compare
